import Mathlib

/-!
# Discrete berth allocation model: embedding and verified properties

Shallow embedding of the C++ sources `modelParam.h`, `data_init.cpp` and
`verify.cpp`.

Conventions of the embedding.

* `double` values are rationals and arithmetic is exact.  The divisions the
  source guards (lines 403, 669, 672, 804, 840) never meet a zero divisor.  The
  unguarded division of the objective (line 373) is modelled explicitly: when
  the loop meets a zero divisor the coefficient is infinite or NaN and the
  objective has no value (`none`).  The unguarded division of line 530 keeps
  the total division of `ℚ`.
* The five counts of an instance are naturals; `loadParamsFromCSV` clamps each
  of them to be non-negative (verify.cpp lines 92-96).
* `std::vector` tables are total functions of their indices; only the entries
  below the counts are ever read by the loops embedded here.
* An accumulation loop `for (i = 0; i < n; i++) acc += t(i)` is the finite sum
  `∑ i ∈ Finset.range n, t i`; a guarded `continue` contributes `0`.
* The solver is not modelled.  `model.add(c)` inside a loop nest becomes the
  statement that `c` holds at every index tuple the nest visits, and a
  feasible assignment is a valuation of the declared variables that satisfies
  every such statement together with the declared variable domains.
* `int` arithmetic is exact (no wrap-around is modelled; signed overflow is
  undefined in the source language).
* The last-slot constraint of line 497 names slot `numSlotsPerRow - 1`.  For
  `numSlotsPerRow = 0` the source indexes slot `-1`, outside every array; the
  truncated subtraction used here then names slot `0`, which no sum, domain
  or other constraint ranges over.
* A parameter file is the list of its lines and a line the list of its
  characters.  `std::stoi` and the decimal output of an `int` are embedded
  from their C++ specification; the text conversions of a `double`
  (`operator<<` and `std::stod`) are parameters of the loader and the writer.
-/

namespace DiscreteBerth

open Finset

/-! ## Data model -/

/-- Instance data: `struct ModelParams` of modelParam.h. -/
structure ModelParams where
  numBerths : Nat
  numRows : Nat
  numSlotsPerRow : Nat
  numShips : Nat
  planningHorizon : ℚ
  numShipK : Nat
  unloadingSpeed : Nat → Nat → Nat → ℚ
  transshipmentCost : Nat → Nat → Nat → ℚ
  storageCost : Nat → Nat → Nat → ℚ
  arrivalTime : Nat → ℚ
  cargoWeight : Nat → ℚ
  cargoDensity : Nat → Nat → ℚ
  maxResponseAngle : Nat → Nat → ℚ
  requiredSlots : Nat → Nat → Int
  width : ℚ
  relativeHeight : ℚ
  alpha : ℚ
  beta : ℚ

/-- Values of the decision variables declared in `main` of verify.cpp
(lines 262-276 and 539-541), as returned by `cplex.getValue`. -/
structure Assignment where
  x : Nat → Nat → Nat → Nat → ℚ
  h : Nat → Nat → Nat → Nat → ℚ
  f : Nat → Nat → Nat → ℚ
  y : Nat → Nat → ℚ
  z : Nat → Nat → ℚ
  q : Nat → Nat → Nat → ℚ
  e : Nat → ℚ
  e_sk : Nat → Nat → ℚ
  omega : Nat → Nat → Nat → ℚ
  lambda : Nat → Nat → Nat → ℚ
  mu : Nat → Nat → Nat → ℚ

/-- Domain of an `IloBoolVar`: the value is 0 or 1. -/
def IsBool (v : ℚ) : Prop := v = 0 ∨ v = 1

instance (v : ℚ) : Decidable (IsBool v) := by
  unfold IsBool; infer_instance

/-! ## Processing times (verify.cpp lines 402-404, 530, 665-674) -/

/-- The guard `if (speed <= 0) speed = 1.0;` of lines 403, 669, 672 and 840. -/
def guardSpeed (speed : ℚ) : ℚ := if speed ≤ 0 then 1 else speed

/-- Value `proc_s_b` accumulated in lines 665-674 for ship `s` on berth `b`. -/
def proc (p : ModelParams) (s b : Nat) : ℚ :=
  ∑ k ∈ range p.numShipK,
    p.cargoWeight s / ((p.numShipK : ℚ) * guardSpeed (p.unloadingSpeed s b k))

/-- Value `duration_kb` of line 530 (no guard on the speed). -/
def duration (p : ModelParams) (s k b : Nat) : ℚ :=
  p.cargoWeight s / ((p.numShipK : ℚ) * p.unloadingSpeed s b k)

/-- Constant `Mbig` of line 531. -/
def Mbig : ℚ := 10000

/-- Constant `M1` of line 624. -/
def M1 (p : ModelParams) : ℚ := p.planningHorizon + 150000

/-! ## Constraint families added by the model builder -/

/-- The ten constraints of lines 601-618 for one triple `(s, t, b)`, on the
values of `z[s][b]`, `z[t][b]`, `y[s][t]`, `omega[s][t][b]`, `lambda[s][t][b]`
and `mu[s][t][b]`. -/
def linearization (zs zt yst om la m : ℚ) : Prop :=
  la + m - om = 0 ∧
  om ≤ zs ∧
  om ≤ zt ∧
  om ≥ zs + zt - 1 ∧
  m ≤ om ∧
  m ≤ yst ∧
  m ≥ om + yst - 1 ∧
  la ≤ om ∧
  la ≤ 1 - yst ∧
  la ≥ om + (1 - yst) - 1

instance (zs zt yst om la m : ℚ) : Decidable (linearization zs zt yst om la m) := by
  unfold linearization; infer_instance

/-- Feasible assignments of the model built by `main` of verify.cpp: the
declared domains (lines 280-361, 546-593) and every constraint added in
lines 419-536 and 596-681. -/
structure Feasible (p : ModelParams) (a : Assignment) : Prop where
  /-- line 285: `z[s][b]` is Boolean -/
  dom_z : ∀ s < p.numShips, ∀ b < p.numBerths, IsBool (a.z s b)
  /-- line 295: `q[s][k][t]` is Boolean -/
  dom_q : ∀ s < p.numShips, ∀ k < p.numShipK, ∀ t < p.numShipK, IsBool (a.q s k t)
  /-- line 304: `y[s][t]` is Boolean -/
  dom_y : ∀ s < p.numShips, ∀ t < p.numShips, IsBool (a.y s t)
  /-- line 314: `f[s][k][r]` is Boolean -/
  dom_f : ∀ s < p.numShips, ∀ k < p.numShipK, ∀ r < p.numRows, IsBool (a.f s k r)
  /-- line 320: `e[s]` lies in `[arrivalTime[s], planningHorizon]` -/
  dom_e : ∀ s < p.numShips, p.arrivalTime s ≤ a.e s ∧ a.e s ≤ p.planningHorizon
  /-- line 325: `e_sk[s][k]` lies in `[arrivalTime[s], +∞)` -/
  dom_e_sk : ∀ s < p.numShips, ∀ k < p.numShipK, p.arrivalTime s ≤ a.e_sk s k
  /-- line 340: `x[s][k][r][v]` is Boolean -/
  dom_x : ∀ s < p.numShips, ∀ k < p.numShipK, ∀ r < p.numRows,
    ∀ v < p.numSlotsPerRow, IsBool (a.x s k r v)
  /-- line 355: `h[s][k][r][v]` is Boolean -/
  dom_h : ∀ s < p.numShips, ∀ k < p.numShipK, ∀ r < p.numRows,
    ∀ v < p.numSlotsPerRow, IsBool (a.h s k r v)
  /-- lines 569-571: `omega`, `lambda`, `mu` are Boolean -/
  dom_lin : ∀ s < p.numShips, ∀ t < p.numShips, ∀ b < p.numBerths,
    IsBool (a.omega s t b) ∧ IsBool (a.lambda s t b) ∧ IsBool (a.mu s t b)
  /-- lines 420-427, constraint (3.8) -/
  singleBerth : ∀ s < p.numShips, ∑ b ∈ range p.numBerths, a.z s b = 1
  /-- lines 430-442, constraint (3.11) -/
  slotCount : ∀ s < p.numShips, ∀ k < p.numShipK,
    ∑ r ∈ range p.numRows, ∑ v ∈ range p.numSlotsPerRow, a.x s k r v
      = (p.requiredSlots s k : ℚ)
  /-- lines 446-457, constraint (3.12) -/
  slotExclusive : ∀ r < p.numRows, ∀ v < p.numSlotsPerRow,
    ∑ s ∈ range p.numShips, ∑ k ∈ range p.numShipK, a.x s k r v ≤ 1
  /-- lines 460-469, constraint (3.13) -/
  singleRow : ∀ s < p.numShips, ∀ k < p.numShipK,
    ∑ r ∈ range p.numRows, a.f s k r = 1
  /-- lines 472-483, constraint (3.14) -/
  rowLink : ∀ s < p.numShips, ∀ k < p.numShipK, ∀ r < p.numRows,
    ∑ v ∈ range p.numSlotsPerRow, a.x s k r v ≤ (p.numSlotsPerRow : ℚ) * a.f s k r
  /-- lines 489-494, constraint (12) -/
  boundarySum : ∀ s < p.numShips, ∀ k < p.numShipK, ∀ r < p.numRows,
    ∑ v ∈ range p.numSlotsPerRow, a.h s k r v = a.f s k r
  /-- line 497, constraint (13), at slot index `numSlotsPerRow - 1` -/
  boundaryLast : ∀ s < p.numShips, ∀ k < p.numShipK, ∀ r < p.numRows,
    a.x s k r (p.numSlotsPerRow - 1) ≤ a.h s k r (p.numSlotsPerRow - 1)
  /-- lines 500-502, constraint (14) -/
  boundaryStep : ∀ s < p.numShips, ∀ k < p.numShipK, ∀ r < p.numRows,
    ∀ v < p.numSlotsPerRow - 1, a.x s k r v - a.x s k r (v + 1) ≤ a.h s k r v
  /-- lines 508-513 -/
  startAfterShip : ∀ s < p.numShips, ∀ k < p.numShipK, a.e s ≤ a.e_sk s k
  /-- line 521 -/
  orderPair : ∀ s < p.numShips, ∀ k < p.numShipK, ∀ t < p.numShipK, t ≠ k →
    a.q s k t + a.q s t k - 1 = 0
  /-- lines 522-533 -/
  orderBigM : ∀ s < p.numShips, ∀ k < p.numShipK, ∀ t < p.numShipK, t ≠ k →
    ∀ b < p.numBerths,
      a.e_sk s k + duration p s k b - a.e_sk s t ≤ Mbig * (2 - a.q s k t - a.z s b)
  /-- lines 596-621, constraints (24)-(33) -/
  linear : ∀ s < p.numShips, ∀ t < p.numShips, s ≠ t → ∀ b < p.numBerths,
    linearization (a.z s b) (a.z t b) (a.y s t)
      (a.omega s t b) (a.lambda s t b) (a.mu s t b)
  /-- line 676 -/
  noOverlapLambda : ∀ s < p.numShips, ∀ t < p.numShips, s ≠ t → ∀ b < p.numBerths,
    a.e s + proc p s b ≤ a.e t + M1 p * (1 - a.lambda s t b)
  /-- line 678 -/
  noOverlapMu : ∀ s < p.numShips, ∀ t < p.numShips, s ≠ t → ∀ b < p.numBerths,
    a.e t + proc p t b ≤ a.e s + M1 p * (1 - a.mu s t b)

/-! ## Objective built by the model builder (verify.cpp lines 364-415) -/

/-- Whether the loop nest of lines 366-379 divides by zero: some iteration of
its body has the divisor `requiredSlots[s][k] * numShipK` equal to zero. -/
def zeroDivisorMet (p : ModelParams) : Bool :=
  (List.range p.numShips).any (fun s =>
    (List.range p.numShipK).any (fun k =>
      (List.range p.numBerths).any (fun _ =>
        (List.range p.numRows).any (fun _ =>
          (List.range p.numSlotsPerRow).any (fun _ =>
            decide (p.requiredSlots s k * (p.numShipK : Int) = 0))))))

/-- Transshipment part accumulated in `objExpr` by lines 366-379; the divisor
`requiredSlots[s][k] * numShipK` is an integer product converted to a real.
The division of line 373 is not guarded: when the nest meets a zero divisor
the coefficient is infinite or NaN, and the expression has no value. -/
def transshipmentTotal (p : ModelParams) (a : Assignment) : Option ℚ :=
  if zeroDivisorMet p then none
  else some (∑ s ∈ range p.numShips, ∑ k ∈ range p.numShipK, ∑ b ∈ range p.numBerths,
    ∑ r ∈ range p.numRows, ∑ v ∈ range p.numSlotsPerRow,
      p.transshipmentCost b r v * p.cargoWeight s
        / (((p.requiredSlots s k * (p.numShipK : Int) : Int)) : ℚ)
        * a.x s k r v * a.z s b)

/-- Storage part accumulated in `objExpr` by lines 382-390. -/
def storageTotal (p : ModelParams) (a : Assignment) : ℚ :=
  ∑ s ∈ range p.numShips, ∑ k ∈ range p.numShipK,
    ∑ r ∈ range p.numRows, ∑ v ∈ range p.numSlotsPerRow,
      p.storageCost s k r * a.x s k r v

/-- Expression `berthTime` accumulated by lines 393-409. -/
def berthTimeTotal (p : ModelParams) (a : Assignment) : ℚ :=
  ∑ s ∈ range p.numShips,
    ((a.e s - p.arrivalTime s) +
      ∑ k ∈ range p.numShipK, ∑ b ∈ range p.numBerths,
        (p.cargoWeight s / (guardSpeed (p.unloadingSpeed s b k) * (p.numShipK : ℚ)))
          * a.z s b)

/-- Objective of line 411: `alpha * objExpr + beta * berthTime`; it has a
value when the transshipment part has one. -/
def objective (p : ModelParams) (a : Assignment) : Option ℚ :=
  (transshipmentTotal p a).map
    (fun t => p.alpha * (t + storageTotal p a) + p.beta * berthTimeTotal p a)

/-! ## Per-ship cost decomposition of the interpreter (verify.cpp lines 799-857) -/

/-- Threshold `1e-6` of lines 808, 812, 825 and 837. -/
def eps : ℚ := 1 / 1000000

/-- Value `transCostS` of lines 801-817 for ship `s`. -/
def transCostS (p : ModelParams) (a : Assignment) (s : Nat) : ℚ :=
  ∑ k ∈ range p.numShipK,
    if p.requiredSlots s k ≤ 0 then 0 else
      ∑ b ∈ range p.numBerths,
        if a.z s b ≤ eps then 0 else
          ∑ r ∈ range p.numRows, ∑ v ∈ range p.numSlotsPerRow,
            if a.x s k r v ≤ eps then 0 else
              p.transshipmentCost b r v
                * (p.cargoWeight s / ((p.requiredSlots s k : ℚ) * (p.numShipK : ℚ)))
                * a.x s k r v * a.z s b

/-- Value `storeCostS` of lines 820-829 for ship `s`. -/
def storeCostS (p : ModelParams) (a : Assignment) (s : Nat) : ℚ :=
  ∑ k ∈ range p.numShipK, ∑ r ∈ range p.numRows, ∑ v ∈ range p.numSlotsPerRow,
    if a.x s k r v ≤ eps then 0 else p.storageCost s k r * a.x s k r v

/-- Value `berthTimeS` of lines 832-843 for ship `s`. -/
def berthTimeS (p : ModelParams) (a : Assignment) (s : Nat) : ℚ :=
  (a.e s - p.arrivalTime s) +
    ∑ b ∈ range p.numBerths,
      if a.z s b ≤ eps then 0 else
        ∑ k ∈ range p.numShipK,
          p.cargoWeight s / (guardSpeed (p.unloadingSpeed s b k) * (p.numShipK : ℚ))
            * a.z s b

/-- Value `weighted` of line 854 for ship `s`. -/
def weighted (p : ModelParams) (a : Assignment) (s : Nat) : ℚ :=
  p.alpha * (transCostS p a s + storeCostS p a s) + p.beta * berthTimeS p a s

/-! ## Console interval merge (verify.cpp lines 750-762) -/

/-- Loop of lines 753-762 over the remaining entries of `occ`, with the
current `start`, `prev` and the intervals emitted so far; the final
`emplace_back` of line 762 closes the last interval. -/
def mergeLoop : List Int → Int → Int → List (Int × Int) → List (Int × Int)
  | [], start, prev, intervals => intervals ++ [(start, prev)]
  | cur :: rest, start, prev, intervals =>
    if cur = prev + 1 then mergeLoop rest start cur intervals
    else mergeLoop rest cur cur (intervals ++ [(start, prev)])

/-- Interval merge of lines 748-762: nothing is produced for an empty `occ`
(line 748), otherwise the scan starts with `start = prev = occ[0]`. -/
def consoleMerge : List Int → List (Int × Int)
  | [] => []
  | first :: rest => mergeLoop rest first first []

/-- The integers of the closed range `[start..end]` of an interval. -/
def inInterval (v : Int) (iv : Int × Int) : Prop := iv.1 ≤ v ∧ v ≤ iv.2

instance (v : Int) (iv : Int × Int) : Decidable (inInterval v iv) := by
  unfold inInterval; infer_instance

/-- A list of intervals covers exactly the elements of `occ`. -/
def CoversExactly (ivs : List (Int × Int)) (occ : List Int) : Prop :=
  ∀ v : Int, v ∈ occ ↔ ∃ iv ∈ ivs, inInterval v iv

/-- Consecutive intervals are separated by a missing index:
the next start exceeds the previous end by more than one. -/
def Separated (ivs : List (Int × Int)) : Prop :=
  ivs.Chain' (fun i j => i.2 + 1 < j.1)

/-! ## Instance generator (data_init.cpp lines 50-178) -/

/-- Values drawn by `setParams` from its random distributions (lines 68-74),
one per index tuple at which the generator draws. -/
structure Draws where
  Tau_s : Nat → ℚ
  unloadSpeed : Nat → Nat → Nat → ℚ
  R : Nat → Nat → Nat → ℚ
  saveCos : Nat → Nat → Nat → ℚ
  weight : Nat → ℚ
  density : Nat → Nat → ℚ
  angel : Nat → Nat → ℚ

/-- Slot count of lines 150-157 for one compartment; `tanv` is the library
tangent applied to the response angle. -/
def slotFormula (tanv : ℚ → ℚ) (width relativeHeight : ℚ) (numShipK : Nat)
    (cargoWeight cargoDensity angle : ℚ) : Int :=
  let volume := cargoWeight / (cargoDensity * (numShipK : ℚ))
  let term := 4 / (width ^ 3 * relativeHeight * (2 - relativeHeight) * tanv angle)
  let inside := volume + (1 / 12) * width ^ 3 * relativeHeight ^ 2
    * (3 - 2 * relativeHeight) * tanv angle
  ⌈term * inside⌉

/-- Instance assembled by lines 51-159 of `setParams`, before the capacity
check. -/
def generated (tanv : ℚ → ℚ) (numBerths numShips : Nat) (d : Draws) : ModelParams where
  numBerths := numBerths
  numRows := 20
  numSlotsPerRow := 24
  numShips := numShips
  planningHorizon := 168
  numShipK := 3
  unloadingSpeed := d.unloadSpeed
  transshipmentCost := fun b r v => d.R b r v + (1 / 2) * (v : ℚ)
  storageCost := d.saveCos
  arrivalTime := d.Tau_s
  cargoWeight := d.weight
  cargoDensity := d.density
  maxResponseAngle := d.angel
  requiredSlots := fun s k =>
    slotFormula tanv 50 (1 / 2) 3 (d.weight s) (d.density s k) (d.angel s k)
  width := 50
  relativeHeight := 1 / 2
  alpha := 1
  beta := 20000

/-- Value `totalRequiredSlots` of lines 162-168. -/
def totalRequiredSlots (p : ModelParams) : Int :=
  ∑ s ∈ range p.numShips, ∑ k ∈ range p.numShipK, p.requiredSlots s k

/-- Value `totalAvailableSlots` of line 170. -/
def totalAvailableSlots (p : ModelParams) : Int :=
  (p.numRows : Int) * (p.numSlotsPerRow : Int)

/-- Function `setParams`: `none` stands for the `exit(1)` of line 174, `some`
for the instance returned at line 177. -/
def setParams (tanv : ℚ → ℚ) (numBerths numShips : Nat) (d : Draws) : Option ModelParams :=
  let params := generated tanv numBerths numShips d
  if totalRequiredSlots params > totalAvailableSlots params then none else some params

/-! ## Runs of occupied slots -/

/-- The occupied slots of a row of `V` slots (those `v` with value 1) form
exactly one run of consecutive indices `lo, ..., hi`. -/
def FormsOneRun (xr : Nat → ℚ) (V : Nat) : Prop :=
  ∃ lo hi : Nat, lo ≤ hi ∧ hi < V ∧ ∀ v < V, (xr v = 1 ↔ lo ≤ v ∧ v ≤ hi)

/-! ## Concrete instances and assignments used to evaluate the model -/

/-- Two ships, one berth, two rows of three slots, two compartments per ship;
compartment 0 of ship 0 needs two slots, every other compartment one. -/
def demoParams : ModelParams where
  numBerths := 1
  numRows := 2
  numSlotsPerRow := 3
  numShips := 2
  planningHorizon := 100
  numShipK := 2
  unloadingSpeed := fun _ _ _ => 2
  transshipmentCost := fun _ _ v => 1 + (v : ℚ)
  storageCost := fun _ _ r => 5 + (r : ℚ)
  arrivalTime := fun _ => 0
  cargoWeight := fun _ => 12
  cargoDensity := fun _ _ => 2
  maxResponseAngle := fun _ _ => 0
  requiredSlots := fun s k => if s = 0 ∧ k = 0 then 2 else 1
  width := 50
  relativeHeight := 1 / 2
  alpha := 1
  beta := 2

/-- Ship 0 starts at time 0 and ship 1 at time 6 on berth 0; ship 0 stores in
row 0 (slots 0-1 and slot 2), ship 1 in row 1 (slot 0 and slot 1). -/
def demoAssign : Assignment where
  x := fun s k r v =>
    if s = 0 ∧ k = 0 ∧ r = 0 ∧ (v = 0 ∨ v = 1) then 1
    else if s = 0 ∧ k = 1 ∧ r = 0 ∧ v = 2 then 1
    else if s = 1 ∧ k = 0 ∧ r = 1 ∧ v = 0 then 1
    else if s = 1 ∧ k = 1 ∧ r = 1 ∧ v = 1 then 1
    else 0
  h := fun s k r v =>
    if s = 0 ∧ k = 0 ∧ r = 0 ∧ v = 1 then 1
    else if s = 0 ∧ k = 1 ∧ r = 0 ∧ v = 2 then 1
    else if s = 1 ∧ k = 0 ∧ r = 1 ∧ v = 0 then 1
    else if s = 1 ∧ k = 1 ∧ r = 1 ∧ v = 1 then 1
    else 0
  f := fun s _ r => if s = r then 1 else 0
  y := fun s t => if s = 1 ∧ t = 0 then 1 else 0
  z := fun _ _ => 1
  q := fun _ k t => if k < t then 1 else 0
  e := fun s => 6 * (s : ℚ)
  e_sk := fun s k => 6 * (s : ℚ) + 3 * (k : ℚ)
  omega := fun s t _ => if s = t then 0 else 1
  lambda := fun s t _ => if s = 0 ∧ t = 1 then 1 else 0
  mu := fun s t _ => if s = 1 ∧ t = 0 then 1 else 0

/-- One ship with one compartment that needs no slot, one berth, one row of
one slot. -/
def idleParams : ModelParams where
  numBerths := 1
  numRows := 1
  numSlotsPerRow := 1
  numShips := 1
  planningHorizon := 10
  numShipK := 1
  unloadingSpeed := fun _ _ _ => 1
  transshipmentCost := fun _ _ _ => 1
  storageCost := fun _ _ _ => 1
  arrivalTime := fun _ => 0
  cargoWeight := fun _ => 1
  cargoDensity := fun _ _ => 1
  maxResponseAngle := fun _ _ => 0
  requiredSlots := fun _ _ => 0
  width := 50
  relativeHeight := 1 / 2
  alpha := 1
  beta := 1

/-- Assignment for `idleParams`: no slot occupied, row 0 chosen, boundary
marker on slot 0. -/
def idleAssign : Assignment where
  x := fun _ _ _ _ => 0
  h := fun _ _ _ _ => 1
  f := fun _ _ _ => 1
  y := fun _ _ => 0
  z := fun _ _ => 1
  q := fun _ _ _ => 0
  e := fun _ => 0
  e_sk := fun _ _ => 0
  omega := fun _ _ _ => 0
  lambda := fun _ _ _ => 0
  mu := fun _ _ _ => 0

/-- One ship with one compartment that needs two slots, while the yard has
one row of one slot. -/
def overParams : ModelParams where
  numBerths := 1
  numRows := 1
  numSlotsPerRow := 1
  numShips := 1
  planningHorizon := 10
  numShipK := 1
  unloadingSpeed := fun _ _ _ => 1
  transshipmentCost := fun _ _ _ => 1
  storageCost := fun _ _ _ => 1
  arrivalTime := fun _ => 0
  cargoWeight := fun _ => 1
  cargoDensity := fun _ _ => 1
  maxResponseAngle := fun _ _ => 0
  requiredSlots := fun _ _ => 2
  width := 50
  relativeHeight := 1 / 2
  alpha := 1
  beta := 1

/-- Draws with every cargo weight 60000, every density 2 and every other draw
a fixed value of its distribution's range. -/
def flatDraws : Draws where
  Tau_s := fun _ => 0
  unloadSpeed := fun _ _ _ => 5000
  R := fun _ _ _ => 15
  saveCos := fun _ _ _ => 900
  weight := fun _ => 60000
  density := fun _ _ => 2
  angel := fun _ _ => 4 / 5

/-- Tangent taken as the constant 1 (the tangent of 45 degrees), used to
evaluate `setParams` on `flatDraws`. -/
def unitTan : ℚ → ℚ := fun _ => 1

/-! ## Berth assignment output (verify.cpp lines 875-884) -/

/-- Records written to berth_assignment.csv by lines 879-883: for every ship
in order and every berth in order, the pair `(s, b)` when the value of
`z[s][b]` exceeds 0.5. -/
def berthAssignmentRows (p : ModelParams) (a : Assignment) : List (Nat × Nat) :=
  (List.range p.numShips).flatMap (fun s =>
    ((List.range p.numBerths).filter (fun b => decide (a.z s b > 1 / 2))).map
      (fun b => (s, b)))

/-! ## Processing-time terms and big-M right-hand sides -/

/-- Coefficient of `z[s][b]` added to `singleBerth` by lines 402-404 for
compartment `k` (speed guarded by line 403). -/
def berthCoeff (p : ModelParams) (s b k : Nat) : ℚ :=
  p.cargoWeight s / (guardSpeed (p.unloadingSpeed s b k) * (p.numShipK : ℚ))

/-- Term added to `proc_s_b` by lines 668-670 for compartment `k` (speed
guarded by line 669). -/
def procTerm (p : ModelParams) (s b k : Nat) : ℚ :=
  p.cargoWeight s / ((p.numShipK : ℚ) * guardSpeed (p.unloadingSpeed s b k))

/-- The instance `demoParams` with the unloading speed of ship 0 on berth 0
set to `-2` for every compartment. -/
def negSpeedParams : ModelParams :=
  { demoParams with unloadingSpeed := fun s b _ => if s = 0 ∧ b = 0 then -2 else 2 }

/-- The assignment `demoAssign` with compartment 1 of ship 0 started at time
20000 and ordered after compartment 0. -/
def lateAssign : Assignment :=
  { demoAssign with
    e_sk := fun s k => if s = 0 ∧ k = 1 then 20000 else demoAssign.e_sk s k }

/-! ## The two-ship scenario -/

/-- The scenario instances: 2 ships, 1 berth, 2 rows of 4 slots, 1 compartment
per ship, required slots 3 and 3, non-negative arrival times `a0 <= a1`,
positive unloading speeds and
`planningHorizon >= max(a1, a0 + proc(0,0))`. -/
def IsScenario (p : ModelParams) : Prop :=
  p.numShips = 2 ∧ p.numBerths = 1 ∧ p.numRows = 2 ∧ p.numSlotsPerRow = 4 ∧
  p.numShipK = 1 ∧ p.requiredSlots 0 0 = 3 ∧ p.requiredSlots 1 0 = 3 ∧
  0 ≤ p.arrivalTime 0 ∧ p.arrivalTime 0 ≤ p.arrivalTime 1 ∧
  0 < p.unloadingSpeed 0 0 0 ∧ 0 < p.unloadingSpeed 1 0 0 ∧
  max (p.arrivalTime 1) (p.arrivalTime 0 + proc p 0 0) ≤ p.planningHorizon

/-- Assignment for a scenario instance: both ships on berth 0, ship 0 first
at its arrival, ship 1 at `max(a1, a0 + proc(0,0))`; ship `s` stores its
compartment in slots 0-2 of row `s`. -/
def scenarioAssign (p : ModelParams) : Assignment where
  x := fun s _ r v => if r = s ∧ v < 3 then 1 else 0
  h := fun s _ r v => if r = s ∧ v = 2 then 1 else 0
  f := fun s _ r => if r = s then 1 else 0
  y := fun s t => if s = 1 ∧ t = 0 then 1 else 0
  z := fun _ _ => 1
  q := fun _ _ _ => 0
  e := fun s =>
    if s = 0 then p.arrivalTime 0
    else max (p.arrivalTime 1) (p.arrivalTime 0 + proc p 0 0)
  e_sk := fun s _ =>
    if s = 0 then p.arrivalTime 0
    else max (p.arrivalTime 1) (p.arrivalTime 0 + proc p 0 0)
  omega := fun s t _ => if s = t then 0 else 1
  lambda := fun s t _ => if s = 0 ∧ t = 1 then 1 else 0
  mu := fun s t _ => if s = 1 ∧ t = 0 then 1 else 0

/-- A scenario instance in which ship 1 carries 200000 units at speed 1, so
that `proc(1,0) = 200000`; both ships arrive at 0, `proc(0,0) = 1` and the
planning horizon is 10. -/
def heavyScenario : ModelParams where
  numBerths := 1
  numRows := 2
  numSlotsPerRow := 4
  numShips := 2
  planningHorizon := 10
  numShipK := 1
  unloadingSpeed := fun _ _ _ => 1
  transshipmentCost := fun _ _ _ => 1
  storageCost := fun _ _ _ => 1
  arrivalTime := fun _ => 0
  cargoWeight := fun s => if s = 0 then 1 else 200000
  cargoDensity := fun _ _ => 2
  maxResponseAngle := fun _ _ => 0
  requiredSlots := fun _ _ => 3
  width := 50
  relativeHeight := 1 / 2
  alpha := 1
  beta := 1

/-- A scenario instance with unit cargo weights and speeds: both ships arrive
at 0 and `proc = 1` for each. -/
def lightScenario : ModelParams :=
  { heavyScenario with cargoWeight := fun _ => 1 }

/-! ## Interval string of intervals.csv (verify.cpp lines 913-934) -/

/-- Text written for one closed run by lines 926-927 and by line 932: the
decimal of `start` when `start == prev`, otherwise `start-prev`. -/
def renderRun (iv : Int × Int) : String :=
  if iv.1 = iv.2 then toString iv.1 else toString iv.1 ++ "-" ++ toString iv.2

/-- Loop of lines 922-932 over the remaining entries of `occ`, with the
current `start`, `prev` and the text accumulated in `oss`; line 932 appends
the last run. -/
def csvLoop : List Int → Int → Int → String → String
  | [], start, prev, oss => oss ++ renderRun (start, prev)
  | cur :: rest, start, prev, oss =>
    if cur = prev + 1 then csvLoop rest start cur oss
    else csvLoop rest cur cur (oss ++ renderRun (start, prev) ++ ";")

/-- Interval string of lines 917-932: no record is written for an empty
`occ` (line 917), otherwise the scan starts with `start = prev = occ[0]` and
an empty stream. -/
def csvMerge : List Int → Option String
  | [] => none
  | first :: rest => some (csvLoop rest first first "")

/-- Maximal runs of consecutive values of a list, in the order of the list:
an element joins the run that follows it when that run starts at its
successor, and otherwise starts a run of its own. -/
def maximalRuns : List Int → List (Int × Int)
  | [] => []
  | a :: rest =>
    match maximalRuns rest with
    | [] => [(a, a)]
    | (s, e) :: tl => if s = a + 1 then (a, e) :: tl else (a, a) :: (s, e) :: tl

/-- Texts joined by `;` with no trailing separator. -/
def joinSemi : List String → String
  | [] => ""
  | [a] => a
  | a :: b :: l => a ++ ";" ++ joinSemi (b :: l)

/-! ## Parameter files: reading records (verify.cpp lines 107-237)

A file is the list of its lines, a line the list of its characters.  The
eight record loops of `loadParamsFromCSV` differ only in the number of index
fields, in the counts that bound the indices and in the conversion applied to
the value field (`std::stod`, or `std::stoi` for requiredSlots); they are
embedded once, for a list `dims` of counts and a conversion `stov`.  A table
is a function of the index tuple. -/

/-- White space skipped by `std::stoi` before the number (`isspace` in the
C locale): space, tab, line feed, vertical tab, form feed, carriage return. -/
def isSpaceChar (c : Char) : Bool :=
  c = ' ' || (9 ≤ c.toNat && c.toNat ≤ 13)

/-- Value of a decimal digit character. -/
def digitVal (c : Char) : Nat := c.toNat - 48

/-- Number read from a list of digit characters, most significant first. -/
def digitsValue (ds : List Char) : Nat :=
  ds.foldl (fun acc c => 10 * acc + digitVal c) 0

/-- `std::stoi` on a field, as the C++ standard specifies it (base 10, through
`strtol`): leading white space is skipped, an optional sign and the longest
run of decimal digits are read, and whatever follows is ignored; `none` stands for the exception thrown when there is no digit
(`invalid_argument`) or the value does not fit an `int` (`out_of_range`). -/
def stoi (fld : List Char) : Option Int :=
  let t := fld.dropWhile isSpaceChar
  let neg : Bool := t.head? = some '-'
  let u := if t.head? = some '-' ∨ t.head? = some '+' then t.tail else t
  let ds := u.takeWhile Char.isDigit
  if ds = [] then none
  else
    let v : Int := if neg then -(digitsValue ds : Int) else (digitsValue ds : Int)
    if -2147483648 ≤ v ∧ v ≤ 2147483647 then some v else none

/-- `std::getline(ss, field, ',')` on the unread remainder of a line: it fails
when nothing is left, otherwise it yields the characters before the first
comma and leaves what follows that comma. -/
def getlineComma (rem : List Char) : Option (List Char × List Char) :=
  if rem = [] then none
  else some (rem.takeWhile (fun c => c ≠ ','), (rem.dropWhile (fun c => c ≠ ',')).drop 1)

/-- `std::getline(ss, field)` on the unread remainder of a line: it fails when
nothing is left, otherwise it yields the whole remainder. -/
def getlineRest (rem : List Char) : Option (List Char) :=
  if rem = [] then none else some rem

/-- The `getline` calls of one record: `n` comma-terminated index fields, then
the value field; `none` when one of the calls fails (the `continue` of lines
117-118, 138-140, ...). -/
def splitRecord : Nat → List Char → Option (List (List Char) × List Char)
  | 0, rem => (getlineRest rem).map (fun v => ([], v))
  | n + 1, rem =>
    match getlineComma rem with
    | none => none
    | some (fld, rem') => (splitRecord n rem').map (fun fv => (fld :: fv.1, fv.2))

/-- The index conversions `std::stoi(s), std::stoi(k), ...` of one record;
`none` when one of them throws. -/
def parseIndices : List (List Char) → Option (List Int)
  | [] => some []
  | fld :: rest =>
    match stoi fld, parseIndices rest with
    | some i, some is => some (i :: is)
    | _, _ => none

/-- The range test `si >= 0 && si < numShips && ...` of one record. -/
def inBounds : List Nat → List Int → Bool
  | d :: ds, i :: is => decide (0 ≤ i) && decide (i < (d : Int)) && inBounds ds is
  | [], [] => true
  | _, _ => false

/-- Body of a record loop for one line: the line is split, the fields are
converted inside `try`, and the addressed entry is assigned when every index
is in range; in every other case the table is left as it is. -/
def applyRecord {α : Type} (stov : List Char → Option α) (dims : List Nat)
    (tbl : List Nat → α) (line : List Char) : List Nat → α :=
  if line = [] then tbl
  else
    match splitRecord dims.length line with
    | none => tbl
    | some (flds, v) =>
      match parseIndices flds, stov v with
      | some idx, some val =>
        if inBounds dims idx then Function.update tbl (idx.map Int.toNat) val else tbl
      | _, _ => tbl

/-- A record loop on a file: the first line (the header) is dropped and the
remaining lines are applied in order to the zero-initialised table. -/
def loadTable {α : Type} (stov : List Char → Option α) (dims : List Nat) (zero : α)
    (file : List (List Char)) : List Nat → α :=
  (file.drop 1).foldl (applyRecord stov dims) (fun _ => zero)

/-- A field is a well-formed integer: an optional sign followed by one or
more decimal digits and nothing else. -/
def wellFormedInt (fld : List Char) : Bool :=
  let u := if fld.head? = some '-' ∨ fld.head? = some '+' then fld.tail else fld
  !u.isEmpty && u.all Char.isDigit

/-- A record line is rejected: one of its `getline` calls fails (too few
fields), or `std::stoi` throws on an index field, or the value conversion
throws on the value field. -/
def Rejected {α : Type} (stov : List Char → Option α) (n : Nat) (line : List Char) : Prop :=
  match splitRecord n line with
  | none => True
  | some (flds, v) => (∃ fld ∈ flds, stoi fld = none) ∨ stov v = none

/-! ## Parameter files: the scalar table and the whole loader
(verify.cpp lines 56-240) -/

/-- The ten scalars as `loadParamsFromCSV` holds them before the clamping of
lines 92-96: the counts are `int`. -/
structure General where
  numBerths : Int
  numRows : Int
  numSlotsPerRow : Int
  numShips : Int
  planningHorizon : ℚ
  numShipK : Int
  width : ℚ
  relativeHeight : ℚ
  alpha : ℚ
  beta : ℚ

/-- An `int` scalar is assigned when `std::stoi` succeeds; a thrown exception
leaves the scalars as they are (lines 74-87). -/
def setIntKey (g : General) (val : List Char) (upd : General → Int → General) : General :=
  match stoi val with
  | some v => upd g v
  | none => g

/-- A `double` scalar is assigned when `std::stod` succeeds (lines 74-87). -/
def setRealKey (stod : List Char → Option ℚ) (g : General) (val : List Char)
    (upd : General → ℚ → General) : General :=
  match stod val with
  | some v => upd g v
  | none => g

/-- Body of the loop of lines 68-88 for one line of the general file. -/
def applyGeneral (stod : List Char → Option ℚ) (g : General) (line : List Char) : General :=
  if line = [] then g
  else
    match getlineComma line with
    | none => g
    | some (key, rem) =>
      match getlineRest rem with
      | none => g
      | some val =>
        if key = "numBerths".toList then
          setIntKey g val (fun g v => { g with numBerths := v })
        else if key = "numRows".toList then
          setIntKey g val (fun g v => { g with numRows := v })
        else if key = "numSlotsPerRow".toList then
          setIntKey g val (fun g v => { g with numSlotsPerRow := v })
        else if key = "numShips".toList then
          setIntKey g val (fun g v => { g with numShips := v })
        else if key = "planningHorizon".toList then
          setRealKey stod g val (fun g v => { g with planningHorizon := v })
        else if key = "numShipK".toList then
          setIntKey g val (fun g v => { g with numShipK := v })
        else if key = "width".toList then
          setRealKey stod g val (fun g v => { g with width := v })
        else if key = "relativeHeight".toList then
          setRealKey stod g val (fun g v => { g with relativeHeight := v })
        else if key = "alpha".toList then
          setRealKey stod g val (fun g v => { g with alpha := v })
        else if key = "beta".toList then
          setRealKey stod g val (fun g v => { g with beta := v })
        else g

/-- Lines 65-89: the header of the general file is dropped and the remaining
lines are applied in order, starting from the scalars `init` of the freshly
declared `ModelParams` (whose values the source does not set). -/
def loadGeneral (stod : List Char → Option ℚ) (init : General)
    (file : List (List Char)) : General :=
  (file.drop 1).foldl (applyGeneral stod) init

/-- The nine parameter files `<base>_general.csv`, `<base>_arrival.csv`, ...,
each as its list of lines. -/
structure CsvFiles where
  general : List (List Char)
  arrival : List (List Char)
  cargoWeight : List (List Char)
  cargoDensity : List (List Char)
  maxResponseAngle : List (List Char)
  requiredSlots : List (List Char)
  unloadingSpeed : List (List Char)
  transshipmentCost : List (List Char)
  storageCost : List (List Char)

/-- Function `loadParamsFromCSV` (lines 56-240) on files that can be opened:
the scalars are read, the five counts are clamped to be non-negative (lines
92-96), every array is allocated with zeros (lines 98-105) and filled by its
record loop. -/
def loadParamsFromCSV (stod : List Char → Option ℚ) (init : General)
    (files : CsvFiles) : ModelParams :=
  let g := loadGeneral stod init files.general
  let nShips := g.numShips.toNat
  let nBerths := g.numBerths.toNat
  let nRows := g.numRows.toNat
  let nSlots := g.numSlotsPerRow.toNat
  let nK := g.numShipK.toNat
  { numBerths := nBerths
    numRows := nRows
    numSlotsPerRow := nSlots
    numShips := nShips
    planningHorizon := g.planningHorizon
    numShipK := nK
    unloadingSpeed := fun s b k =>
      loadTable stod [nShips, nBerths, nK] 0 files.unloadingSpeed [s, b, k]
    transshipmentCost := fun b r v =>
      loadTable stod [nBerths, nRows, nSlots] 0 files.transshipmentCost [b, r, v]
    storageCost := fun s k r =>
      loadTable stod [nShips, nK, nRows] 0 files.storageCost [s, k, r]
    arrivalTime := fun s => loadTable stod [nShips] 0 files.arrival [s]
    cargoWeight := fun s => loadTable stod [nShips] 0 files.cargoWeight [s]
    cargoDensity := fun s k => loadTable stod [nShips, nK] 0 files.cargoDensity [s, k]
    maxResponseAngle := fun s k =>
      loadTable stod [nShips, nK] 0 files.maxResponseAngle [s, k]
    requiredSlots := fun s k => loadTable stoi [nShips, nK] 0 files.requiredSlots [s, k]
    width := g.width
    relativeHeight := g.relativeHeight
    alpha := g.alpha
    beta := g.beta }

/-! ## Parameter files: writing (data_init.cpp lines 181-303) -/

/-- Decimal digits of a natural number, as `ofs << n` writes them. -/
def showNat (n : Nat) : List Char :=
  if n = 0 then ['0'] else (Nat.digits 10 n).reverse.map Nat.digitChar

/-- Decimal text of an `int`, as `ofs << i` writes it. -/
def showInt : Int → List Char
  | Int.ofNat n => showNat n
  | Int.negSucc n => '-' :: showNat (n + 1)

/-- One record line `i1,i2,...,value` (lines 211, 232, ...). -/
def recordLine : List Nat → List Char → List Char
  | [], val => val
  | i :: rest, val => showInt (i : Int) ++ ',' :: recordLine rest val

/-- Index tuples visited by the nested loops of a table with the given sizes,
in the order of the loops. -/
def indexTuples : List Nat → List (List Nat)
  | [] => [[]]
  | d :: ds => (List.range d).flatMap (fun i => (indexTuples ds).map (fun t => i :: t))

/-- Lines of one array file: the header, then one record per index tuple. -/
def tableLines {α : Type} (showv : α → List Char) (header : List Char) (dims : List Nat)
    (tbl : List Nat → α) : List (List Char) :=
  header :: (indexTuples dims).map (fun idx => recordLine idx (showv (tbl idx)))

/-- Function `writeParamsToCSV` (lines 181-303) for an instance whose vectors
have the sizes given by its counts, as `setParams` builds them; `showDouble`
is the text that `ofs << value` writes for a `double`. -/
def writeParamsToCSV (showDouble : ℚ → List Char) (p : ModelParams) : CsvFiles where
  general :=
    [ "key,value".toList,
      "numBerths".toList ++ ',' :: showInt (p.numBerths : Int),
      "numRows".toList ++ ',' :: showInt (p.numRows : Int),
      "numSlotsPerRow".toList ++ ',' :: showInt (p.numSlotsPerRow : Int),
      "numShips".toList ++ ',' :: showInt (p.numShips : Int),
      "planningHorizon".toList ++ ',' :: showDouble p.planningHorizon,
      "numShipK".toList ++ ',' :: showInt (p.numShipK : Int),
      "width".toList ++ ',' :: showDouble p.width,
      "relativeHeight".toList ++ ',' :: showDouble p.relativeHeight,
      "alpha".toList ++ ',' :: showDouble p.alpha,
      "beta".toList ++ ',' :: showDouble p.beta ]
  arrival := tableLines showDouble "ship,arrivalTime".toList [p.numShips]
    (fun idx => p.arrivalTime (idx.getD 0 0))
  cargoWeight := tableLines showDouble "ship,weight".toList [p.numShips]
    (fun idx => p.cargoWeight (idx.getD 0 0))
  cargoDensity := tableLines showDouble "ship,k,value".toList [p.numShips, p.numShipK]
    (fun idx => p.cargoDensity (idx.getD 0 0) (idx.getD 1 0))
  maxResponseAngle := tableLines showDouble "ship,k,value".toList [p.numShips, p.numShipK]
    (fun idx => p.maxResponseAngle (idx.getD 0 0) (idx.getD 1 0))
  requiredSlots := tableLines showInt "ship,k,value".toList [p.numShips, p.numShipK]
    (fun idx => p.requiredSlots (idx.getD 0 0) (idx.getD 1 0))
  unloadingSpeed := tableLines showDouble "ship,berth,k,value".toList
    [p.numShips, p.numBerths, p.numShipK]
    (fun idx => p.unloadingSpeed (idx.getD 0 0) (idx.getD 1 0) (idx.getD 2 0))
  transshipmentCost := tableLines showDouble "berth,row,slot,value".toList
    [p.numBerths, p.numRows, p.numSlotsPerRow]
    (fun idx => p.transshipmentCost (idx.getD 0 0) (idx.getD 1 0) (idx.getD 2 0))
  storageCost := tableLines showDouble "ship,k,row,value".toList
    [p.numShips, p.numShipK, p.numRows]
    (fun idx => p.storageCost (idx.getD 0 0) (idx.getD 1 0) (idx.getD 2 0))

/-- The loaded instance `q` agrees with the written instance `p`: the five
counts and every requiredSlots entry exactly, the five real scalars and every
entry of the real-valued arrays up to the rounding `rnd` of the written
text. -/
def SameUpTo (rnd : ℚ → ℚ) (p q : ModelParams) : Prop :=
  q.numBerths = p.numBerths ∧ q.numRows = p.numRows ∧
  q.numSlotsPerRow = p.numSlotsPerRow ∧ q.numShips = p.numShips ∧
  q.numShipK = p.numShipK ∧
  q.planningHorizon = rnd p.planningHorizon ∧ q.width = rnd p.width ∧
  q.relativeHeight = rnd p.relativeHeight ∧ q.alpha = rnd p.alpha ∧
  q.beta = rnd p.beta ∧
  (∀ s < p.numShips, q.arrivalTime s = rnd (p.arrivalTime s)) ∧
  (∀ s < p.numShips, q.cargoWeight s = rnd (p.cargoWeight s)) ∧
  (∀ s < p.numShips, ∀ k < p.numShipK, q.cargoDensity s k = rnd (p.cargoDensity s k)) ∧
  (∀ s < p.numShips, ∀ k < p.numShipK,
    q.maxResponseAngle s k = rnd (p.maxResponseAngle s k)) ∧
  (∀ s < p.numShips, ∀ k < p.numShipK, q.requiredSlots s k = p.requiredSlots s k) ∧
  (∀ s < p.numShips, ∀ b < p.numBerths, ∀ k < p.numShipK,
    q.unloadingSpeed s b k = rnd (p.unloadingSpeed s b k)) ∧
  (∀ b < p.numBerths, ∀ r < p.numRows, ∀ v < p.numSlotsPerRow,
    q.transshipmentCost b r v = rnd (p.transshipmentCost b r v)) ∧
  (∀ s < p.numShips, ∀ k < p.numShipK, ∀ r < p.numRows,
    q.storageCost s k r = rnd (p.storageCost s k r))

/-- Integer part of a rational, limited to the `int` range. -/
def floorInt (v : ℚ) : Int := max (-2147483648) (min 2147483647 ⌊v⌋)

/-- A text conversion for reals that writes the integer part only. -/
def floorText (v : ℚ) : List Char := showInt (floorInt v)

/-- A conversion of texts to reals that reads a leading integer. -/
def stodInt (fld : List Char) : Option ℚ := (stoi fld).map (fun i => (i : ℚ))

/-- The scalars of an instance. -/
def generalOf (p : ModelParams) : General where
  numBerths := (p.numBerths : Int)
  numRows := (p.numRows : Int)
  numSlotsPerRow := (p.numSlotsPerRow : Int)
  numShips := (p.numShips : Int)
  planningHorizon := p.planningHorizon
  numShipK := (p.numShipK : Int)
  width := p.width
  relativeHeight := p.relativeHeight
  alpha := p.alpha
  beta := p.beta

/-! ## Placement constraints of one compartment (verify.cpp lines 429-442, 459-505) -/

/-- The constraints of the model that mention only the placement variables of
one compartment `(s,k)`: the rows `x[s][k]`, `f[s][k]`, `h[s][k]` of the
slot-count constraint (3.11, lines 430-442), the single-row constraint (3.13,
lines 460-469), the linkage constraint (3.14, lines 472-483) and the three
contiguity constraints (lines 489-502). -/
structure PlacementConstraints (p : ModelParams) (s k : Nat)
    (x : Nat → Nat → ℚ) (f : Nat → ℚ) (h : Nat → Nat → ℚ) : Prop where
  /-- lines 430-442, constraint (3.11) -/
  slotCount : ∑ r ∈ range p.numRows, ∑ v ∈ range p.numSlotsPerRow, x r v
      = (p.requiredSlots s k : ℚ)
  /-- lines 460-469, constraint (3.13) -/
  singleRow : ∑ r ∈ range p.numRows, f r = 1
  /-- lines 472-483, constraint (3.14) -/
  rowLink : ∀ r < p.numRows,
    ∑ v ∈ range p.numSlotsPerRow, x r v ≤ (p.numSlotsPerRow : ℚ) * f r
  /-- lines 489-494, constraint (12) -/
  boundarySum : ∀ r < p.numRows, ∑ v ∈ range p.numSlotsPerRow, h r v = f r
  /-- line 497, constraint (13), at slot index `numSlotsPerRow - 1` -/
  boundaryLast : ∀ r < p.numRows,
    x r (p.numSlotsPerRow - 1) ≤ h r (p.numSlotsPerRow - 1)
  /-- lines 500-502, constraint (14) -/
  boundaryStep : ∀ r < p.numRows, ∀ v < p.numSlotsPerRow - 1,
    x r v - x r (v + 1) ≤ h r v

/-! ## Parameter files: what a record loop leaves in the table -/

/-- The assignment a record line performs, if any: the line is accepted when
it is not empty, every `getline` succeeds, every `std::stoi` on an index field
and the value conversion return without throwing, and the range test passes;
it then assigns the converted value at the converted index tuple. -/
def acceptedRecord {α : Type} (stov : List Char → Option α) (dims : List Nat)
    (line : List Char) : Option (List Nat × α) :=
  if line = [] then none
  else
    match splitRecord dims.length line with
    | none => none
    | some (flds, v) =>
      match parseIndices flds, stov v with
      | some idx, some val =>
        if inBounds dims idx then some (idx.map Int.toNat, val) else none
      | _, _ => none

/-- Value of the last accepted record among `lines` that addresses the index
tuple `i`, or `zero` if there is none. -/
def lastAccepted {α : Type} (stov : List Char → Option α) (dims : List Nat) (zero : α)
    (lines : List (List Char)) (i : List Nat) : α :=
  match ((lines.filterMap (acceptedRecord stov dims)).reverse.find?
      (fun r => decide (r.1 = i))) with
  | some r => r.2
  | none => zero

/-- An index tuple is out of range: some index is negative or not below the
corresponding count. -/
def OutOfRange (dims : List Nat) (idx : List Int) : Prop :=
  ∃ di ∈ dims.zip idx, di.2 < 0 ∨ (di.1 : Int) ≤ di.2

/-- A record of an integer-valued table all of whose fields are well-formed
integers: the `n` index fields and the value field are present and each is an
optional sign followed by decimal digits only. -/
def wellFormedRecord (n : Nat) (line : List Char) : Bool :=
  match splitRecord n line with
  | none => false
  | some (flds, v) => flds.all wellFormedInt && wellFormedInt v

/-! ## Names of the Boolean variables (verify.cpp lines 280-361, 562-577) -/

/-- A declared Boolean variable: its family and its index tuple, in the order
in which the array is indexed (`q[s][k][t]`, `f[s][k][r]`, `x[s][k][r][v]`,
`omega[s][t][b]`, ...). -/
inductive Var where
  | z (s b : Nat)
  | q (s k t : Nat)
  | y (s t : Nat)
  | f (s k r : Nat)
  | x (s k r v : Nat)
  | h (s k r v : Nat)
  | omega (s t b : Nat)
  | lambda (s t b : Nat)
  | mu (s t b : Nat)
  deriving DecidableEq

/-- Name string built for a variable (lines 285, 295, 304, 314, 340, 355,
563-565); `std::to_string` of a non-negative loop index is its decimal text.
The name of `q[s][k][t]` starts with `z_` (line 295) and the name of
`f[s][k][r]` lists the row before the compartment (line 314). -/
def varName : Var → List Char
  | .z s b => "z_".toList ++ showNat s ++ "_".toList ++ showNat b
  | .q s k t => "z_".toList ++ showNat s ++ "_".toList ++ showNat k ++ "_".toList ++ showNat t
  | .y s t => "y_".toList ++ showNat s ++ "_".toList ++ showNat t
  | .f s k r => "f_".toList ++ showNat s ++ "_".toList ++ showNat r ++ "_".toList ++ showNat k
  | .x s k r v =>
    "x_".toList ++ showNat s ++ "_".toList ++ showNat k ++ "_".toList ++ showNat r
      ++ "_".toList ++ showNat v
  | .h s k r v =>
    "h_".toList ++ showNat s ++ "_".toList ++ showNat k ++ "_".toList ++ showNat r
      ++ "_".toList ++ showNat v
  | .omega s t b =>
    "omega_".toList ++ showNat s ++ "_".toList ++ showNat t ++ "_".toList ++ showNat b
  | .lambda s t b =>
    "lambda_".toList ++ showNat s ++ "_".toList ++ showNat t ++ "_".toList ++ showNat b
  | .mu s t b =>
    "mu_".toList ++ showNat s ++ "_".toList ++ showNat t ++ "_".toList ++ showNat b

/-- Variables declared by one pass of the loop over the ships of lines
280-361: the `z`, `q`, `y`, `f`, `x` and `h` variables of ship `s`, each
family in the order of its own loops. -/
def shipVars (p : ModelParams) (s : Nat) : List Var :=
  (List.range p.numBerths).map (fun b => Var.z s b) ++
  (List.range p.numShipK).flatMap (fun k =>
    (List.range p.numShipK).map (fun t => Var.q s k t)) ++
  (List.range p.numShips).map (fun t => Var.y s t) ++
  (List.range p.numShipK).flatMap (fun k =>
    (List.range p.numRows).map (fun r => Var.f s k r)) ++
  (List.range p.numShipK).flatMap (fun k =>
    (List.range p.numRows).flatMap (fun r =>
      (List.range p.numSlotsPerRow).map (fun v => Var.x s k r v))) ++
  (List.range p.numShipK).flatMap (fun k =>
    (List.range p.numRows).flatMap (fun r =>
      (List.range p.numSlotsPerRow).map (fun v => Var.h s k r v)))

/-- Variables declared by one pass of the outer loop of lines 546-593: the
`omega`, `lambda` and `mu` variables of every triple `(s, t, b)`. -/
def pairVars (p : ModelParams) (s : Nat) : List Var :=
  (List.range p.numShips).flatMap (fun t =>
    (List.range p.numBerths).flatMap (fun b =>
      [Var.omega s t b, Var.lambda s t b, Var.mu s t b]))

/-- The Boolean variables in the order in which the builder declares them:
the loop over the ships of lines 280-361, then the loop nest of lines
546-593. -/
def declaredVars (p : ModelParams) : List Var :=
  (List.range p.numShips).flatMap (shipVars p) ++
  (List.range p.numShips).flatMap (pairVars p)

/-- The part of a name after its letters: each index preceded by `_`. -/
def underscored (idx : List Nat) : List Char :=
  idx.flatMap (fun i => '_' :: showNat i)

/-- Letters at the start of the name of a variable. -/
def namePrefix : Var → List Char
  | .z _ _ => "z".toList
  | .q _ _ _ => "z".toList
  | .y _ _ => "y".toList
  | .f _ _ _ => "f".toList
  | .x _ _ _ _ => "x".toList
  | .h _ _ _ _ => "h".toList
  | .omega _ _ _ => "omega".toList
  | .lambda _ _ _ => "lambda".toList
  | .mu _ _ _ => "mu".toList

/-- Indices of a variable in the order in which its name lists them. -/
def nameIdx : Var → List Nat
  | .z s b => [s, b]
  | .q s k t => [s, k, t]
  | .y s t => [s, t]
  | .f s k r => [s, r, k]
  | .x s k r v => [s, k, r, v]
  | .h s k r v => [s, k, r, v]
  | .omega s t b => [s, t, b]
  | .lambda s t b => [s, t, b]
  | .mu s t b => [s, t, b]

/-- Position of the family of a variable in the list z, q, y, f, x, h, omega,
lambda, mu. -/
def Var.tag : Var → Nat
  | .z _ _ => 0
  | .q _ _ _ => 1
  | .y _ _ => 2
  | .f _ _ _ => 3
  | .x _ _ _ _ => 4
  | .h _ _ _ _ => 5
  | .omega _ _ _ => 6
  | .lambda _ _ _ => 7
  | .mu _ _ _ => 8

/-- Index tuple of a variable in the order in which its array is indexed. -/
def Var.idx : Var → List Nat
  | .z s b => [s, b]
  | .q s k t => [s, k, t]
  | .y s t => [s, t]
  | .f s k r => [s, k, r]
  | .x s k r v => [s, k, r, v]
  | .h s k r v => [s, k, r, v]
  | .omega s t b => [s, t, b]
  | .lambda s t b => [s, t, b]
  | .mu s t b => [s, t, b]

/-! ## Array accesses of the model builder (verify.cpp lines 280-681)

An access is an array together with the index tuple used on it; the indices
are `int` values.  Each loop nest of `main` is listed with the accesses of its
body, in source order.  An access that occurs several times in one body is
listed once. -/

/-- The parameter arrays of `ModelParams` and the variable arrays of `main`. -/
inductive Arr where
  | arrivalTime | cargoWeight | requiredSlots | unloadingSpeed | storageCost
  | transshipmentCost
  | z | q | y | f | e | e_sk | x | h | omega | lambda | mu | zeta | eta
  deriving DecidableEq

/-- Dimensions of each array: the parameter arrays as `loadParamsFromCSV`
allocates them from the clamped counts (lines 98-105), the variable arrays as
the declaration loops size them (lines 280-361, 546-593). -/
def dimsOf (p : ModelParams) : Arr → List Nat
  | .arrivalTime => [p.numShips]
  | .cargoWeight => [p.numShips]
  | .requiredSlots => [p.numShips, p.numShipK]
  | .unloadingSpeed => [p.numShips, p.numBerths, p.numShipK]
  | .storageCost => [p.numShips, p.numShipK, p.numRows]
  | .transshipmentCost => [p.numBerths, p.numRows, p.numSlotsPerRow]
  | .z => [p.numShips, p.numBerths]
  | .q => [p.numShips, p.numShipK, p.numShipK]
  | .y => [p.numShips, p.numShips]
  | .f => [p.numShips, p.numShipK, p.numRows]
  | .e => [p.numShips]
  | .e_sk => [p.numShips, p.numShipK]
  | .x => [p.numShips, p.numShipK, p.numRows, p.numSlotsPerRow]
  | .h => [p.numShips, p.numShipK, p.numRows, p.numSlotsPerRow]
  | .omega => [p.numShips, p.numShips, p.numBerths]
  | .lambda => [p.numShips, p.numShips, p.numBerths]
  | .mu => [p.numShips, p.numShips, p.numBerths]
  | .zeta => [p.numShips, p.numShips, p.numBerths]
  | .eta => [p.numShips, p.numShips, p.numBerths]

/-- Loop variables used as indices: `int` values. -/
def ix (l : List Nat) : List Int := l.map (fun i : Nat => (i : Int))

/-- Accesses of the declaration loop over the ships (lines 280-361). -/
def accDeclare (p : ModelParams) : List (Arr × List Int) :=
  (List.range p.numShips).flatMap (fun s =>
    (List.range p.numBerths).map (fun b => (Arr.z, ix [s, b])) ++
    (List.range p.numShipK).flatMap (fun k =>
      (List.range p.numShipK).map (fun t => (Arr.q, ix [s, k, t]))) ++
    (List.range p.numShips).map (fun t => (Arr.y, ix [s, t])) ++
    (List.range p.numShipK).flatMap (fun k =>
      (List.range p.numRows).map (fun r => (Arr.f, ix [s, k, r]))) ++
    [(Arr.arrivalTime, ix [s])] ++
    (List.range p.numShipK).flatMap (fun k =>
      [(Arr.e_sk, ix [s, k]), (Arr.arrivalTime, ix [s])]) ++
    (List.range p.numShipK).flatMap (fun k =>
      (List.range p.numRows).flatMap (fun r =>
        (List.range p.numSlotsPerRow).map (fun v => (Arr.x, ix [s, k, r, v])))) ++
    (List.range p.numShipK).flatMap (fun k =>
      (List.range p.numRows).flatMap (fun r =>
        (List.range p.numSlotsPerRow).map (fun v => (Arr.h, ix [s, k, r, v])))))

/-- Accesses of the transshipment part of the objective (lines 366-379). -/
def accTransshipment (p : ModelParams) : List (Arr × List Int) :=
  (List.range p.numShips).flatMap (fun s =>
    (List.range p.numShipK).flatMap (fun k =>
      (List.range p.numBerths).flatMap (fun b =>
        (List.range p.numRows).flatMap (fun r =>
          (List.range p.numSlotsPerRow).flatMap (fun v =>
            [(Arr.transshipmentCost, ix [b, r, v]), (Arr.cargoWeight, ix [s]),
              (Arr.requiredSlots, ix [s, k]), (Arr.x, ix [s, k, r, v]),
              (Arr.z, ix [s, b])])))))

/-- Accesses of the storage part of the objective (lines 382-390). -/
def accStorage (p : ModelParams) : List (Arr × List Int) :=
  (List.range p.numShips).flatMap (fun s =>
    (List.range p.numShipK).flatMap (fun k =>
      (List.range p.numRows).flatMap (fun r =>
        (List.range p.numSlotsPerRow).flatMap (fun v =>
          [(Arr.storageCost, ix [s, k, r]), (Arr.x, ix [s, k, r, v])]))))

/-- Accesses of the berth-time part of the objective (lines 395-409). -/
def accBerthTime (p : ModelParams) : List (Arr × List Int) :=
  (List.range p.numShips).flatMap (fun s =>
    [(Arr.e, ix [s]), (Arr.arrivalTime, ix [s])] ++
    (List.range p.numShipK).flatMap (fun k =>
      (List.range p.numBerths).flatMap (fun b =>
        [(Arr.unloadingSpeed, ix [s, b, k]), (Arr.cargoWeight, ix [s]),
          (Arr.z, ix [s, b])])))

/-- Accesses of constraint (3.8) (lines 420-427). -/
def accSingleBerth (p : ModelParams) : List (Arr × List Int) :=
  (List.range p.numShips).flatMap (fun s =>
    (List.range p.numBerths).map (fun b => (Arr.z, ix [s, b])))

/-- Accesses of constraint (3.11) (lines 430-442). -/
def accSlotCount (p : ModelParams) : List (Arr × List Int) :=
  (List.range p.numShips).flatMap (fun s =>
    (List.range p.numShipK).flatMap (fun k =>
      (List.range p.numRows).flatMap (fun r =>
        (List.range p.numSlotsPerRow).map (fun v => (Arr.x, ix [s, k, r, v]))) ++
      [(Arr.requiredSlots, ix [s, k])]))

/-- Accesses of constraint (3.12) (lines 446-457). -/
def accSlotExclusive (p : ModelParams) : List (Arr × List Int) :=
  (List.range p.numRows).flatMap (fun r =>
    (List.range p.numSlotsPerRow).flatMap (fun v =>
      (List.range p.numShips).flatMap (fun s =>
        (List.range p.numShipK).map (fun k => (Arr.x, ix [s, k, r, v])))))

/-- Accesses of constraint (3.13) (lines 460-469). -/
def accSingleRow (p : ModelParams) : List (Arr × List Int) :=
  (List.range p.numShips).flatMap (fun s =>
    (List.range p.numShipK).flatMap (fun k =>
      (List.range p.numRows).map (fun r => (Arr.f, ix [s, k, r]))))

/-- Accesses of constraint (3.14) (lines 472-483). -/
def accRowLink (p : ModelParams) : List (Arr × List Int) :=
  (List.range p.numShips).flatMap (fun s =>
    (List.range p.numShipK).flatMap (fun k =>
      (List.range p.numRows).flatMap (fun r =>
        (List.range p.numSlotsPerRow).map (fun v => (Arr.x, ix [s, k, r, v])) ++
        [(Arr.f, ix [s, k, r])])))

/-- Accesses of the contiguity constraints (lines 485-505); line 497 uses the
slot index `numSlotsPerRow - 1`, line 501 the indices `v` and `v + 1` for
`v < numSlotsPerRow - 1`. -/
def accContiguity (p : ModelParams) : List (Arr × List Int) :=
  (List.range p.numShips).flatMap (fun s =>
    (List.range p.numShipK).flatMap (fun k =>
      (List.range p.numRows).flatMap (fun r =>
        (List.range p.numSlotsPerRow).map (fun v => (Arr.h, ix [s, k, r, v])) ++
        [(Arr.f, ix [s, k, r]),
          (Arr.x, ix [s, k, r] ++ [(p.numSlotsPerRow : Int) - 1]),
          (Arr.h, ix [s, k, r] ++ [(p.numSlotsPerRow : Int) - 1])] ++
        (List.range (p.numSlotsPerRow - 1)).flatMap (fun v =>
          [(Arr.x, ix [s, k, r, v]), (Arr.x, ix [s, k, r] ++ [(v : Int) + 1]),
            (Arr.h, ix [s, k, r, v])]))))

/-- Accesses of the constraints `e[s] <= e_sk[s][k]` (lines 508-513). -/
def accStartAfter (p : ModelParams) : List (Arr × List Int) :=
  (List.range p.numShips).flatMap (fun s =>
    (List.range p.numShipK).flatMap (fun k =>
      [(Arr.e, ix [s]), (Arr.e_sk, ix [s, k])]))

/-- Accesses of the compartment ordering constraints (lines 515-536); the
body is skipped for `t == k`. -/
def accOrder (p : ModelParams) : List (Arr × List Int) :=
  (List.range p.numShips).flatMap (fun s =>
    (List.range p.numShipK).flatMap (fun k =>
      (List.range p.numShipK).flatMap (fun t =>
        if t = k then []
        else
          [(Arr.q, ix [s, k, t]), (Arr.q, ix [s, t, k])] ++
          (List.range p.numBerths).flatMap (fun b =>
            [(Arr.cargoWeight, ix [s]), (Arr.unloadingSpeed, ix [s, b, k]),
              (Arr.e_sk, ix [s, k]), (Arr.e_sk, ix [s, t]), (Arr.q, ix [s, k, t]),
              (Arr.z, ix [s, b])]))))

/-- Accesses of the declaration loop nest of the linearization variables
(lines 546-593). -/
def accLinDeclare (p : ModelParams) : List (Arr × List Int) :=
  (List.range p.numShips).flatMap (fun s =>
    (List.range p.numShips).flatMap (fun t =>
      (List.range p.numBerths).flatMap (fun b =>
        [(Arr.omega, ix [s, t, b]), (Arr.lambda, ix [s, t, b]), (Arr.mu, ix [s, t, b]),
          (Arr.zeta, ix [s, t, b]), (Arr.eta, ix [s, t, b])])))

/-- Accesses of the linearization constraints (lines 596-621); the body is
skipped for `s == t`. -/
def accLinear (p : ModelParams) : List (Arr × List Int) :=
  (List.range p.numShips).flatMap (fun s =>
    (List.range p.numShips).flatMap (fun t =>
      if s = t then []
      else
        (List.range p.numBerths).flatMap (fun b =>
          [(Arr.lambda, ix [s, t, b]), (Arr.mu, ix [s, t, b]), (Arr.omega, ix [s, t, b]),
            (Arr.z, ix [s, b]), (Arr.z, ix [t, b]), (Arr.y, ix [s, t])])))

/-- Accesses of the no-overlap constraints (lines 660-681); the body is
skipped for `s == t`. -/
def accNoOverlap (p : ModelParams) : List (Arr × List Int) :=
  (List.range p.numShips).flatMap (fun s =>
    (List.range p.numShips).flatMap (fun t =>
      if s = t then []
      else
        (List.range p.numBerths).flatMap (fun b =>
          (List.range p.numShipK).flatMap (fun k =>
            [(Arr.unloadingSpeed, ix [s, b, k]), (Arr.cargoWeight, ix [s]),
              (Arr.unloadingSpeed, ix [t, b, k]), (Arr.cargoWeight, ix [t])]) ++
          [(Arr.e, ix [s]), (Arr.e, ix [t]), (Arr.lambda, ix [s, t, b]),
            (Arr.mu, ix [s, t, b])])))

/-- All accesses made while the variables, the objective and the constraints
are built, in source order. -/
def accesses (p : ModelParams) : List (Arr × List Int) :=
  accDeclare p ++ accTransshipment p ++ accStorage p ++ accBerthTime p ++
  accSingleBerth p ++ accSlotCount p ++ accSlotExclusive p ++ accSingleRow p ++
  accRowLink p ++ accContiguity p ++ accStartAfter p ++ accOrder p ++
  accLinDeclare p ++ accLinear p ++ accNoOverlap p

/-- The instance `demoParams` with rows of no slot. -/
def noSlotParams : ModelParams := { demoParams with numSlotsPerRow := 0 }

/-! ## Reading an interval string back

The format of intervals.csv: runs separated by `;`, a run being one integer
or two integers joined by `-`, an integer being an optional `-` followed by
decimal digits.  The functions below read a string of that format; they are
not part of the program and serve to say which runs a written string
denotes. -/

/-- Pieces of a text separated by `;`. -/
def splitSemi : List Char → List (List Char)
  | [] => [[]]
  | c :: cs =>
    if c = ';' then [] :: splitSemi cs
    else
      match splitSemi cs with
      | [] => [[c]]
      | piece :: pieces => (c :: piece) :: pieces

/-- Integer denoted by an optional `-` followed by decimal digits. -/
def readInt (cs : List Char) : Int :=
  if cs.head? = some '-' then -(digitsValue cs.tail : Int) else (digitsValue cs : Int)

/-- Run denoted by one piece: the leading integer (an optional `-` and the
digits that follow) is the start; if nothing follows, it is also the end,
otherwise a `-` follows and the rest is the end. -/
def readRun (cs : List Char) : Int × Int :=
  let body := if cs.head? = some '-' then cs.tail else cs
  let first := (if cs.head? = some '-' then ['-'] else []) ++ body.takeWhile Char.isDigit
  match body.dropWhile Char.isDigit with
  | [] => (readInt first, readInt first)
  | _ :: rest => (readInt first, readInt rest)

/-- Runs denoted by an interval string. -/
def readRuns (str : String) : List (Int × Int) :=
  (splitSemi str.toList).map readRun

/-! ## Control flow of `main` (verify.cpp lines 244-691)

Between the load of line 244 and the first declaration loop of line 280
`main` only prints; it then runs its loop nests one after another and calls
`cplex.solve()` at line 691.  A run is followed nest by nest.  Each nest uses
array indices and calls the Concert library; a nest is completed when every
index it uses is in bounds and none of its library calls throws.  An index
out of bounds is undefined behaviour and ends the description of the run; an
exception is caught at lines 991-995 and ends the run without a solver call.
Whether a library call throws is not determined by the source: it is a
parameter `throws` of the run, indexed by the position of the nest. -/

/-- A constraint handed to `model.add`, named after the field of `Feasible`
that states it; `linear i` is the `i`-th of the ten constraints of lines
601-618. -/
inductive Con where
  | singleBerth (s : Nat)
  | slotCount (s k : Nat)
  | slotExclusive (r v : Nat)
  | singleRow (s k : Nat)
  | rowLink (s k r : Nat)
  | boundarySum (s k r : Nat)
  | boundaryLast (s k r : Nat)
  | boundaryStep (s k r v : Nat)
  | startAfterShip (s k : Nat)
  | orderPair (s k t : Nat)
  | orderBigM (s k t b : Nat)
  | linear (i s t b : Nat)
  | noOverlapLambda (s t b : Nat)
  | noOverlapMu (s t b : Nat)
  deriving DecidableEq

/-- Constraints added by lines 420-427. -/
def conSingleBerth (p : ModelParams) : List Con :=
  (List.range p.numShips).map (fun s => Con.singleBerth s)

/-- Constraints added by lines 430-442. -/
def conSlotCount (p : ModelParams) : List Con :=
  (List.range p.numShips).flatMap (fun s =>
    (List.range p.numShipK).map (fun k => Con.slotCount s k))

/-- Constraints added by lines 446-457. -/
def conSlotExclusive (p : ModelParams) : List Con :=
  (List.range p.numRows).flatMap (fun r =>
    (List.range p.numSlotsPerRow).map (fun v => Con.slotExclusive r v))

/-- Constraints added by lines 460-469. -/
def conSingleRow (p : ModelParams) : List Con :=
  (List.range p.numShips).flatMap (fun s =>
    (List.range p.numShipK).map (fun k => Con.singleRow s k))

/-- Constraints added by lines 472-483. -/
def conRowLink (p : ModelParams) : List Con :=
  (List.range p.numShips).flatMap (fun s =>
    (List.range p.numShipK).flatMap (fun k =>
      (List.range p.numRows).map (fun r => Con.rowLink s k r)))

/-- Constraints added by lines 485-505: for each row the sum of the boundary
markers (line 493), the last-slot constraint (line 497) and one constraint
for every `v < numSlotsPerRow - 1` (line 501). -/
def conContiguity (p : ModelParams) : List Con :=
  (List.range p.numShips).flatMap (fun s =>
    (List.range p.numShipK).flatMap (fun k =>
      (List.range p.numRows).flatMap (fun r =>
        [Con.boundarySum s k r, Con.boundaryLast s k r] ++
        (List.range (p.numSlotsPerRow - 1)).map (fun v => Con.boundaryStep s k r v))))

/-- Constraints added by lines 508-513. -/
def conStartAfter (p : ModelParams) : List Con :=
  (List.range p.numShips).flatMap (fun s =>
    (List.range p.numShipK).map (fun k => Con.startAfterShip s k))

/-- Constraints added by lines 515-536; the body is skipped for `t == k`. -/
def conOrder (p : ModelParams) : List Con :=
  (List.range p.numShips).flatMap (fun s =>
    (List.range p.numShipK).flatMap (fun k =>
      (List.range p.numShipK).flatMap (fun t =>
        if t = k then []
        else
          Con.orderPair s k t ::
            (List.range p.numBerths).map (fun b => Con.orderBigM s k t b))))

/-- Constraints added by lines 596-621; the body is skipped for `s == t`. -/
def conLinear (p : ModelParams) : List Con :=
  (List.range p.numShips).flatMap (fun s =>
    (List.range p.numShips).flatMap (fun t =>
      if s = t then []
      else
        (List.range p.numBerths).flatMap (fun b =>
          (List.range 10).map (fun i => Con.linear i s t b))))

/-- Constraints added by lines 660-681; the body is skipped for `s == t`. -/
def conNoOverlap (p : ModelParams) : List Con :=
  (List.range p.numShips).flatMap (fun s =>
    (List.range p.numShips).flatMap (fun t =>
      if s = t then []
      else
        (List.range p.numBerths).flatMap (fun b =>
          [Con.noOverlapLambda s t b, Con.noOverlapMu s t b])))

/-- All constraints added by `main`, in source order. -/
def builtConstraints (p : ModelParams) : List Con :=
  conSingleBerth p ++ conSlotCount p ++ conSlotExclusive p ++ conSingleRow p ++
  conRowLink p ++ conContiguity p ++ conStartAfter p ++ conOrder p ++
  conLinear p ++ conNoOverlap p

/-- One loop nest of `main`: the index accesses of its body, the Boolean
variables it constructs and the constraints it adds. -/
structure Phase where
  accesses : List (Arr × List Int)
  boolVars : List Var
  constraints : List Con

/-- The loop nests of `main` from line 280 to line 681, in source order: the
declaration loop, the three parts of the objective, the constraint nests, the
declaration nest of the linearization variables and the last two constraint
nests.  No nest and no statement between them tests the instance. -/
def mainPhases (p : ModelParams) : List Phase :=
  [⟨accDeclare p, (List.range p.numShips).flatMap (shipVars p), []⟩,
    ⟨accTransshipment p, [], []⟩,
    ⟨accStorage p, [], []⟩,
    ⟨accBerthTime p, [], []⟩,
    ⟨accSingleBerth p, [], conSingleBerth p⟩,
    ⟨accSlotCount p, [], conSlotCount p⟩,
    ⟨accSlotExclusive p, [], conSlotExclusive p⟩,
    ⟨accSingleRow p, [], conSingleRow p⟩,
    ⟨accRowLink p, [], conRowLink p⟩,
    ⟨accContiguity p, [], conContiguity p⟩,
    ⟨accStartAfter p, [], conStartAfter p⟩,
    ⟨accOrder p, [], conOrder p⟩,
    ⟨accLinDeclare p, (List.range p.numShips).flatMap (pairVars p), []⟩,
    ⟨accLinear p, [], conLinear p⟩,
    ⟨accNoOverlap p, [], conNoOverlap p⟩]

/-- What `main` has built so far: the Boolean variables constructed, the
constraints added, and the number of calls of `cplex.solve()`. -/
structure MainState where
  boolVars : List Var
  constraints : List Con
  solverCalls : Nat
  deriving DecidableEq

/-- How the followed part of a run ends: with the call `cplex.solve()` of
line 691, with an exception caught at lines 991-995 (thrown in the nest of the
given position), or with an index out of bounds. -/
inductive Status where
  | solverCalled
  | caught (nest : Nat)
  | undefinedIndex (a : Arr × List Int)
  deriving DecidableEq

/-- First access of a list that is out of bounds, if any. -/
def firstBad (p : ModelParams) (acc : List (Arr × List Int)) : Option (Arr × List Int) :=
  acc.find? (fun a => !inBounds (dimsOf p a.1) a.2)

/-- The nests that remain are run in order from the state `st`; `n` is the
position of the next nest.  After the last nest the solver object is set up
(lines 684-690, position 15) and `cplex.solve()` is called.  When a run stops
early, the state is the one reached before the nest in which it stops. -/
def runPhases (p : ModelParams) (throws : Nat → Bool) :
    Nat → List Phase → MainState → MainState × Status
  | n, [], st =>
    if throws n then (st, Status.caught n)
    else ({ st with solverCalls := st.solverCalls + 1 }, Status.solverCalled)
  | n, ph :: rest, st =>
    if throws n then (st, Status.caught n)
    else
      match firstBad p ph.accesses with
      | some a => (st, Status.undefinedIndex a)
      | none =>
        runPhases p throws (n + 1) rest
          ⟨st.boolVars ++ ph.boolVars, st.constraints ++ ph.constraints, st.solverCalls⟩

/-- Lines 244-691 of `main` on a loaded instance: the load is followed, with
no test of the instance in between, by the loop nests and the solver call. -/
def mainRun (p : ModelParams) (throws : Nat → Bool) : MainState × Status :=
  runPhases p throws 0 (mainPhases p) ⟨[], [], 0⟩

/-! ## Facts about the concrete instances -/

theorem demo_feasible : Feasible demoParams demoAssign := by
  constructor
  case dom_z => intro s _ b _; simp [demoAssign, IsBool]
  case dom_q =>
    intro s _ k _ t _
    by_cases hkt : k < t <;> simp [demoAssign, IsBool, hkt]
  case dom_y =>
    intro s _ t _
    by_cases hst : s = 1 ∧ t = 0 <;> simp [demoAssign, IsBool, hst]
  case dom_f =>
    intro s _ k _ r _
    by_cases hsr : s = r <;> simp [demoAssign, IsBool, hsr]
  case dom_e =>
    intro s hs
    simp only [demoParams] at hs
    interval_cases s <;> simp [demoAssign, demoParams]
    norm_num
  case dom_e_sk =>
    intro s hs k hk
    simp only [demoParams] at hs hk
    interval_cases s <;> interval_cases k <;> simp [demoAssign, demoParams]
    norm_num
  case dom_x =>
    intro s hs k hk r hr v hv
    simp only [demoParams] at hs hk hr hv
    interval_cases s <;> interval_cases k <;> interval_cases r <;> interval_cases v <;>
      simp [demoAssign, IsBool]
  case dom_h =>
    intro s hs k hk r hr v hv
    simp only [demoParams] at hs hk hr hv
    interval_cases s <;> interval_cases k <;> interval_cases r <;> interval_cases v <;>
      simp [demoAssign, IsBool]
  case dom_lin =>
    intro s hs t ht b _
    simp only [demoParams] at hs ht
    interval_cases s <;> interval_cases t <;> simp [demoAssign, IsBool]
  case singleBerth =>
    intro s _
    simp [demoAssign, demoParams]
  case slotCount =>
    intro s hs k hk
    simp only [demoParams] at hs hk
    interval_cases s <;> interval_cases k <;>
      simp only [demoAssign, demoParams, sum_range_succ, sum_range_zero] <;> norm_num
  case slotExclusive =>
    intro r hr v hv
    simp only [demoParams] at hr hv
    interval_cases r <;> interval_cases v <;>
      simp [demoAssign, demoParams, sum_range_succ]
  case singleRow =>
    intro s hs k _
    simp only [demoParams] at hs
    interval_cases s <;> simp [demoAssign, demoParams, sum_range_succ]
  case rowLink =>
    intro s hs k hk r hr
    simp only [demoParams] at hs hk hr
    interval_cases s <;> interval_cases k <;> interval_cases r <;>
      simp only [demoAssign, demoParams, sum_range_succ, sum_range_zero] <;> norm_num
  case boundarySum =>
    intro s hs k hk r hr
    simp only [demoParams] at hs hk hr
    interval_cases s <;> interval_cases k <;> interval_cases r <;>
      simp [demoAssign, demoParams, sum_range_succ]
  case boundaryLast =>
    intro s hs k hk r hr
    simp only [demoParams] at hs hk hr
    interval_cases s <;> interval_cases k <;> interval_cases r <;>
      simp [demoAssign, demoParams]
  case boundaryStep =>
    intro s hs k hk r hr v hv
    simp only [demoParams] at hs hk hr hv
    interval_cases s <;> interval_cases k <;> interval_cases r <;> interval_cases v <;>
      simp [demoAssign]
  case startAfterShip =>
    intro s hs k hk
    simp only [demoParams] at hs hk
    interval_cases s <;> interval_cases k <;> simp [demoAssign]
  case orderPair =>
    intro s _ k hk t ht htk
    simp only [demoParams] at hk ht
    interval_cases k <;> interval_cases t <;> simp [demoAssign] at htk ⊢
  case orderBigM =>
    intro s hs k hk t ht htk b _
    simp only [demoParams] at hs hk ht
    interval_cases s <;> interval_cases k <;> interval_cases t <;>
      simp [demoAssign, demoParams, duration, Mbig] at htk ⊢ <;> norm_num
  case linear =>
    intro s hs t ht hst b _
    simp only [demoParams] at hs ht
    interval_cases s <;> interval_cases t <;>
      simp [demoAssign, linearization] at hst ⊢
  case noOverlapLambda =>
    intro s hs t ht hst b _
    simp only [demoParams] at hs ht
    interval_cases s <;> interval_cases t <;>
      simp [demoAssign, demoParams, proc, M1, guardSpeed, sum_range_succ] at hst ⊢ <;>
      norm_num
  case noOverlapMu =>
    intro s hs t ht hst b _
    simp only [demoParams] at hs ht
    interval_cases s <;> interval_cases t <;>
      simp [demoAssign, demoParams, proc, M1, guardSpeed, sum_range_succ] at hst ⊢ <;>
      norm_num

/-! ## Basic lemmas on Boolean values and finite sums -/

theorem IsBool.nonneg {v : ℚ} (hv : IsBool v) : 0 ≤ v := by
  rcases hv with h | h <;> simp [h]

theorem IsBool.le_one {v : ℚ} (hv : IsBool v) : v ≤ 1 := by
  rcases hv with h | h <;> simp [h]

theorem IsBool.eq_one_of_pos {v : ℚ} (hv : IsBool v) (hpos : 0 < v) : v = 1 := by
  rcases hv with h | h
  · rw [h] at hpos; exact absurd hpos (lt_irrefl 0)
  · exact h

theorem IsBool.eq_zero_of_lt_one {v : ℚ} (hv : IsBool v) (hlt : v < 1) : v = 0 := by
  rcases hv with h | h
  · exact h
  · rw [h] at hlt; exact absurd hlt (lt_irrefl 1)

/-- Two distinct members of a finite sum of non-negative terms are bounded by
the whole sum. -/
theorem pair_le_sum {ι : Type} [DecidableEq ι] (S : Finset ι) (g : ι → ℚ)
    (hnn : ∀ i ∈ S, 0 ≤ g i) {i j : ι} (hi : i ∈ S) (hj : j ∈ S) (hij : i ≠ j) :
    g i + g j ≤ ∑ u ∈ S, g u := by
  rw [← Finset.sum_pair hij]
  apply Finset.sum_le_sum_of_subset_of_nonneg
  · intro u hu
    rcases Finset.mem_insert.mp hu with h | h
    · rw [h]; exact hi
    · rw [Finset.mem_singleton.mp h]; exact hj
  · intro u hu _
    exact hnn u hu

/-! ## Slot exclusivity -/

/-- C3: in a feasible assignment, for every row and slot the sum of
`x[s][k][r][v]` over all ships and compartments is at most 1, and no two
different (ship, compartment) pairs, two compartments of one ship included,
occupy the same slot. -/
theorem slot_exclusivity (p : ModelParams) (a : Assignment) (hf : Feasible p a)
    (r v : Nat) (hr : r < p.numRows) (hv : v < p.numSlotsPerRow) :
    (∑ s ∈ range p.numShips, ∑ k ∈ range p.numShipK, a.x s k r v ≤ 1) ∧
    ∀ s < p.numShips, ∀ k < p.numShipK, ∀ s' < p.numShips, ∀ k' < p.numShipK,
      a.x s k r v = 1 → a.x s' k' r v = 1 → s = s' ∧ k = k' := by
  have hsum := hf.slotExclusive r hr v hv
  refine ⟨hsum, ?_⟩
  intro s hs k hk s' hs' k' hk' h1 h2
  by_contra hne
  have hne' : ((s, k) : Nat × Nat) ≠ (s', k') := by
    intro heq
    apply hne
    exact ⟨congrArg Prod.fst heq, congrArg Prod.snd heq⟩
  rw [← Finset.sum_product' (range p.numShips) (range p.numShipK)
    (fun s k => a.x s k r v)] at hsum
  have hmem : ∀ u ∈ range p.numShips ×ˢ range p.numShipK, 0 ≤ a.x u.1 u.2 r v := by
    intro u hu
    rw [Finset.mem_product, Finset.mem_range, Finset.mem_range] at hu
    exact (hf.dom_x u.1 hu.1 u.2 hu.2 r hr v hv).nonneg
  have hpair := pair_le_sum (range p.numShips ×ˢ range p.numShipK)
    (fun u => a.x u.1 u.2 r v) hmem
    (i := (s, k)) (j := (s', k'))
    (by simp [hs, hk]) (by simp [hs', hk']) hne'
  simp only [h1, h2] at hpair
  linarith

theorem slot_exclusivity_witness :
    Feasible demoParams demoAssign ∧
    (∑ s ∈ range demoParams.numShips, ∑ k ∈ range demoParams.numShipK,
        demoAssign.x s k 0 1 ≤ 1) ∧
    ∀ s < demoParams.numShips, ∀ k < demoParams.numShipK,
      ∀ s' < demoParams.numShips, ∀ k' < demoParams.numShipK,
      demoAssign.x s k 0 1 = 1 → demoAssign.x s' k' 0 1 = 1 → s = s' ∧ k = k' :=
  ⟨demo_feasible,
    slot_exclusivity demoParams demoAssign demo_feasible 0 1 (by decide) (by decide)⟩

/-! ## Same-berth linearization and berth scheduling -/

/-- The product triple solves the constraints of lines 601-618. -/
theorem linearization_product (zs zt yst : ℚ)
    (hzs : IsBool zs) (hzt : IsBool zt) (hy : IsBool yst) :
    IsBool (zs * zt) ∧ IsBool (zs * zt * (1 - yst)) ∧ IsBool (zs * zt * yst) ∧
      linearization zs zt yst (zs * zt) (zs * zt * (1 - yst)) (zs * zt * yst) := by
  rcases hzs with h1 | h1 <;> rcases hzt with h2 | h2 <;> rcases hy with h3 | h3 <;>
    subst h1 <;> subst h2 <;> subst h3 <;> norm_num [IsBool, linearization]

/-- Every 0/1 solution of the constraints of lines 601-618 is the product
triple. -/
theorem linearization_forces (zs zt yst om la m : ℚ)
    (hzs : IsBool zs) (hzt : IsBool zt) (hy : IsBool yst)
    (hom : IsBool om) (hla : IsBool la) (hm : IsBool m)
    (hlin : linearization zs zt yst om la m) :
    om = zs * zt ∧ m = om * yst ∧ la = om * (1 - yst) ∧ la + m = om := by
  obtain ⟨c1, c2, c3, c4, c5, c6, c7, c8, c9, c10⟩ := hlin
  rcases hzs with h1 | h1 <;> rcases hzt with h2 | h2 <;> rcases hy with h3 | h3 <;>
    rcases hom with h4 | h4 <;> rcases hla with h5 | h5 <;> rcases hm with h6 | h6 <;>
    subst h1 <;> subst h2 <;> subst h3 <;> subst h4 <;> subst h5 <;> subst h6 <;>
    norm_num at c1 c2 c3 c4 c5 c6 c7 c8 c9 c10 ⊢

/-- C9: for 0/1 values of `z[s][b]`, `z[t][b]` and `y[s][t]`, the constraints
of lines 601-618 have exactly one 0/1 solution for `(omega, lambda, mu)`:
`omega = z[s][b] * z[t][b]`, `mu = omega * y[s][t]`,
`lambda = omega * (1 - y[s][t])`; that triple is a solution, every solution
equals it, and `lambda + mu = omega`. -/
theorem linearization_unique (zs zt yst : ℚ)
    (hzs : IsBool zs) (hzt : IsBool zt) (hy : IsBool yst) :
    (IsBool (zs * zt) ∧ IsBool (zs * zt * (1 - yst)) ∧ IsBool (zs * zt * yst) ∧
      linearization zs zt yst (zs * zt) (zs * zt * (1 - yst)) (zs * zt * yst)) ∧
    (∀ om la m : ℚ, IsBool om → IsBool la → IsBool m →
      linearization zs zt yst om la m →
        om = zs * zt ∧ m = om * yst ∧ la = om * (1 - yst) ∧ la + m = om) :=
  ⟨linearization_product zs zt yst hzs hzt hy,
    fun om la m hom hla hm hlin =>
      linearization_forces zs zt yst om la m hzs hzt hy hom hla hm hlin⟩

theorem linearization_unique_witness :
    (IsBool ((1 : ℚ) * 1) ∧ IsBool ((1 : ℚ) * 1 * (1 - 0)) ∧ IsBool ((1 : ℚ) * 1 * 0) ∧
      linearization 1 1 0 (1 * 1) (1 * 1 * (1 - 0)) (1 * 1 * 0)) ∧
    (∀ om la m : ℚ, IsBool om → IsBool la → IsBool m →
      linearization 1 1 0 om la m →
        om = 1 * 1 ∧ m = om * 0 ∧ la = om * (1 - 0) ∧ la + m = om) :=
  linearization_unique 1 1 0 (Or.inr rfl) (Or.inr rfl) (Or.inl rfl)

/-- In a feasible assignment, two distinct ships on the same berth have
`omega = 1` and exactly one of `lambda`, `mu` equal to 1, decided by `y`. -/
theorem same_berth_split (p : ModelParams) (a : Assignment) (hf : Feasible p a)
    (s t b : Nat) (hs : s < p.numShips) (ht : t < p.numShips) (hst : s ≠ t)
    (hb : b < p.numBerths) (hzs : a.z s b = 1) (hzt : a.z t b = 1) :
    (a.y s t = 0 ∧ a.lambda s t b = 1 ∧ a.mu s t b = 0) ∨
    (a.y s t = 1 ∧ a.lambda s t b = 0 ∧ a.mu s t b = 1) := by
  obtain ⟨hom, hla, hm⟩ := hf.dom_lin s hs t ht b hb
  have hy := hf.dom_y s hs t ht
  have hlin := hf.linear s hs t ht hst b hb
  rw [hzs, hzt] at hlin
  obtain ⟨e1, e2, e3, _⟩ :=
    linearization_forces 1 1 (a.y s t) _ _ _ (Or.inr rfl) (Or.inr rfl) hy hom hla hm hlin
  rcases hy with h0 | h1
  · left
    rw [h0] at e2 e3
    refine ⟨h0, ?_, ?_⟩
    · rw [e3, e1]; norm_num
    · rw [e2]; norm_num
  · right
    rw [h1] at e2 e3
    refine ⟨h1, ?_, ?_⟩
    · rw [e3]; norm_num
    · rw [e2, e1]; norm_num

/-- C2: in a feasible assignment, two distinct ships assigned to the same
berth have non-overlapping berth windows:
`e[s] + proc(s,b) <= e[t]` or `e[t] + proc(t,b) <= e[s]`. -/
theorem berth_windows_disjoint (p : ModelParams) (a : Assignment) (hf : Feasible p a)
    (s t b : Nat) (hs : s < p.numShips) (ht : t < p.numShips) (hst : s ≠ t)
    (hb : b < p.numBerths) (hzs : a.z s b = 1) (hzt : a.z t b = 1) :
    a.e s + proc p s b ≤ a.e t ∨ a.e t + proc p t b ≤ a.e s := by
  rcases same_berth_split p a hf s t b hs ht hst hb hzs hzt with ⟨_, hl, _⟩ | ⟨_, _, hm⟩
  · left
    have hc := hf.noOverlapLambda s hs t ht hst b hb
    rw [hl] at hc
    linarith
  · right
    have hc := hf.noOverlapMu s hs t ht hst b hb
    rw [hm] at hc
    linarith

theorem berth_windows_disjoint_witness :
    Feasible demoParams demoAssign ∧
    (demoAssign.e 0 + proc demoParams 0 0 ≤ demoAssign.e 1 ∨
      demoAssign.e 1 + proc demoParams 1 0 ≤ demoAssign.e 0) :=
  ⟨demo_feasible,
    berth_windows_disjoint demoParams demoAssign demo_feasible 0 1 0
      (by decide) (by decide) (by decide) (by decide) rfl rfl⟩

/-- In a feasible assignment, for two distinct ships on the same berth,
`y[s][t] = 1` forces `mu[s][t][b] = 1`, so that ship `t` is served first:
`e[t] + proc(t,b) <= e[s]`. -/
theorem y_one_orders_t_first (p : ModelParams) (a : Assignment) (hf : Feasible p a)
    (s t b : Nat) (hs : s < p.numShips) (ht : t < p.numShips) (hst : s ≠ t)
    (hb : b < p.numBerths) (hzs : a.z s b = 1) (hzt : a.z t b = 1)
    (hy : a.y s t = 1) :
    a.e t + proc p t b ≤ a.e s := by
  rcases same_berth_split p a hf s t b hs ht hst hb hzs hzt with ⟨h0, _, _⟩ | ⟨_, _, hm⟩
  · rw [hy] at h0
    exact absurd h0 one_ne_zero
  · have hc := hf.noOverlapMu s hs t ht hst b hb
    rw [hm] at hc
    linarith

/-- C10 (evaluation of the model at the failing input): `demoAssign` is
feasible for `demoParams`, ships 1 and 0 are both on berth 0 and
`y[1][0] = 1`, yet ship 1 does not precede ship 0: `e[1] + proc(1,0) = 12`
exceeds `e[0] = 0`; it is ship 0 that precedes ship 1. -/
theorem y_order_reversed_at_demo :
    Feasible demoParams demoAssign ∧
    demoAssign.z 1 0 = 1 ∧ demoAssign.z 0 0 = 1 ∧ demoAssign.y 1 0 = 1 ∧
    ¬ (demoAssign.e 1 + proc demoParams 1 0 ≤ demoAssign.e 0) ∧
    demoAssign.e 0 + proc demoParams 0 0 ≤ demoAssign.e 1 := by
  refine ⟨demo_feasible, rfl, rfl, ?_, ?_, ?_⟩
  · simp [demoAssign]
  · simp only [demoAssign, demoParams, proc, guardSpeed, sum_range_succ, sum_range_zero]
    norm_num
  · simp only [demoAssign, demoParams, proc, guardSpeed, sum_range_succ, sum_range_zero]
    norm_num

/-! ## Compartment ordering within a ship -/

/-- C8: in a feasible assignment, for a ship `s` assigned to berth `b` and
two distinct compartments `k`, `t`: exactly one of `q[s][k][t]`, `q[s][t][k]`
equals 1, and if `q[s][k][t] = 1` then
`e_sk[s][k] + duration(s,k,b) <= e_sk[s][t]`. -/
theorem compartment_order (p : ModelParams) (a : Assignment) (hf : Feasible p a)
    (s b k t : Nat) (hs : s < p.numShips) (hb : b < p.numBerths)
    (hk : k < p.numShipK) (ht : t < p.numShipK) (hkt : k ≠ t)
    (hz : a.z s b = 1) :
    ((a.q s k t = 1 ∧ a.q s t k = 0) ∨ (a.q s k t = 0 ∧ a.q s t k = 1)) ∧
    (a.q s k t = 1 → a.e_sk s k + duration p s k b ≤ a.e_sk s t) := by
  have hpair := hf.orderPair s hs k hk t ht (Ne.symm hkt)
  have hq1 := hf.dom_q s hs k hk t ht
  have hq2 := hf.dom_q s hs t ht k hk
  constructor
  · rcases hq1 with h | h
    · right
      rw [h] at hpair
      exact ⟨h, by linarith⟩
    · left
      rw [h] at hpair
      exact ⟨h, by linarith⟩
  · intro hq
    have hc := hf.orderBigM s hs k hk t ht (Ne.symm hkt) b hb
    rw [hq, hz] at hc
    unfold Mbig at hc
    linarith

theorem compartment_order_witness :
    Feasible demoParams demoAssign ∧
    ((demoAssign.q 0 0 1 = 1 ∧ demoAssign.q 0 1 0 = 0) ∨
      (demoAssign.q 0 0 1 = 0 ∧ demoAssign.q 0 1 0 = 1)) ∧
    (demoAssign.q 0 0 1 = 1 →
      demoAssign.e_sk 0 0 + duration demoParams 0 0 0 ≤ demoAssign.e_sk 0 1) :=
  ⟨demo_feasible,
    compartment_order demoParams demoAssign demo_feasible 0 0 0 1
      (by decide) (by decide) (by decide) (by decide) (by decide) rfl⟩

/-! ## Objective and per-ship cost decomposition -/

theorem IsBool.eq_zero_of_le_eps {v : ℚ} (hv : IsBool v) (h : v ≤ eps) : v = 0 := by
  rcases hv with h0 | h1
  · exact h0
  · rw [h1] at h
    unfold eps at h
    norm_num at h

/-- A compartment whose required slot count is not positive occupies no slot
in a feasible assignment. -/
theorem x_zero_of_required_nonpos (p : ModelParams) (a : Assignment) (hf : Feasible p a)
    (s k : Nat) (hs : s < p.numShips) (hk : k < p.numShipK)
    (hreq : p.requiredSlots s k ≤ 0) :
    ∀ r < p.numRows, ∀ v < p.numSlotsPerRow, a.x s k r v = 0 := by
  intro r hr v hv
  have hsum := hf.slotCount s hs k hk
  have hnn : ∀ r' ∈ range p.numRows,
      0 ≤ ∑ v' ∈ range p.numSlotsPerRow, a.x s k r' v' := by
    intro r' hr'
    apply Finset.sum_nonneg
    intro v' hv'
    exact (hf.dom_x s hs k hk r' (mem_range.mp hr') v' (mem_range.mp hv')).nonneg
  have hle : ((p.requiredSlots s k : Int) : ℚ) ≤ 0 := by exact_mod_cast hreq
  have h0 : ∑ r' ∈ range p.numRows, ∑ v' ∈ range p.numSlotsPerRow, a.x s k r' v' = 0 :=
    le_antisymm (by rw [hsum]; exact hle) (Finset.sum_nonneg hnn)
  have hrow := (Finset.sum_eq_zero_iff_of_nonneg hnn).mp h0 r (mem_range.mpr hr)
  have hnn2 : ∀ v' ∈ range p.numSlotsPerRow, 0 ≤ a.x s k r v' := by
    intro v' hv'
    exact (hf.dom_x s hs k hk r hr v' (mem_range.mp hv')).nonneg
  exact (Finset.sum_eq_zero_iff_of_nonneg hnn2).mp hrow v (mem_range.mpr hv)

/-- The interpreter's `transCostS` is ship `s`'s share of the transshipment
part of the objective. -/
theorem transCostS_eq (p : ModelParams) (a : Assignment) (hf : Feasible p a)
    (s : Nat) (hs : s < p.numShips) :
    transCostS p a s =
      ∑ k ∈ range p.numShipK, ∑ b ∈ range p.numBerths,
        ∑ r ∈ range p.numRows, ∑ v ∈ range p.numSlotsPerRow,
          p.transshipmentCost b r v * p.cargoWeight s
            / (((p.requiredSlots s k * (p.numShipK : Int) : Int)) : ℚ)
            * a.x s k r v * a.z s b := by
  unfold transCostS
  apply Finset.sum_congr rfl
  intro k hk
  rw [mem_range] at hk
  by_cases hreq : p.requiredSlots s k ≤ 0
  · rw [if_pos hreq]
    symm
    apply Finset.sum_eq_zero
    intro b _
    apply Finset.sum_eq_zero
    intro r hr
    apply Finset.sum_eq_zero
    intro v hv
    rw [x_zero_of_required_nonpos p a hf s k hs hk hreq r (mem_range.mp hr) v
      (mem_range.mp hv)]
    ring
  · rw [if_neg hreq]
    apply Finset.sum_congr rfl
    intro b hb
    by_cases hz : a.z s b ≤ eps
    · rw [if_pos hz, (hf.dom_z s hs b (mem_range.mp hb)).eq_zero_of_le_eps hz]
      symm
      apply Finset.sum_eq_zero
      intro r _
      apply Finset.sum_eq_zero
      intro v _
      ring
    · rw [if_neg hz]
      apply Finset.sum_congr rfl
      intro r hr
      apply Finset.sum_congr rfl
      intro v hv
      by_cases hx : a.x s k r v ≤ eps
      · rw [if_pos hx,
          (hf.dom_x s hs k hk r (mem_range.mp hr) v (mem_range.mp hv)).eq_zero_of_le_eps hx]
        ring
      · rw [if_neg hx]
        push_cast
        ring

/-- The interpreter's `storeCostS` is ship `s`'s share of the storage part of
the objective. -/
theorem storeCostS_eq (p : ModelParams) (a : Assignment) (hf : Feasible p a)
    (s : Nat) (hs : s < p.numShips) :
    storeCostS p a s =
      ∑ k ∈ range p.numShipK, ∑ r ∈ range p.numRows, ∑ v ∈ range p.numSlotsPerRow,
        p.storageCost s k r * a.x s k r v := by
  unfold storeCostS
  apply Finset.sum_congr rfl
  intro k hk
  apply Finset.sum_congr rfl
  intro r hr
  apply Finset.sum_congr rfl
  intro v hv
  by_cases hx : a.x s k r v ≤ eps
  · rw [if_pos hx,
      (hf.dom_x s hs k (mem_range.mp hk) r (mem_range.mp hr) v
        (mem_range.mp hv)).eq_zero_of_le_eps hx]
    ring
  · rw [if_neg hx]

/-- The interpreter's `berthTimeS` is ship `s`'s summand of `berthTime`. -/
theorem berthTimeS_eq (p : ModelParams) (a : Assignment) (hf : Feasible p a)
    (s : Nat) (hs : s < p.numShips) :
    berthTimeS p a s =
      (a.e s - p.arrivalTime s) +
        ∑ k ∈ range p.numShipK, ∑ b ∈ range p.numBerths,
          (p.cargoWeight s / (guardSpeed (p.unloadingSpeed s b k) * (p.numShipK : ℚ)))
            * a.z s b := by
  unfold berthTimeS
  rw [Finset.sum_comm]
  congr 1
  apply Finset.sum_congr rfl
  intro b hb
  by_cases hz : a.z s b ≤ eps
  · rw [if_pos hz, (hf.dom_z s hs b (mem_range.mp hb)).eq_zero_of_le_eps hz]
    symm
    apply Finset.sum_eq_zero
    intro k _
    ring
  · rw [if_neg hz]

/-- Whenever the objective loop meets no zero divisor, the per-ship weighted
contributions `alpha * (transCostS + storeCostS) + beta * berthTimeS` of the
interpreter, summed over all ships, equal in exact arithmetic the objective
`alpha * (transshipment total + storage total) + beta * berth-time total`
built by the model builder, evaluated at the same feasible assignment. -/
theorem weighted_sum_eq_objective_of_defined (p : ModelParams) (a : Assignment)
    (hf : Feasible p a) (hdef : zeroDivisorMet p = false) :
    objective p a = some (∑ s ∈ range p.numShips, weighted p a s) := by
  unfold objective transshipmentTotal
  rw [hdef]
  simp only [Bool.false_eq_true, if_false, Option.map_some']
  congr 1
  unfold weighted storageTotal berthTimeTotal
  rw [← Finset.sum_add_distrib, Finset.mul_sum, Finset.mul_sum,
    ← Finset.sum_add_distrib]
  symm
  apply Finset.sum_congr rfl
  intro s hs
  rw [mem_range] at hs
  rw [transCostS_eq p a hf s hs, storeCostS_eq p a hf s hs, berthTimeS_eq p a hf s hs]

/-- The objective of `demoParams` has a value, the interpreter's total. -/
theorem demo_objective_defined :
    objective demoParams demoAssign
      = some (∑ s ∈ range demoParams.numShips, weighted demoParams demoAssign s) :=
  weighted_sum_eq_objective_of_defined demoParams demoAssign demo_feasible (by decide)

/-! ## Capacity: the generator's check and the model built by `main` -/

/-- Summing the slot-count constraints over all compartments and the
exclusivity constraints over all slots bounds the total demand of a
feasible instance by the number of slots. -/
theorem demand_le_capacity_of_feasible (p : ModelParams) (a : Assignment)
    (hf : Feasible p a) : totalRequiredSlots p ≤ totalAvailableSlots p := by
  have h1 : ((totalRequiredSlots p : Int) : ℚ) =
      ∑ s ∈ range p.numShips, ∑ k ∈ range p.numShipK,
        ∑ r ∈ range p.numRows, ∑ v ∈ range p.numSlotsPerRow, a.x s k r v := by
    unfold totalRequiredSlots
    push_cast
    apply Finset.sum_congr rfl
    intro s hs
    apply Finset.sum_congr rfl
    intro k hk
    exact (hf.slotCount s (mem_range.mp hs) k (mem_range.mp hk)).symm
  have h2 : ∑ s ∈ range p.numShips, ∑ k ∈ range p.numShipK,
        ∑ r ∈ range p.numRows, ∑ v ∈ range p.numSlotsPerRow, a.x s k r v =
      ∑ r ∈ range p.numRows, ∑ v ∈ range p.numSlotsPerRow,
        ∑ s ∈ range p.numShips, ∑ k ∈ range p.numShipK, a.x s k r v := by
    calc ∑ s ∈ range p.numShips, ∑ k ∈ range p.numShipK,
          ∑ r ∈ range p.numRows, ∑ v ∈ range p.numSlotsPerRow, a.x s k r v
        = ∑ s ∈ range p.numShips, ∑ r ∈ range p.numRows,
          ∑ k ∈ range p.numShipK, ∑ v ∈ range p.numSlotsPerRow, a.x s k r v :=
          Finset.sum_congr rfl (fun s _ => Finset.sum_comm)
      _ = ∑ r ∈ range p.numRows, ∑ s ∈ range p.numShips,
          ∑ k ∈ range p.numShipK, ∑ v ∈ range p.numSlotsPerRow, a.x s k r v :=
          Finset.sum_comm
      _ = ∑ r ∈ range p.numRows, ∑ s ∈ range p.numShips,
          ∑ v ∈ range p.numSlotsPerRow, ∑ k ∈ range p.numShipK, a.x s k r v :=
          Finset.sum_congr rfl (fun r _ => Finset.sum_congr rfl (fun s _ => Finset.sum_comm))
      _ = ∑ r ∈ range p.numRows, ∑ v ∈ range p.numSlotsPerRow,
          ∑ s ∈ range p.numShips, ∑ k ∈ range p.numShipK, a.x s k r v :=
          Finset.sum_congr rfl (fun r _ => Finset.sum_comm)
  have h3 : ∑ r ∈ range p.numRows, ∑ v ∈ range p.numSlotsPerRow,
        ∑ s ∈ range p.numShips, ∑ k ∈ range p.numShipK, a.x s k r v ≤
      ∑ _r ∈ range p.numRows, ∑ _v ∈ range p.numSlotsPerRow, (1 : ℚ) := by
    apply Finset.sum_le_sum
    intro r hr
    apply Finset.sum_le_sum
    intro v hv
    exact hf.slotExclusive r (mem_range.mp hr) v (mem_range.mp hv)
  have h4 : ∑ _r ∈ range p.numRows, ∑ _v ∈ range p.numSlotsPerRow, (1 : ℚ) =
      ((totalAvailableSlots p : Int) : ℚ) := by
    unfold totalAvailableSlots
    simp
  have h5 : ((totalRequiredSlots p : Int) : ℚ) ≤ ((totalAvailableSlots p : Int) : ℚ) := by
    rw [h1, h2, ← h4]
    exact h3
  exact_mod_cast h5

/-- The abort branch of `setParams` is taken exactly when the computed total
demand exceeds 480. -/
theorem setParams_aborts_iffAux (tanv : ℚ → ℚ) (numBerths numShips : Nat) (d : Draws) :
    setParams tanv numBerths numShips d = none ↔
      ∑ s ∈ range numShips, ∑ k ∈ range 3,
        slotFormula tanv 50 (1 / 2) 3 (d.weight s) (d.density s k) (d.angel s k)
          > 20 * 24 := by
  have htot : totalRequiredSlots (generated tanv numBerths numShips d) =
      ∑ s ∈ range numShips, ∑ k ∈ range 3,
        slotFormula tanv 50 (1 / 2) 3 (d.weight s) (d.density s k) (d.angel s k) := rfl
  have hav : totalAvailableSlots (generated tanv numBerths numShips d) = 20 * 24 := rfl
  unfold setParams
  simp only []
  rw [htot, hav]
  constructor
  · intro h
    by_contra hn
    rw [if_neg hn] at h
    exact Option.noConfusion h
  · intro h
    rw [if_pos h]

/-- With tangent 1, weight 60000 and density 2 a compartment needs one slot. -/
theorem slotFormula_flat : slotFormula unitTan 50 (1 / 2) 3 60000 2 (4 / 5) = 1 := by
  unfold slotFormula unitTan
  rw [Int.ceil_eq_iff]
  norm_num

/-- On `flatDraws`, `setParams` returns an instance for 160 ships (demand
480) and aborts for 161 ships (demand 483). -/
theorem setParams_flat_outcomes :
    (setParams unitTan 9 160 flatDraws).isSome = true ∧
    setParams unitTan 9 161 flatDraws = none := by
  have h160 := (setParams_aborts_iffAux unitTan 9 160 flatDraws)
  have h161 := (setParams_aborts_iffAux unitTan 9 161 flatDraws)
  simp only [flatDraws, slotFormula_flat, Finset.sum_const, Finset.card_range,
    nsmul_eq_mul] at h160 h161
  constructor
  · rw [Option.isSome_iff_ne_none]
    intro hnone
    have := h160.mp hnone
    norm_num at this
  · apply h161.mpr
    norm_num

/-! ## Console interval merge -/

/-- The intervals emitted so far are a prefix of the result of the scan. -/
theorem mergeLoop_acc (rest : List Int) :
    ∀ (start prev : Int) (acc : List (Int × Int)),
      mergeLoop rest start prev acc = acc ++ mergeLoop rest start prev [] := by
  induction rest with
  | nil =>
    intro start prev acc
    simp [mergeLoop]
  | cons cur rest ih =>
    intro start prev acc
    by_cases hc : cur = prev + 1
    · simp only [mergeLoop, if_pos hc]
      exact ih start cur acc
    · simp only [mergeLoop, if_neg hc]
      rw [ih cur cur (acc ++ [(start, prev)]), ih cur cur ([] ++ [(start, prev)])]
      simp

/-- One step of the scan, with the closed interval put in front. -/
theorem mergeLoop_cons (cur : Int) (rest : List Int) (start prev : Int) :
    mergeLoop (cur :: rest) start prev [] =
      if cur = prev + 1 then mergeLoop rest start cur []
      else (start, prev) :: mergeLoop rest cur cur [] := by
  by_cases hc : cur = prev + 1
  · simp only [mergeLoop, if_pos hc]
  · simp only [mergeLoop, if_neg hc]
    rw [mergeLoop_acc rest cur cur ([] ++ [(start, prev)])]
    simp

/-- Invariant of the scan started with the open interval `[start..prev]` on
a strictly increasing remainder that lies above `prev`. -/
theorem mergeLoop_spec (rest : List Int) :
    ∀ (start prev : Int), start ≤ prev → (∀ c ∈ rest, prev < c) →
      rest.Pairwise (· < ·) →
      (∀ iv ∈ mergeLoop rest start prev [], iv.1 ≤ iv.2 ∧ start ≤ iv.1) ∧
      (mergeLoop rest start prev []).Pairwise (fun i j => i.2 + 1 < j.1) ∧
      (∀ v : Int, (∃ iv ∈ mergeLoop rest start prev [], inInterval v iv) ↔
        ((start ≤ v ∧ v ≤ prev) ∨ v ∈ rest)) ∧
      (∀ iv ∈ mergeLoop rest start prev [], iv.1 = start ∨
        (iv.1 ∈ rest ∧ ¬ (start ≤ iv.1 - 1 ∧ iv.1 - 1 ≤ prev) ∧ iv.1 - 1 ∉ rest)) := by
  induction rest with
  | nil =>
    intro start prev hsp _ _
    simp only [mergeLoop, List.nil_append, List.mem_singleton]
    refine ⟨?_, List.pairwise_singleton _ _, ?_, ?_⟩
    · intro iv hiv
      subst hiv
      exact ⟨hsp, le_refl _⟩
    · intro v
      simp [inInterval]
    · intro iv hiv
      subst hiv
      exact Or.inl rfl
  | cons cur rest ih =>
    intro start prev hsp habove hpw
    have hcur : prev < cur := habove cur (List.mem_cons_self _ _)
    obtain ⟨hcr, hpw'⟩ := List.pairwise_cons.mp hpw
    rw [mergeLoop_cons]
    by_cases hc : cur = prev + 1
    · rw [if_pos hc]
      obtain ⟨i1, i2, i3, i4⟩ := ih start cur (by omega) hcr hpw'
      refine ⟨i1, i2, ?_, ?_⟩
      · intro v
        rw [i3 v, List.mem_cons]
        constructor
        · rintro (⟨h1, h2⟩ | h)
          · by_cases hv : v = cur
            · exact Or.inr (Or.inl hv)
            · exact Or.inl ⟨h1, by omega⟩
          · exact Or.inr (Or.inr h)
        · rintro (⟨h1, h2⟩ | h | h)
          · exact Or.inl ⟨h1, by omega⟩
          · exact Or.inl ⟨by omega, by omega⟩
          · exact Or.inr h
      · intro iv hiv
        rcases i4 iv hiv with h | ⟨h1, h2, h3⟩
        · exact Or.inl h
        · refine Or.inr ⟨List.mem_cons_of_mem _ h1, ?_, ?_⟩
          · intro hh
            exact h2 ⟨hh.1, by omega⟩
          · intro hmem
            rcases List.mem_cons.mp hmem with h | h
            · exact h2 ⟨by omega, by omega⟩
            · exact h3 h
    · rw [if_neg hc]
      have hgap : prev + 1 < cur := by omega
      obtain ⟨i1, i2, i3, i4⟩ := ih cur cur (le_refl _) hcr hpw'
      refine ⟨?_, ?_, ?_, ?_⟩
      · intro iv hiv
        rcases List.mem_cons.mp hiv with h | h
        · subst h
          exact ⟨hsp, le_refl _⟩
        · exact ⟨(i1 iv h).1, by have := (i1 iv h).2; omega⟩
      · apply List.pairwise_cons.mpr
        refine ⟨?_, i2⟩
        intro iv hiv
        have := (i1 iv hiv).2
        show prev + 1 < iv.1
        omega
      · intro v
        constructor
        · rintro ⟨iv, hiv, hin⟩
          rcases List.mem_cons.mp hiv with h | h
          · subst h
            exact Or.inl hin
          · rcases (i3 v).mp ⟨iv, h, hin⟩ with ⟨h1, h2⟩ | h'
            · exact Or.inr (List.mem_cons.mpr (Or.inl (by omega)))
            · exact Or.inr (List.mem_cons_of_mem _ h')
        · rintro (h | h)
          · exact ⟨(start, prev), List.mem_cons_self _ _, h⟩
          · rcases List.mem_cons.mp h with h' | h'
            · obtain ⟨iv, hiv, hin⟩ := (i3 v).mpr (Or.inl ⟨by omega, by omega⟩)
              exact ⟨iv, List.mem_cons_of_mem _ hiv, hin⟩
            · obtain ⟨iv, hiv, hin⟩ := (i3 v).mpr (Or.inr h')
              exact ⟨iv, List.mem_cons_of_mem _ hiv, hin⟩
      · intro iv hiv
        rcases List.mem_cons.mp hiv with h | h
        · subst h
          exact Or.inl rfl
        · right
          rcases i4 iv h with h1 | ⟨h1, h2, h3⟩
          · refine ⟨List.mem_cons.mpr (Or.inl h1), ?_, ?_⟩
            · intro hh
              omega
            · intro hmem
              rcases List.mem_cons.mp hmem with h' | h'
              · omega
              · have := hcr _ h'
                omega
          · have hlt := hcr _ h1
            refine ⟨List.mem_cons_of_mem _ h1, ?_, ?_⟩
            · intro hh
              omega
            · intro hmem
              rcases List.mem_cons.mp hmem with h' | h'
              · exact h2 ⟨by omega, by omega⟩
              · exact h3 h'

/-- C7: for a non-empty strictly increasing list `occ`, the console merge
returns intervals `(start, end)` with `start <= end` that are pairwise
disjoint and in increasing order, with consecutive intervals separated by a
missing index (`next start > previous end + 1`), whose union is exactly the
set of elements of `occ`; no list of intervals with that union is shorter. -/
theorem consoleMerge_minimal_cover (occ : List Int) (hne : occ ≠ [])
    (hinc : occ.Pairwise (· < ·)) :
    (∀ iv ∈ consoleMerge occ, iv.1 ≤ iv.2) ∧
    (consoleMerge occ).Pairwise (fun i j => i.2 < j.1) ∧
    Separated (consoleMerge occ) ∧
    CoversExactly (consoleMerge occ) occ ∧
    (∀ other : List (Int × Int), CoversExactly other occ →
      (consoleMerge occ).length ≤ other.length) := by
  cases occ with
  | nil => exact absurd rfl hne
  | cons first rest =>
    obtain ⟨hfr, hpw⟩ := List.pairwise_cons.mp hinc
    obtain ⟨i1, i2, i3, i4⟩ := mergeLoop_spec rest first first (le_refl _) hfr hpw
    have hcover : CoversExactly (consoleMerge (first :: rest)) (first :: rest) := by
      intro v
      show v ∈ first :: rest ↔ ∃ iv ∈ mergeLoop rest first first [], inInterval v iv
      rw [i3 v, List.mem_cons]
      constructor
      · rintro (h | h)
        · exact Or.inl ⟨by omega, by omega⟩
        · exact Or.inr h
      · rintro (⟨h1, h2⟩ | h)
        · exact Or.inl (by omega)
        · exact Or.inr h
    have hstart : ∀ iv ∈ mergeLoop rest first first [],
        iv.1 ∈ first :: rest ∧ iv.1 - 1 ∉ first :: rest := by
      intro iv hiv
      rcases i4 iv hiv with h | ⟨h1, h2, h3⟩
      · refine ⟨List.mem_cons.mpr (Or.inl h), ?_⟩
        intro hmem
        rcases List.mem_cons.mp hmem with h' | h'
        · omega
        · have := hfr _ h'
          omega
      · refine ⟨List.mem_cons_of_mem _ h1, ?_⟩
        intro hmem
        rcases List.mem_cons.mp hmem with h' | h'
        · exact h2 ⟨by omega, by omega⟩
        · exact h3 h'
    refine ⟨fun iv hiv => (i1 iv hiv).1, ?_, ?_, hcover, ?_⟩
    · exact i2.imp (fun {i j} h => by omega)
    · exact i2.chain'
    · intro other hother
      have hnodup : ((mergeLoop rest first first []).map Prod.fst).Nodup := by
        rw [List.Nodup, List.pairwise_map]
        refine List.Pairwise.imp_of_mem ?_ i2
        intro i j hi _ hij
        have := (i1 i hi).1
        show i.1 ≠ j.1
        omega
      have hsub : (mergeLoop rest first first []).map Prod.fst ⊆ other.map Prod.fst := by
        intro u hu
        obtain ⟨iv, hiv, rfl⟩ := List.mem_map.mp hu
        obtain ⟨hin, hout⟩ := hstart iv hiv
        obtain ⟨o, ho, ho1, ho2⟩ := (hother iv.1).mp hin
        have heq : o.1 = iv.1 := by
          by_contra hne'
          apply hout
          exact (hother (iv.1 - 1)).mpr ⟨o, ho, by show o.1 ≤ iv.1 - 1; omega,
            by show iv.1 - 1 ≤ o.2; omega⟩
        exact List.mem_map.mpr ⟨o, ho, heq⟩
      have hlen := (List.subperm_of_subset hnodup hsub).length_le
      simpa using hlen

theorem consoleMerge_minimal_cover_witness :
    (∀ iv ∈ consoleMerge [3, 7, 8, 9], iv.1 ≤ iv.2) ∧
    (consoleMerge [3, 7, 8, 9]).Pairwise (fun i j => i.2 < j.1) ∧
    Separated (consoleMerge [3, 7, 8, 9]) ∧
    CoversExactly (consoleMerge [3, 7, 8, 9]) [3, 7, 8, 9] ∧
    (∀ other : List (Int × Int), CoversExactly other [3, 7, 8, 9] →
      (consoleMerge [3, 7, 8, 9]).length ≤ other.length) :=
  consoleMerge_minimal_cover [3, 7, 8, 9] (by decide) (by decide)

/-- The console merge on the slots 3, 7, 8, 9 yields `[3-3]` and `[7-9]`. -/
theorem consoleMerge_example : consoleMerge [3, 7, 8, 9] = [(3, 3), (7, 9)] := by
  decide

/-! ## Contiguous placement -/

/-- A 0/1 family over `range n` that sums to 1 has exactly one member equal
to 1. -/
theorem exists_unique_one_of_sum_eq_one (g : Nat → ℚ) (n : Nat)
    (hb : ∀ i < n, IsBool (g i)) (hsum : ∑ i ∈ range n, g i = 1) :
    ∃ i0 < n, g i0 = 1 ∧ ∀ i < n, i ≠ i0 → g i = 0 := by
  have hex : ∃ i0 < n, g i0 ≠ 0 := by
    by_contra hno
    have hz : ∑ i ∈ range n, g i = 0 := by
      apply Finset.sum_eq_zero
      intro i hi
      by_contra hne
      exact hno ⟨i, mem_range.mp hi, hne⟩
    rw [hz] at hsum
    exact zero_ne_one hsum
  obtain ⟨i0, hi0, hne⟩ := hex
  have h1 : g i0 = 1 := by
    rcases hb i0 hi0 with h | h
    · exact absurd h hne
    · exact h
  refine ⟨i0, hi0, h1, ?_⟩
  intro i hi hii
  have hp := pair_le_sum (range n) g (fun u hu => (hb u (mem_range.mp hu)).nonneg)
    (mem_range.mpr hi0) (mem_range.mpr hi) (Ne.symm hii)
  rw [hsum, h1] at hp
  exact (hb i hi).eq_zero_of_lt_one (by linarith)

/-- A 0/1 family that is 1 exactly on `lo, ..., lo + n - 1` sums to `n`. -/
theorem sum_eq_run_length (xr : Nat → ℚ) (V lo n : Nat)
    (hb : ∀ v < V, IsBool (xr v)) (hle : lo + n ≤ V)
    (hrun : ∀ v < V, (xr v = 1 ↔ lo ≤ v ∧ v < lo + n)) :
    ∑ v ∈ range V, xr v = (n : ℚ) := by
  have h1 : ∑ v ∈ range V, xr v =
      ∑ v ∈ range V, (if lo ≤ v ∧ v < lo + n then (1 : ℚ) else 0) := by
    apply Finset.sum_congr rfl
    intro v hv
    rw [mem_range] at hv
    by_cases hc : lo ≤ v ∧ v < lo + n
    · rw [if_pos hc]
      exact (hrun v hv).mpr hc
    · rw [if_neg hc]
      rcases hb v hv with h | h
      · exact h
      · exact absurd ((hrun v hv).mp h) hc
  have h2 : (range V).filter (fun v => lo ≤ v ∧ v < lo + n) = Finset.Ico lo (lo + n) := by
    ext v
    simp only [Finset.mem_filter, Finset.mem_range, Finset.mem_Ico]
    constructor
    · rintro ⟨_, h⟩
      exact h
    · intro h
      exact ⟨by omega, h⟩
  rw [h1, Finset.sum_boole, h2, Nat.card_Ico]
  congr 1
  omega

/-- Within one row, a single boundary marker together with the last-slot and
adjacency constraints of lines 497-502 forces the occupied slots to be
consecutive. -/
theorem row_run_of_boundary (xr hr : Nat → ℚ) (V : Nat)
    (hbx : ∀ v < V, IsBool (xr v)) (hbh : ∀ v < V, IsBool (hr v))
    (hsum : ∑ v ∈ range V, hr v = 1)
    (hlast : xr (V - 1) ≤ hr (V - 1))
    (hstep : ∀ v < V - 1, xr v - xr (v + 1) ≤ hr v) :
    ∃ lo n : Nat, lo + n ≤ V ∧ ∀ v < V, (xr v = 1 ↔ lo ≤ v ∧ v < lo + n) := by
  obtain ⟨v0, hv0, _, hother⟩ := exists_unique_one_of_sum_eq_one hr V hbh hsum
  -- no slot to the right of the marker is occupied
  have hright : ∀ d v : Nat, v0 < v → v + d + 1 = V → xr v = 0 := by
    intro d
    induction d with
    | zero =>
      intro v hv hd
      have hvV : v = V - 1 := by omega
      have hh : hr v = 0 := hother v (by omega) (by omega)
      have hx := hbx v (by omega)
      rw [← hvV, hh] at hlast
      exact hx.eq_zero_of_lt_one (by linarith)
    | succ d ih =>
      intro v hv hd
      have hnext : xr (v + 1) = 0 := ih (v + 1) (by omega) (by omega)
      have hh : hr v = 0 := hother v (by omega) (by omega)
      have hs := hstep v (by omega)
      rw [hnext, hh] at hs
      exact (hbx v (by omega)).eq_zero_of_lt_one (by linarith)
  have hright' : ∀ v < V, v0 < v → xr v = 0 := by
    intro v hv hlt
    exact hright (V - 1 - v) v hlt (by omega)
  -- occupancy is non-decreasing up to the marker
  have hmono1 : ∀ v < v0, xr v ≤ xr (v + 1) := by
    intro v hv
    have hh : hr v = 0 := hother v (by omega) (by omega)
    have hs := hstep v (by omega)
    rw [hh] at hs
    linarith
  have hmono : ∀ d u : Nat, u + d ≤ v0 → xr u ≤ xr (u + d) := by
    intro d
    induction d with
    | zero =>
      intro u _
      exact le_refl _
    | succ d ih =>
      intro u hu
      exact le_trans (ih u (by omega)) (hmono1 (u + d) (by omega))
  by_cases hex : ∃ v, v ≤ v0 ∧ xr v = 1
  · classical
    refine ⟨Nat.find hex, v0 + 1 - Nat.find hex, ?_, ?_⟩
    · have := (Nat.find_spec hex).1
      omega
    · intro v hv
      have hlo := Nat.find_spec hex
      constructor
      · intro hx
        have hvle : v ≤ v0 := by
          by_contra hgt
          have := hright' v hv (by omega)
          rw [this] at hx
          exact zero_ne_one hx
        have := Nat.find_min' hex ⟨hvle, hx⟩
        exact ⟨this, by omega⟩
      · rintro ⟨h1, h2⟩
        have hm := hmono (v - Nat.find hex) (Nat.find hex) (by omega)
        rw [Nat.add_sub_cancel' h1, hlo.2] at hm
        exact le_antisymm (hbx v hv).le_one hm
  · refine ⟨0, 0, by omega, ?_⟩
    intro v hv
    constructor
    · intro hx
      exfalso
      by_cases hvle : v ≤ v0
      · exact hex ⟨v, hvle, hx⟩
      · have := hright' v hv (by omega)
        rw [this] at hx
        exact zero_ne_one hx
    · rintro ⟨_, h2⟩
      omega

theorem idle_feasible : Feasible idleParams idleAssign := by
  constructor
  all_goals intros
  all_goals simp_all [idleParams, idleAssign, IsBool, linearization, duration, Mbig,
    proc, M1, guardSpeed]

/-- C1 (as stated, refuted): `idleAssign` is feasible for `idleParams`, whose
only compartment requires 0 slots; no slot is occupied, so the occupied slots
of the chosen row 0 do not form a run. -/
theorem zero_demand_has_no_run :
    Feasible idleParams idleAssign ∧
    idleParams.requiredSlots 0 0 = 0 ∧
    idleAssign.f 0 0 0 = 1 ∧
    ¬ FormsOneRun (idleAssign.x 0 0 0) idleParams.numSlotsPerRow := by
  refine ⟨idle_feasible, rfl, rfl, ?_⟩
  rintro ⟨lo, hi, hle, hhi, hrun⟩
  have h := (hrun hi hhi).mpr ⟨hle, le_refl _⟩
  simp [idleAssign] at h

/-- C1 (amended): in a feasible assignment, for every ship `s` and
compartment `k` there is a single row `r` with `f[s][k][r] = 1`, every slot
with `x[s][k][r'][v] = 1` lies in that row, and the occupied slots of the row
are the `requiredSlots[s][k]` consecutive indices `lo, ..., lo + n - 1` with
`n = requiredSlots[s][k]`: exactly one run when `n >= 1`, no slot when
`n = 0`. -/
theorem placement_contiguous (p : ModelParams) (a : Assignment) (hf : Feasible p a)
    (s k : Nat) (hs : s < p.numShips) (hk : k < p.numShipK) :
    ∃ r < p.numRows, a.f s k r = 1 ∧
      (∀ r' < p.numRows, a.f s k r' = 1 → r' = r) ∧
      (∀ r' < p.numRows, ∀ v < p.numSlotsPerRow, a.x s k r' v = 1 → r' = r) ∧
      ∃ lo n : Nat, (n : Int) = p.requiredSlots s k ∧ lo + n ≤ p.numSlotsPerRow ∧
        (∀ v < p.numSlotsPerRow, (a.x s k r v = 1 ↔ lo ≤ v ∧ v < lo + n)) ∧
        (1 ≤ n → FormsOneRun (a.x s k r) p.numSlotsPerRow) := by
  obtain ⟨r, hr, hfr, hfo⟩ := exists_unique_one_of_sum_eq_one (a.f s k) p.numRows
    (hf.dom_f s hs k hk) (hf.singleRow s hs k hk)
  -- rows other than `r` hold no slot of the compartment
  have hzero : ∀ r' < p.numRows, r' ≠ r → ∀ v < p.numSlotsPerRow, a.x s k r' v = 0 := by
    intro r' hr' hne v hv
    have hl := hf.rowLink s hs k hk r' hr'
    rw [hfo r' hr' hne, mul_zero] at hl
    have hnn : ∀ v' ∈ range p.numSlotsPerRow, 0 ≤ a.x s k r' v' := by
      intro v' hv'
      exact (hf.dom_x s hs k hk r' hr' v' (mem_range.mp hv')).nonneg
    have h0 : ∑ v' ∈ range p.numSlotsPerRow, a.x s k r' v' = 0 :=
      le_antisymm hl (Finset.sum_nonneg hnn)
    exact (Finset.sum_eq_zero_iff_of_nonneg hnn).mp h0 v (mem_range.mpr hv)
  have hbsum := hf.boundarySum s hs k hk r hr
  rw [hfr] at hbsum
  obtain ⟨lo, n, hle, hrun⟩ := row_run_of_boundary (a.x s k r) (a.h s k r)
    p.numSlotsPerRow (hf.dom_x s hs k hk r hr) (hf.dom_h s hs k hk r hr) hbsum
    (hf.boundaryLast s hs k hk r hr) (hf.boundaryStep s hs k hk r hr)
  have hcount := sum_eq_run_length (a.x s k r) p.numSlotsPerRow lo n
    (hf.dom_x s hs k hk r hr) hle hrun
  have htotal : ∑ r' ∈ range p.numRows, ∑ v ∈ range p.numSlotsPerRow, a.x s k r' v
      = ∑ v ∈ range p.numSlotsPerRow, a.x s k r v := by
    apply Finset.sum_eq_single r
    · intro r' hr' hne
      apply Finset.sum_eq_zero
      intro v hv
      exact hzero r' (mem_range.mp hr') hne v (mem_range.mp hv)
    · intro hnot
      exact absurd (mem_range.mpr hr) hnot
  have hreq : ((n : Int) : ℚ) = ((p.requiredSlots s k : Int) : ℚ) := by
    rw [← hf.slotCount s hs k hk, htotal, hcount]
    simp
  refine ⟨r, hr, hfr, ?_, ?_, lo, n, by exact_mod_cast hreq, hle, hrun, ?_⟩
  · intro r' hr' hone
    by_contra hne
    rw [hfo r' hr' hne] at hone
    exact zero_ne_one hone
  · intro r' hr' v hv hone
    by_contra hne
    rw [hzero r' hr' hne v hv] at hone
    exact zero_ne_one hone
  · intro hn
    refine ⟨lo, lo + n - 1, by omega, by omega, ?_⟩
    intro v hv
    rw [hrun v hv]
    constructor
    · rintro ⟨h1, h2⟩
      exact ⟨h1, by omega⟩
    · rintro ⟨h1, h2⟩
      exact ⟨h1, by omega⟩

theorem placement_contiguous_witness :
    Feasible demoParams demoAssign ∧
    ∃ r < demoParams.numRows, demoAssign.f 0 0 r = 1 ∧
      (∀ r' < demoParams.numRows, demoAssign.f 0 0 r' = 1 → r' = r) ∧
      (∀ r' < demoParams.numRows, ∀ v < demoParams.numSlotsPerRow,
        demoAssign.x 0 0 r' v = 1 → r' = r) ∧
      ∃ lo n : Nat, (n : Int) = demoParams.requiredSlots 0 0 ∧
        lo + n ≤ demoParams.numSlotsPerRow ∧
        (∀ v < demoParams.numSlotsPerRow,
          (demoAssign.x 0 0 r v = 1 ↔ lo ≤ v ∧ v < lo + n)) ∧
        (1 ≤ n → FormsOneRun (demoAssign.x 0 0 r) demoParams.numSlotsPerRow) :=
  ⟨demo_feasible,
    placement_contiguous demoParams demoAssign demo_feasible 0 0 (by decide) (by decide)⟩

/-! ## Berth assignment output -/

theorem filter_range_eq_singleton (n b : Nat) (hb : b < n) (P : Nat → Bool)
    (hP : ∀ i < n, (P i = true ↔ i = b)) :
    (List.range n).filter P = [b] := by
  induction n with
  | zero => exact absurd hb (Nat.not_lt_zero _)
  | succ n ih =>
    rw [List.range_succ, List.filter_append]
    by_cases hbn : b = n
    · subst hbn
      have h1 : (List.range b).filter P = [] := by
        apply List.filter_eq_nil_iff.mpr
        intro i hi htrue
        have hlt := List.mem_range.mp hi
        have := (hP i (by omega)).mp htrue
        omega
      have h2 : [b].filter P = [b] := by
        simp [(hP b (by omega)).mpr rfl]
      rw [h1, h2, List.nil_append]
    · have h1 := ih (by omega) (fun i hi => hP i (by omega))
      have h2 : [n].filter P = [] := by
        apply List.filter_eq_nil_iff.mpr
        intro i hi htrue
        have hin : i = n := List.mem_singleton.mp hi
        have := (hP i (by omega)).mp htrue
        omega
      rw [h1, h2, List.append_nil]

theorem filter_flatMap_fst (l : List Nat) (g : Nat → List Nat) (s : Nat)
    (hl : l.Nodup) (hs : s ∈ l) :
    (l.flatMap (fun s' => (g s').map (fun b => (s', b)))).filter
        (fun rec => decide (rec.1 = s)) = (g s).map (fun b => (s, b)) := by
  induction l with
  | nil => exact absurd hs (List.not_mem_nil _)
  | cons a l ih =>
    obtain ⟨hal, hl'⟩ := List.nodup_cons.mp hl
    rw [List.flatMap_cons, List.filter_append]
    by_cases has : a = s
    · subst has
      have h1 : ((g a).map (fun b => (a, b))).filter (fun rec => decide (rec.1 = a))
          = (g a).map (fun b => (a, b)) := by
        apply List.filter_eq_self.mpr
        intro rec hrec
        obtain ⟨b, _, rfl⟩ := List.mem_map.mp hrec
        simp
      have h2 : (l.flatMap (fun s' => (g s').map (fun b => (s', b)))).filter
          (fun rec => decide (rec.1 = a)) = [] := by
        apply List.filter_eq_nil_iff.mpr
        intro rec hrec
        obtain ⟨s', hs', hrec'⟩ := List.mem_flatMap.mp hrec
        obtain ⟨b, _, rfl⟩ := List.mem_map.mp hrec'
        simp only [decide_eq_true_eq]
        intro h
        exact hal (h ▸ hs')
      rw [h1, h2, List.append_nil]
    · have h1 : ((g a).map (fun b => (a, b))).filter (fun rec => decide (rec.1 = s))
          = [] := by
        apply List.filter_eq_nil_iff.mpr
        intro rec hrec
        obtain ⟨b, _, rfl⟩ := List.mem_map.mp hrec
        simp only [decide_eq_true_eq]
        exact has
      rw [h1, List.nil_append]
      rcases List.mem_cons.mp hs with h | h
      · exact absurd h.symm has
      · exact ih hl' h

/-- C11: in a feasible assignment each ship has exactly one berth `b` with
`z[s][b] = 1`, and the records of berth_assignment.csv (pairs `(s, b)` whose
`z` value exceeds 0.5) contain exactly one record for that ship, naming that
berth. -/
theorem berth_assignment_rows (p : ModelParams) (a : Assignment) (hf : Feasible p a)
    (s : Nat) (hs : s < p.numShips) :
    ∃ b < p.numBerths, a.z s b = 1 ∧
      (∀ b' < p.numBerths, a.z s b' = 1 → b' = b) ∧
      (berthAssignmentRows p a).filter (fun rec => decide (rec.1 = s)) = [(s, b)] := by
  obtain ⟨b, hb, hzb, hother⟩ := exists_unique_one_of_sum_eq_one (a.z s) p.numBerths
    (hf.dom_z s hs) (hf.singleBerth s hs)
  refine ⟨b, hb, hzb, ?_, ?_⟩
  · intro b' hb' hone
    by_contra hne
    rw [hother b' hb' hne] at hone
    exact zero_ne_one hone
  · unfold berthAssignmentRows
    rw [filter_flatMap_fst (List.range p.numShips)
      (fun s' => (List.range p.numBerths).filter (fun b => decide (a.z s' b > 1 / 2))) s
      (List.nodup_range _) (List.mem_range.mpr hs)]
    rw [filter_range_eq_singleton p.numBerths b hb]
    · rfl
    · intro i hi
      simp only [decide_eq_true_eq]
      constructor
      · intro hgt
        by_contra hne
        rw [hother i hi hne] at hgt
        norm_num at hgt
      · intro hib
        rw [hib, hzb]
        norm_num

theorem berth_assignment_rows_witness :
    Feasible demoParams demoAssign ∧
    ∃ b < demoParams.numBerths, demoAssign.z 1 b = 1 ∧
      (∀ b' < demoParams.numBerths, demoAssign.z 1 b' = 1 → b' = b) ∧
      (berthAssignmentRows demoParams demoAssign).filter
        (fun rec => decide (rec.1 = 1)) = [(1, b)] :=
  ⟨demo_feasible, berth_assignment_rows demoParams demoAssign demo_feasible 1 (by decide)⟩

/-! ## Boundary markers -/

/-- In a feasible assignment every compartment has one row `r` with
`f[s][k][r] = 1`, the other rows have `f = 0`, and the occupied slots of row
`r` are the `requiredSlots[s][k]` consecutive indices from some `lo` on. -/
theorem assigned_row_run (p : ModelParams) (a : Assignment) (hf : Feasible p a)
    (s k : Nat) (hs : s < p.numShips) (hk : k < p.numShipK) :
    ∃ r < p.numRows, a.f s k r = 1 ∧
      (∀ r' < p.numRows, r' ≠ r → a.f s k r' = 0) ∧
      ∃ lo n : Nat, (n : Int) = p.requiredSlots s k ∧ lo + n ≤ p.numSlotsPerRow ∧
        ∀ v < p.numSlotsPerRow, (a.x s k r v = 1 ↔ lo ≤ v ∧ v < lo + n) := by
  obtain ⟨r, hr, hfr, hfo⟩ := exists_unique_one_of_sum_eq_one (a.f s k) p.numRows
    (hf.dom_f s hs k hk) (hf.singleRow s hs k hk)
  have hzero : ∀ r' ∈ range p.numRows, r' ≠ r →
      ∑ v ∈ range p.numSlotsPerRow, a.x s k r' v = 0 := by
    intro r' hr' hne
    have hl := hf.rowLink s hs k hk r' (mem_range.mp hr')
    rw [hfo r' (mem_range.mp hr') hne, mul_zero] at hl
    apply le_antisymm hl
    apply Finset.sum_nonneg
    intro v' hv'
    exact (hf.dom_x s hs k hk r' (mem_range.mp hr') v' (mem_range.mp hv')).nonneg
  have hbsum := hf.boundarySum s hs k hk r hr
  rw [hfr] at hbsum
  obtain ⟨lo, n, hle, hrun⟩ := row_run_of_boundary (a.x s k r) (a.h s k r)
    p.numSlotsPerRow (hf.dom_x s hs k hk r hr) (hf.dom_h s hs k hk r hr) hbsum
    (hf.boundaryLast s hs k hk r hr) (hf.boundaryStep s hs k hk r hr)
  have hcount := sum_eq_run_length (a.x s k r) p.numSlotsPerRow lo n
    (hf.dom_x s hs k hk r hr) hle hrun
  have htotal : ∑ r' ∈ range p.numRows, ∑ v ∈ range p.numSlotsPerRow, a.x s k r' v
      = ∑ v ∈ range p.numSlotsPerRow, a.x s k r v :=
    Finset.sum_eq_single r hzero (fun hnot => absurd (mem_range.mpr hr) hnot)
  have hreq : ((n : Int) : ℚ) = ((p.requiredSlots s k : Int) : ℚ) := by
    rw [← hf.slotCount s hs k hk, htotal, hcount]
    simp
  exact ⟨r, hr, hfr, hfo, lo, n, by exact_mod_cast hreq, hle, hrun⟩

/-- C12: in a feasible assignment, for a compartment with
`requiredSlots[s][k] >= 1`, `h[s][k][r][v] = 1` holds if and only if `r` is
the row with `f[s][k][r] = 1` and `v` is the last (highest-index) occupied
slot of that row; every other `h[s][k][r][v]` is 0. -/
theorem boundary_marker_at_run_end (p : ModelParams) (a : Assignment) (hf : Feasible p a)
    (s k : Nat) (hs : s < p.numShips) (hk : k < p.numShipK)
    (hreq : 1 ≤ p.requiredSlots s k) :
    ∀ r < p.numRows, ∀ v < p.numSlotsPerRow,
      (a.h s k r v = 1 ↔
        (a.f s k r = 1 ∧ a.x s k r v = 1 ∧
          ∀ v' < p.numSlotsPerRow, v < v' → a.x s k r v' ≠ 1)) ∧
      (a.h s k r v ≠ 1 → a.h s k r v = 0) := by
  intro r hr v hv
  refine ⟨?_, fun hne => (hf.dom_h s hs k hk r hr v hv).resolve_right hne⟩
  obtain ⟨r0, hr0, hfr0, hfo, lo, n, hn, hle, hrun⟩ := assigned_row_run p a hf s k hs hk
  have hn1 : 1 ≤ n := by omega
  by_cases hrr : r = r0
  · subst hrr
    have hhi : lo + n - 1 < p.numSlotsPerRow := by omega
    have hxhi : a.x s k r (lo + n - 1) = 1 := (hrun _ hhi).mpr ⟨by omega, by omega⟩
    have hbsum := hf.boundarySum s hs k hk r hr
    rw [hfr0] at hbsum
    obtain ⟨v0, hv0, hh0, hho⟩ := exists_unique_one_of_sum_eq_one (a.h s k r)
      p.numSlotsPerRow (hf.dom_h s hs k hk r hr) hbsum
    -- the marker sits on the last slot of the run
    have hmark : a.h s k r (lo + n - 1) = 1 := by
      by_cases hend : lo + n - 1 = p.numSlotsPerRow - 1
      · have hl := hf.boundaryLast s hs k hk r hr
        rw [← hend, hxhi] at hl
        exact le_antisymm (hf.dom_h s hs k hk r hr _ hhi).le_one hl
      · have hnext : a.x s k r (lo + n - 1 + 1) = 0 := by
          rcases hf.dom_x s hs k hk r hr (lo + n - 1 + 1) (by omega) with h | h
          · exact h
          · have := (hrun _ (by omega)).mp h
            omega
        have hst := hf.boundaryStep s hs k hk r hr (lo + n - 1) (by omega)
        rw [hxhi, hnext] at hst
        exact le_antisymm (hf.dom_h s hs k hk r hr _ hhi).le_one (by linarith)
    have hv0eq : v0 = lo + n - 1 := by
      by_contra hne
      rw [hho _ hhi (Ne.symm hne)] at hmark
      exact zero_ne_one hmark
    constructor
    · intro hone
      have hveq : v = lo + n - 1 := by
        by_contra hne
        rw [hho v hv (by omega)] at hone
        exact zero_ne_one hone
      refine ⟨hfr0, by rw [hveq]; exact hxhi, ?_⟩
      intro v' hv' hlt hx'
      have := (hrun v' hv').mp hx'
      omega
    · rintro ⟨_, hx, hlast⟩
      have hvin := (hrun v hv).mp hx
      have hveq : v = lo + n - 1 := by
        by_contra hne
        exact hlast (lo + n - 1) hhi (by omega) hxhi
      rw [hveq]
      exact hmark
  · have hf0 := hfo r hr hrr
    have hbsum := hf.boundarySum s hs k hk r hr
    rw [hf0] at hbsum
    have hnn : ∀ v' ∈ range p.numSlotsPerRow, 0 ≤ a.h s k r v' := by
      intro v' hv'
      exact (hf.dom_h s hs k hk r hr v' (mem_range.mp hv')).nonneg
    have hz := (Finset.sum_eq_zero_iff_of_nonneg hnn).mp hbsum v (mem_range.mpr hv)
    constructor
    · intro hone
      rw [hz] at hone
      exact absurd hone zero_ne_one
    · rintro ⟨hone, _, _⟩
      rw [hf0] at hone
      exact absurd hone zero_ne_one

theorem boundary_marker_at_run_end_witness :
    Feasible demoParams demoAssign ∧
    ∀ r < demoParams.numRows, ∀ v < demoParams.numSlotsPerRow,
      (demoAssign.h 0 0 r v = 1 ↔
        (demoAssign.f 0 0 r = 1 ∧ demoAssign.x 0 0 r v = 1 ∧
          ∀ v' < demoParams.numSlotsPerRow, v < v' → demoAssign.x 0 0 r v' ≠ 1)) ∧
      (demoAssign.h 0 0 r v ≠ 1 → demoAssign.h 0 0 r v = 0) :=
  ⟨demo_feasible,
    boundary_marker_at_run_end demoParams demoAssign demo_feasible 0 0
      (by decide) (by decide) (by decide)⟩

/-! ## Speed guard and big-M constants -/

/-- The berth-time total of the objective is built from `berthCoeff`. -/
theorem berthTimeTotal_eq_coeff (p : ModelParams) (a : Assignment) :
    berthTimeTotal p a =
      ∑ s ∈ range p.numShips, ((a.e s - p.arrivalTime s) +
        ∑ k ∈ range p.numShipK, ∑ b ∈ range p.numBerths, berthCoeff p s b k * a.z s b) :=
  rfl

/-- The processing time `proc` is the sum of the terms `procTerm`. -/
theorem proc_eq_sum_procTerm (p : ModelParams) (s b : Nat) :
    proc p s b = ∑ k ∈ range p.numShipK, procTerm p s b k :=
  rfl

/-- With a speed that is not positive, the objective coefficient and the
no-overlap term are computed with speed 1. -/
theorem guarded_terms_of_nonpos_speed (p : ModelParams) (s b k : Nat)
    (hsp : p.unloadingSpeed s b k ≤ 0) :
    berthCoeff p s b k = p.cargoWeight s / ((p.numShipK : ℚ) * 1) ∧
    procTerm p s b k = p.cargoWeight s / ((p.numShipK : ℚ) * 1) := by
  unfold berthCoeff procTerm guardSpeed
  rw [if_pos hsp]
  constructor
  · rw [mul_comm]
  · rfl

/-- C14 (evaluation at the failing input): for `negSpeedParams`, ship 0,
berth 0, compartment 0 the unloading speed is `-2 <= 0`; the objective
coefficient and the no-overlap term are `cargoWeight / (numShipK * 1) = 6`,
but the duration of the compartment-ordering constraint (line 530) is
`cargoWeight / (numShipK * (-2)) = -3`. -/
theorem duration_unguarded_at_negSpeed :
    negSpeedParams.unloadingSpeed 0 0 0 ≤ 0 ∧
    negSpeedParams.cargoWeight 0 / ((negSpeedParams.numShipK : ℚ) * 1) = 6 ∧
    berthCoeff negSpeedParams 0 0 0 = 6 ∧
    procTerm negSpeedParams 0 0 0 = 6 ∧
    duration negSpeedParams 0 0 0 = -3 := by
  refine ⟨?_, ?_, ?_, ?_, ?_⟩ <;>
    simp [negSpeedParams, demoParams, berthCoeff, procTerm, duration, guardSpeed] <;>
    norm_num
/-- Within the generator's ranges a ship's processing time on a berth is at
most 60. -/
theorem proc_le_sixty (p : ModelParams) (s b : Nat) (hK : p.numShipK = 3)
    (hw : p.cargoWeight s ≤ 300000)
    (hsp : ∀ k < 3, 5000 ≤ p.unloadingSpeed s b k) :
    proc p s b ≤ 60 := by
  have hterm : ∀ k < 3,
      p.cargoWeight s / ((3 : ℚ) * guardSpeed (p.unloadingSpeed s b k)) ≤ 20 := by
    intro k hk
    have h5 := hsp k hk
    have hg : guardSpeed (p.unloadingSpeed s b k) = p.unloadingSpeed s b k := by
      unfold guardSpeed
      rw [if_neg (by linarith)]
    rw [hg, div_le_iff₀ (by linarith)]
    linarith
  unfold proc
  rw [hK]
  simp only [Finset.sum_range_succ, Finset.sum_range_zero, Nat.cast_ofNat]
  have h0 := hterm 0 (by omega)
  have h1 := hterm 1 (by omega)
  have h2 := hterm 2 (by omega)
  linarith

/-- C15: for an instance within the generator's ranges (`numShipK = 3`,
`0 <= arrivalTime <= planningHorizon`, `cargoWeight <= 300000`,
`unloadingSpeed >= 5000`), two ships `s`, `t`, a berth `b` and start times
`e[s]`, `e[t]` within their declared bounds, the no-overlap inequalities hold
with the full constant `M1 = planningHorizon + 150000` on the right:
`e[s] + proc(s,b) <= e[t] + M1` and `e[t] + proc(t,b) <= e[s] + M1`. -/
theorem M1_never_binds (p : ModelParams) (s t b : Nat) (es et : ℚ)
    (hK : p.numShipK = 3)
    (has : 0 ≤ p.arrivalTime s) (hat : 0 ≤ p.arrivalTime t)
    (hws : p.cargoWeight s ≤ 300000) (hwt : p.cargoWeight t ≤ 300000)
    (hsps : ∀ k < 3, 5000 ≤ p.unloadingSpeed s b k)
    (hspt : ∀ k < 3, 5000 ≤ p.unloadingSpeed t b k)
    (hes : p.arrivalTime s ≤ es ∧ es ≤ p.planningHorizon)
    (het : p.arrivalTime t ≤ et ∧ et ≤ p.planningHorizon) :
    es + proc p s b ≤ et + M1 p * (1 - 0) ∧
    et + proc p t b ≤ es + M1 p * (1 - 0) := by
  have h1 := proc_le_sixty p s b hK hws hsps
  have h2 := proc_le_sixty p t b hK hwt hspt
  unfold M1
  constructor <;> linarith [hes.1, hes.2, het.1, het.2]

theorem M1_never_binds_witness :
    (generated unitTan 1 2 flatDraws).numShipK = 3 ∧
    (generated unitTan 1 2 flatDraws).planningHorizon = 168 ∧
    (168 : ℚ) + proc (generated unitTan 1 2 flatDraws) 0 0
      ≤ 0 + M1 (generated unitTan 1 2 flatDraws) * (1 - 0) ∧
    (0 : ℚ) + proc (generated unitTan 1 2 flatDraws) 1 0
      ≤ 168 + M1 (generated unitTan 1 2 flatDraws) * (1 - 0) :=
  ⟨rfl, rfl,
    M1_never_binds (generated unitTan 1 2 flatDraws) 0 1 0 168 0 rfl
      (by simp [generated, flatDraws]) (by simp [generated, flatDraws])
      (by simp [generated, flatDraws]; norm_num)
      (by simp [generated, flatDraws]; norm_num)
      (by intro k _; simp [generated, flatDraws])
      (by intro k _; simp [generated, flatDraws])
      (by simp [generated, flatDraws])
      (by simp [generated, flatDraws])⟩

/-- C16 (evaluation at the failing input): in `lateAssign` for `demoParams`
compartment 0 of ship 0 starts at 0 and compartment 1 at 20000, both within
the declared bounds `[arrivalTime, +infinity)`, in the order fixed by
`q[0][0][1] = 1` (so `e_sk[0][0] + duration <= e_sk[0][1]`).  For the pair
`k = 1`, `t = 0` the indicator `q[0][1][0]` is 0, yet the constraint of line
532 is violated: `20000 + 3 - 0 > Mbig * (2 - 0 - 1) = 10000`. -/
theorem Mbig_binds_at_late_start :
    demoParams.arrivalTime 0 ≤ lateAssign.e_sk 0 0 ∧
    demoParams.arrivalTime 0 ≤ lateAssign.e_sk 0 1 ∧
    lateAssign.z 0 0 = 1 ∧
    lateAssign.q 0 0 1 = 1 ∧
    lateAssign.e_sk 0 0 + duration demoParams 0 0 0 ≤ lateAssign.e_sk 0 1 ∧
    lateAssign.q 0 1 0 = 0 ∧
    ¬ (lateAssign.e_sk 0 1 + duration demoParams 0 1 0 - lateAssign.e_sk 0 0
        ≤ Mbig * (2 - lateAssign.q 0 1 0 - lateAssign.z 0 0)) := by
  refine ⟨?_, ?_, ?_, ?_, ?_, ?_, ?_⟩ <;>
    simp [lateAssign, demoAssign, demoParams, duration, Mbig] <;>
    norm_num
/-! ## Slot requirement formula -/

/-- Every instance returned by `setParams` is the generated one. -/
theorem setParams_eq_generated (tanv : ℚ → ℚ) (numBerths numShips : Nat) (d : Draws)
    (p : ModelParams) (hp : setParams tanv numBerths numShips d = some p) :
    p = generated tanv numBerths numShips d := by
  unfold setParams at hp
  simp only [] at hp
  by_cases hgt : totalRequiredSlots (generated tanv numBerths numShips d)
      > totalAvailableSlots (generated tanv numBerths numShips d)
  · rw [if_pos hgt] at hp
    exact Option.noConfusion hp
  · rw [if_neg hgt] at hp
    exact (Option.some.inj hp).symm

/-- C19: the slot count is `ceil(term * inside)` with
`volume = cargoWeight / (cargoDensity * numShipK)`,
`term = 4 / (width^3 * c * (2 - c) * tan(theta))` and
`inside = volume + (1/12) * width^3 * c^2 * (3 - 2c) * tan(theta)`; whenever
`cargoWeight >= 0`, `cargoDensity > 0`, `numShipK >= 1`, `width > 0`,
`0 < c < 3/2` and `tan(theta) > 0` it is a non-negative integer; and
every instance returned by `setParams` has `requiredSlots[s][k]` equal to
this count, computed from its own fields. -/
theorem slotFormula_nonneg (tanv : ℚ → ℚ) (width c : ℚ) (numShipK : Nat)
    (cargoWeight cargoDensity theta : ℚ)
    (hcw : 0 ≤ cargoWeight) (hrho : 0 < cargoDensity) (hK : 1 ≤ numShipK)
    (hw : 0 < width) (hc0 : 0 < c) (hc1 : c < 3 / 2) (ht : 0 < tanv theta) :
    slotFormula tanv width c numShipK cargoWeight cargoDensity theta =
      ⌈(4 / (width ^ 3 * c * (2 - c) * tanv theta)) *
        (cargoWeight / (cargoDensity * (numShipK : ℚ))
          + (1 / 12) * width ^ 3 * c ^ 2 * (3 - 2 * c) * tanv theta)⌉ ∧
    0 ≤ slotFormula tanv width c numShipK cargoWeight cargoDensity theta ∧
    (∀ (numBerths numShips : Nat) (d : Draws) (p : ModelParams),
      setParams tanv numBerths numShips d = some p → ∀ s k : Nat,
        p.requiredSlots s k =
          slotFormula tanv p.width p.relativeHeight p.numShipK (p.cargoWeight s)
            (p.cargoDensity s k) (p.maxResponseAngle s k)) := by
  refine ⟨rfl, ?_, ?_⟩
  · unfold slotFormula
    apply Int.ceil_nonneg
    have hKq : (0 : ℚ) < (numShipK : ℚ) := by exact_mod_cast hK
    have hw3 : 0 < width ^ 3 := pow_pos hw 3
    have hterm : 0 ≤ 4 / (width ^ 3 * c * (2 - c) * tanv theta) := by
      apply div_nonneg (by norm_num)
      have h2c : 0 < 2 - c := by linarith
      positivity
    have hvol : 0 ≤ cargoWeight / (cargoDensity * (numShipK : ℚ)) := by
      apply div_nonneg hcw
      positivity
    have h3c : 0 < 3 - 2 * c := by linarith
    have hins : 0 ≤ (1 / 12) * width ^ 3 * c ^ 2 * (3 - 2 * c) * tanv theta := by
      positivity
    exact mul_nonneg hterm (add_nonneg hvol hins)
  · intro numBerths numShips d p hp s k
    rw [setParams_eq_generated tanv numBerths numShips d p hp]
    rfl

theorem slotFormula_nonneg_witness :
    slotFormula unitTan 50 (1 / 2) 3 60000 2 (4 / 5) =
      ⌈(4 / ((50 : ℚ) ^ 3 * (1 / 2) * (2 - 1 / 2) * unitTan (4 / 5))) *
        (60000 / (2 * ((3 : Nat) : ℚ))
          + (1 / 12) * 50 ^ 3 * (1 / 2) ^ 2 * (3 - 2 * (1 / 2)) * unitTan (4 / 5))⌉ ∧
    0 ≤ slotFormula unitTan 50 (1 / 2) 3 60000 2 (4 / 5) ∧
    (∀ (numBerths numShips : Nat) (d : Draws) (p : ModelParams),
      setParams unitTan numBerths numShips d = some p → ∀ s k : Nat,
        p.requiredSlots s k =
          slotFormula unitTan p.width p.relativeHeight p.numShipK (p.cargoWeight s)
            (p.cargoDensity s k) (p.maxResponseAngle s k)) :=
  slotFormula_nonneg unitTan 50 (1 / 2) 3 60000 2 (4 / 5)
    (by norm_num) (by norm_num) (by norm_num) (by norm_num) (by norm_num) (by norm_num)
    (by simp [unitTan])

/-! ## The two-ship scenario -/

/-- In a feasible assignment two different (ship, compartment) pairs never
both occupy a slot. -/
theorem no_shared_slot (p : ModelParams) (a : Assignment) (hf : Feasible p a)
    (r v : Nat) (hr : r < p.numRows) (hv : v < p.numSlotsPerRow)
    (s k s' k' : Nat) (hs : s < p.numShips) (hk : k < p.numShipK)
    (hs' : s' < p.numShips) (hk' : k' < p.numShipK)
    (hne : ((s, k) : Nat × Nat) ≠ (s', k')) :
    ¬ (a.x s k r v = 1 ∧ a.x s' k' r v = 1) := by
  rintro ⟨h1, h2⟩
  have hsum := hf.slotExclusive r hr v hv
  rw [← Finset.sum_product' (range p.numShips) (range p.numShipK)
    (fun s k => a.x s k r v)] at hsum
  have hmem : ∀ u ∈ range p.numShips ×ˢ range p.numShipK, 0 ≤ a.x u.1 u.2 r v := by
    intro u hu
    rw [Finset.mem_product, Finset.mem_range, Finset.mem_range] at hu
    exact (hf.dom_x u.1 hu.1 u.2 hu.2 r hr v hv).nonneg
  have hpair := pair_le_sum (range p.numShips ×ˢ range p.numShipK)
    (fun u => a.x u.1 u.2 r v) hmem
    (i := (s, k)) (j := (s', k'))
    (by simp [hs, hk]) (by simp [hs', hk']) hne
  simp only [h1, h2] at hpair
  linarith

/-- For a scenario instance whose second ship has `proc(1,0) <= 150000`,
`scenarioAssign` satisfies every constraint. -/
theorem scenarioAssign_feasible (p : ModelParams) (hsc : IsScenario p)
    (hproc : proc p 1 0 ≤ 150000) : Feasible p (scenarioAssign p) := by
  obtain ⟨hS, hB, hR, hV, hK, hr0, hr1, ha0, ha01, _, _, hH⟩ := hsc
  have hE1 := le_max_left (p.arrivalTime 1) (p.arrivalTime 0 + proc p 0 0)
  have hE2 := le_max_right (p.arrivalTime 1) (p.arrivalTime 0 + proc p 0 0)
  constructor
  case dom_z => intro s _ b _; simp [scenarioAssign, IsBool]
  case dom_q => intro s _ k _ t _; simp [scenarioAssign, IsBool]
  case dom_y =>
    intro s _ t _
    by_cases hst : s = 1 ∧ t = 0 <;> simp [scenarioAssign, IsBool, hst]
  case dom_f =>
    intro s _ k _ r _
    by_cases hsr : r = s <;> simp [scenarioAssign, IsBool, hsr]
  case dom_e =>
    intro s hs
    rw [hS] at hs
    interval_cases s
    · simp only [scenarioAssign, if_true]
      exact ⟨le_refl _, by linarith⟩
    · simp only [scenarioAssign, one_ne_zero, if_false]
      exact ⟨hE1, hH⟩
  case dom_e_sk =>
    intro s hs k _
    rw [hS] at hs
    interval_cases s
    · simp only [scenarioAssign, if_true]
      exact le_refl _
    · simp only [scenarioAssign, one_ne_zero, if_false]
      exact hE1
  case dom_x =>
    intro s _ k _ r _ v _
    by_cases hc : r = s ∧ v < 3 <;> simp [scenarioAssign, IsBool, hc]
  case dom_h =>
    intro s _ k _ r _ v _
    by_cases hc : r = s ∧ v = 2 <;> simp [scenarioAssign, IsBool, hc]
  case dom_lin =>
    intro s hs t ht b _
    rw [hS] at hs ht
    interval_cases s <;> interval_cases t <;> simp [scenarioAssign, IsBool]
  case singleBerth =>
    intro s _
    rw [hB]
    simp [scenarioAssign]
  case slotCount =>
    intro s hs k hk
    rw [hS] at hs
    rw [hK] at hk
    rw [hR, hV]
    interval_cases s <;> interval_cases k
    · rw [hr0]
      simp only [scenarioAssign, sum_range_succ, sum_range_zero]
      norm_num
    · rw [hr1]
      simp only [scenarioAssign, sum_range_succ, sum_range_zero]
      norm_num
  case slotExclusive =>
    intro r hr v hv
    rw [hR] at hr
    rw [hV] at hv
    rw [hS, hK]
    interval_cases r <;> interval_cases v <;>
      simp only [scenarioAssign, sum_range_succ, sum_range_zero] <;> norm_num
  case singleRow =>
    intro s hs k _
    rw [hS] at hs
    rw [hR]
    interval_cases s <;> simp only [scenarioAssign, sum_range_succ, sum_range_zero] <;>
      norm_num
  case rowLink =>
    intro s hs k _ r hr
    rw [hS] at hs
    rw [hR] at hr
    rw [hV]
    interval_cases s <;> interval_cases r <;>
      simp only [scenarioAssign, sum_range_succ, sum_range_zero] <;> norm_num
  case boundarySum =>
    intro s hs k _ r hr
    rw [hS] at hs
    rw [hR] at hr
    rw [hV]
    interval_cases s <;> interval_cases r <;>
      simp only [scenarioAssign, sum_range_succ, sum_range_zero] <;> norm_num
  case boundaryLast =>
    intro s hs k _ r hr
    rw [hV]
    by_cases hc : r = s <;> simp [scenarioAssign, hc]
  case boundaryStep =>
    intro s hs k _ r hr v hv
    rw [hV] at hv
    rw [hS] at hs
    rw [hR] at hr
    interval_cases s <;> interval_cases r <;> interval_cases v <;>
      simp [scenarioAssign]
  case startAfterShip =>
    intro s _ k _
    simp [scenarioAssign]
  case orderPair =>
    intro s _ k hk t ht htk
    rw [hK] at hk ht
    omega
  case orderBigM =>
    intro s _ k hk t ht htk
    rw [hK] at hk ht
    omega
  case linear =>
    intro s hs t ht hst b _
    rw [hS] at hs ht
    interval_cases s <;> interval_cases t <;>
      simp [scenarioAssign, linearization] at hst ⊢
  case noOverlapLambda =>
    intro s hs t ht hst b hb
    rw [hS] at hs ht
    rw [hB] at hb
    interval_cases b
    interval_cases s <;> interval_cases t
    · exact absurd rfl hst
    · simp only [scenarioAssign, M1]
      norm_num
    · simp only [scenarioAssign, M1]
      norm_num
      linarith
    · exact absurd rfl hst
  case noOverlapMu =>
    intro s hs t ht hst b hb
    rw [hS] at hs ht
    rw [hB] at hb
    interval_cases b
    interval_cases s <;> interval_cases t
    · exact absurd rfl hst
    · simp only [scenarioAssign, M1]
      norm_num
      linarith
    · simp only [scenarioAssign, M1]
      norm_num
    · exact absurd rfl hst
/-- C13 (as stated, refuted): `heavyScenario` is a scenario instance (arrival
times 0, speeds 1, `proc(0,0) = 1`, horizon 10), but it has no feasible
assignment: `proc(1,0) = 200000` exceeds what the constant
`M1 = planningHorizon + 150000` of the no-overlap constraints allows even
when the indicator is 0. -/
theorem scenario_heavy_infeasible :
    IsScenario heavyScenario ∧ ∀ a : Assignment, ¬ Feasible heavyScenario a := by
  have hp0 : proc heavyScenario 0 0 = 1 := by
    simp [proc, heavyScenario, guardSpeed, sum_range_succ]
  have hp1 : proc heavyScenario 1 0 = 200000 := by
    simp [proc, heavyScenario, guardSpeed, sum_range_succ]
  constructor
  · refine ⟨rfl, rfl, rfl, rfl, rfl, rfl, rfl, ?_, ?_, ?_, ?_, ?_⟩
    · simp [heavyScenario]
    · simp [heavyScenario]
    · simp [heavyScenario]
    · simp [heavyScenario]
    · rw [hp0]
      simp [heavyScenario]
  · intro a hf
    have he0 := hf.dom_e 0 (by decide)
    have he1 := hf.dom_e 1 (by decide)
    have hmu := hf.noOverlapMu 0 (by decide) 1 (by decide) (by decide) 0 (by decide)
    have hm := (hf.dom_lin 0 (by decide) 1 (by decide) 0 (by decide)).2.2
    rw [hp1] at hmu
    simp only [heavyScenario, M1] at he0 he1 hmu
    rcases hm with h | h
    · rw [h] at hmu
      linarith [he0.2, he1.1]
    · rw [h] at hmu
      linarith [he0.2, he1.1]

/-- C13 (amended): for a scenario instance whose second ship has
`proc(1,0) <= 150000` there is an assignment satisfying every constraint of
the model, and every such assignment books no (row, slot) for both ships. -/
theorem scenario_feasible_no_double_booking (p : ModelParams) (hsc : IsScenario p)
    (hproc : proc p 1 0 ≤ 150000) :
    (∃ a : Assignment, Feasible p a) ∧
    ∀ a : Assignment, Feasible p a → ∀ r < p.numRows, ∀ v < p.numSlotsPerRow,
      ¬ (a.x 0 0 r v = 1 ∧ a.x 1 0 r v = 1) := by
  refine ⟨⟨scenarioAssign p, scenarioAssign_feasible p hsc hproc⟩, ?_⟩
  intro a hf r hr v hv
  obtain ⟨hS, _, _, _, hK, _⟩ := hsc
  exact no_shared_slot p a hf r v hr hv 0 0 1 0 (by omega) (by omega) (by omega)
    (by omega) (by decide)

/-- The instance `lightScenario` is a scenario instance with
`proc(1,0) = 1`. -/
theorem lightScenario_isScenario :
    IsScenario lightScenario ∧ proc lightScenario 1 0 ≤ 150000 := by
  have hp0 : proc lightScenario 0 0 = 1 := by
    simp [proc, lightScenario, heavyScenario, guardSpeed, sum_range_succ]
  have hp1 : proc lightScenario 1 0 = 1 := by
    simp [proc, lightScenario, heavyScenario, guardSpeed, sum_range_succ]
  constructor
  · refine ⟨rfl, rfl, rfl, rfl, rfl, rfl, rfl, ?_, ?_, ?_, ?_, ?_⟩
    · simp [lightScenario, heavyScenario]
    · simp [lightScenario, heavyScenario]
    · simp [lightScenario, heavyScenario]
    · simp [lightScenario, heavyScenario]
    · rw [hp0]
      simp [lightScenario, heavyScenario]
  · rw [hp1]
    norm_num

theorem scenario_feasible_no_double_booking_witness :
    IsScenario lightScenario ∧ proc lightScenario 1 0 ≤ 150000 ∧
    (∃ a : Assignment, Feasible lightScenario a) ∧
    ∀ a : Assignment, Feasible lightScenario a →
      ∀ r < lightScenario.numRows, ∀ v < lightScenario.numSlotsPerRow,
        ¬ (a.x 0 0 r v = 1 ∧ a.x 1 0 r v = 1) :=
  ⟨lightScenario_isScenario.1, lightScenario_isScenario.2,
    scenario_feasible_no_double_booking lightScenario lightScenario_isScenario.1
      lightScenario_isScenario.2⟩

/-! ## Interval string of intervals.csv -/

theorem mergeLoop_ne_nil (rest : List Int) :
    ∀ start prev : Int, mergeLoop rest start prev [] ≠ [] := by
  induction rest with
  | nil =>
    intro start prev
    simp [mergeLoop]
  | cons cur rest ih =>
    intro start prev
    rw [mergeLoop_cons]
    by_cases hc : cur = prev + 1
    · rw [if_pos hc]
      exact ih start cur
    · rw [if_neg hc]
      exact List.cons_ne_nil _ _

/-- The text produced by the scan is the text so far followed by the runs of
the console merge, rendered and joined by `;`. -/
theorem csvLoop_eq_join (rest : List Int) :
    ∀ (start prev : Int) (oss : String),
      csvLoop rest start prev oss =
        oss ++ joinSemi ((mergeLoop rest start prev []).map renderRun) := by
  induction rest with
  | nil =>
    intro start prev oss
    simp [csvLoop, mergeLoop, joinSemi]
  | cons cur rest ih =>
    intro start prev oss
    rw [mergeLoop_cons]
    by_cases hc : cur = prev + 1
    · simp only [csvLoop, if_pos hc]
      exact ih start cur oss
    · simp only [csvLoop, if_neg hc]
      rw [ih cur cur]
      obtain ⟨b, l, hbl⟩ := List.exists_cons_of_ne_nil (mergeLoop_ne_nil rest cur cur)
      rw [hbl]
      simp only [List.map_cons, joinSemi, String.append_assoc]

/-- The first run of `maximalRuns` starts at the head of the list. -/
theorem maximalRuns_head (a : Int) (rest : List Int) :
    ∃ e tl, maximalRuns (a :: rest) = (a, e) :: tl := by
  unfold maximalRuns
  split
  · exact ⟨a, [], rfl⟩
  · rename_i s e tl _
    by_cases hs : s = a + 1
    · rw [if_pos hs]
      exact ⟨e, tl, rfl⟩
    · rw [if_neg hs]
      exact ⟨a, (s, e) :: tl, rfl⟩

/-- The scan of the console merge, started inside a run that began at
`start` and has reached `prev`, yields the maximal runs of `prev :: rest`
with the start of the first run replaced by `start`. -/
theorem mergeLoop_eq_maximalRuns (rest : List Int) :
    ∀ (start prev : Int), ∃ e tl,
      maximalRuns (prev :: rest) = (prev, e) :: tl ∧
      mergeLoop rest start prev [] = (start, e) :: tl := by
  induction rest with
  | nil =>
    intro start prev
    exact ⟨prev, [], rfl, by simp [mergeLoop]⟩
  | cons cur rest ih =>
    intro start prev
    rw [mergeLoop_cons]
    by_cases hc : cur = prev + 1
    · obtain ⟨e, tl, h1, h2⟩ := ih start cur
      refine ⟨e, tl, ?_, ?_⟩
      · rw [maximalRuns, h1]
        simp only [if_pos hc]
      · rw [if_pos hc, h2]
    · obtain ⟨e, tl, h1, h2⟩ := ih cur cur
      refine ⟨prev, (cur, e) :: tl, ?_, ?_⟩
      · rw [maximalRuns, h1]
        simp only [if_neg hc]
      · rw [if_neg hc, h2]

/-- The console merge computes the maximal runs. -/
theorem consoleMerge_eq_maximalRuns (occ : List Int) :
    consoleMerge occ = maximalRuns occ := by
  cases occ with
  | nil => rfl
  | cons first rest =>
    obtain ⟨e, tl, h1, h2⟩ := mergeLoop_eq_maximalRuns rest first first
    show mergeLoop rest first first [] = maximalRuns (first :: rest)
    rw [h1, h2]

/-- C20: for a non-empty strictly increasing list `occ` of slot indices the
interval string written to intervals.csv is the list of maximal runs of
consecutive indices (runs `start <= end` that cover exactly `occ` and are
separated by a missing index), in increasing order, each rendered as the
decimal of `v` for a single index and as `start-end` otherwise, joined by `;`
with no trailing separator; for `occ = [3,7,8,9]` the string is `3;7-9`. -/
theorem csvMerge_maximal_runs (occ : List Int) (hne : occ ≠ [])
    (hinc : occ.Pairwise (· < ·)) :
    csvMerge occ = some (joinSemi ((maximalRuns occ).map renderRun)) ∧
    (∀ iv ∈ maximalRuns occ, iv.1 ≤ iv.2) ∧
    (maximalRuns occ).Pairwise (fun i j => i.2 < j.1) ∧
    Separated (maximalRuns occ) ∧
    CoversExactly (maximalRuns occ) occ ∧
    csvMerge [3, 7, 8, 9] = some "3;7-9" := by
  cases occ with
  | nil => exact absurd rfl hne
  | cons first rest =>
    obtain ⟨hfr, hpw⟩ := List.pairwise_cons.mp hinc
    obtain ⟨i1, i2, i3, _⟩ := mergeLoop_spec rest first first (le_refl _) hfr hpw
    have hruns : maximalRuns (first :: rest) = mergeLoop rest first first [] :=
      (consoleMerge_eq_maximalRuns (first :: rest)).symm
    rw [hruns]
    refine ⟨?_, fun iv hiv => (i1 iv hiv).1, ?_, i2.chain', ?_, by decide⟩
    · show some (csvLoop rest first first "") = _
      rw [csvLoop_eq_join rest first first ""]
      simp
    · exact i2.imp (fun {i j} h => by omega)
    · intro v
      rw [i3 v, List.mem_cons]
      constructor
      · rintro (h | h)
        · exact Or.inl ⟨by omega, by omega⟩
        · exact Or.inr h
      · rintro (⟨h1, h2⟩ | h)
        · exact Or.inl (by omega)
        · exact Or.inr h

theorem csvMerge_maximal_runs_witness :
    csvMerge [2, 3, 5] = some (joinSemi ((maximalRuns [2, 3, 5]).map renderRun)) ∧
    (∀ iv ∈ maximalRuns [2, 3, 5], iv.1 ≤ iv.2) ∧
    (maximalRuns [2, 3, 5]).Pairwise (fun i j => i.2 < j.1) ∧
    Separated (maximalRuns [2, 3, 5]) ∧
    CoversExactly (maximalRuns [2, 3, 5]) [2, 3, 5] ∧
    csvMerge [3, 7, 8, 9] = some "3;7-9" :=
  csvMerge_maximal_runs [2, 3, 5] (by decide) (by decide)

/-- The maximal runs of 3, 7, 8, 9 are `3-3` and `7-9`. -/
theorem maximalRuns_example : maximalRuns [3, 7, 8, 9] = [(3, 3), (7, 9)] := by
  decide

/-! ## Parameter files: rejected records -/

theorem parseIndices_eq_none_of_mem (flds : List (List Char)) (fld : List Char)
    (hmem : fld ∈ flds) (hnone : stoi fld = none) : parseIndices flds = none := by
  induction flds with
  | nil => exact absurd hmem (List.not_mem_nil _)
  | cons f rest ih =>
    rcases List.mem_cons.mp hmem with h | h
    · subst h
      simp [parseIndices, hnone]
    · have hr := ih h
      unfold parseIndices
      rw [hr]
      cases stoi f <;> rfl

/-- A rejected line leaves the table as it is. -/
theorem applyRecord_of_rejected {α : Type} (stov : List Char → Option α)
    (dims : List Nat) (tbl : List Nat → α) (line : List Char)
    (hrej : Rejected stov dims.length line) :
    applyRecord stov dims tbl line = tbl := by
  unfold applyRecord
  by_cases hl : line = []
  · rw [if_pos hl]
  · rw [if_neg hl]
    unfold Rejected at hrej
    cases hsp : splitRecord dims.length line with
    | none => rfl
    | some fv =>
      obtain ⟨flds, v⟩ := fv
      rw [hsp] at hrej
      simp only []
      rcases hrej with ⟨fld, hmem, hnone⟩ | hv
      · rw [parseIndices_eq_none_of_mem flds fld hmem hnone]
      · rw [hv]
        cases parseIndices flds <;> rfl

/-- C17 (as stated, refuted): in the requiredSlots record `0,0,3x` the value
field `3x` is not a well-formed number, yet the loader does not skip the row:
`std::stoi` reads the leading `3` and entry `[0][0]` becomes 3. -/
theorem trailing_garbage_row_applied :
    splitRecord 2 "0,0,3x".toList = some (["0".toList, "0".toList], "3x".toList) ∧
    wellFormedInt "3x".toList = false ∧
    applyRecord stoi [1, 1] (fun _ => 0) "0,0,3x".toList [0, 0] = 3 ∧
    loadTable stoi [1, 1] 0 ["ship,k,value".toList, "0,0,3x".toList] [0, 0] = 3 := by
  decide

/-- C17 (amended): for every record loop (any number of index fields, any
counts, any value conversion) and every line on which a `getline` fails or
`std::stoi` / the value conversion throws on a field, the loader skips the
line: no table entry is changed by it, and loading the file gives the same
table as loading it without that line, the following lines being applied as
usual. -/
theorem rejected_record_skipped {α : Type} (stov : List Char → Option α)
    (dims : List Nat) (line : List Char) (hrej : Rejected stov dims.length line) :
    (∀ tbl : List Nat → α, applyRecord stov dims tbl line = tbl) ∧
    (∀ (zero : α) (header : List Char) (before after : List (List Char)),
      loadTable stov dims zero (header :: (before ++ line :: after)) =
        loadTable stov dims zero (header :: (before ++ after))) := by
  refine ⟨fun tbl => applyRecord_of_rejected stov dims tbl line hrej, ?_⟩
  intro zero header before after
  unfold loadTable
  simp only [List.drop_succ_cons, List.drop_zero, List.foldl_append, List.foldl_cons]
  rw [applyRecord_of_rejected stov dims _ line hrej]

/-- The line `1,x2,5` is rejected by a two-index record loop: `std::stoi`
throws on its second field. -/
theorem rejected_example : Rejected stoi [3, 3].length "1,x2,5".toList := by
  have hsp : splitRecord [3, 3].length "1,x2,5".toList
      = some (["1".toList, "x2".toList], "5".toList) := by decide
  unfold Rejected
  rw [hsp]
  exact Or.inl ⟨"x2".toList, by decide, by decide⟩

theorem rejected_record_skipped_witness :
    Rejected stoi [3, 3].length "1,x2,5".toList ∧
    (∀ tbl : List Nat → Int, applyRecord stoi [3, 3] tbl "1,x2,5".toList = tbl) ∧
    (∀ (zero : Int) (header : List Char) (before after : List (List Char)),
      loadTable stoi [3, 3] zero (header :: (before ++ "1,x2,5".toList :: after)) =
        loadTable stoi [3, 3] zero (header :: (before ++ after))) :=
  ⟨rejected_example, rejected_record_skipped stoi [3, 3] "1,x2,5".toList rejected_example⟩

/-! ## Parameter files: a written record is read back -/

/-- The character of a decimal digit is a digit character with that value; it
is neither a comma, nor white space, nor a sign. -/
theorem digitChar_facts (d : Nat) (hd : d < 10) :
    (Nat.digitChar d).isDigit = true ∧ digitVal (Nat.digitChar d) = d ∧
    Nat.digitChar d ≠ ',' ∧ isSpaceChar (Nat.digitChar d) = false ∧
    Nat.digitChar d ≠ '-' ∧ Nat.digitChar d ≠ '+' := by
  interval_cases d <;> decide

/-- Every character written by `showNat` is the character of a digit. -/
theorem showNat_digits (n : Nat) : ∀ c ∈ showNat n, ∃ d < 10, c = Nat.digitChar d := by
  intro c hc
  unfold showNat at hc
  by_cases hn : n = 0
  · rw [if_pos hn] at hc
    exact ⟨0, by omega, List.mem_singleton.mp hc⟩
  · rw [if_neg hn] at hc
    obtain ⟨d, hd, rfl⟩ := List.mem_map.mp hc
    exact ⟨d, Nat.digits_lt_base (by omega) (List.mem_reverse.mp hd), rfl⟩

theorem showNat_ne_nil (n : Nat) : showNat n ≠ [] := by
  unfold showNat
  by_cases hn : n = 0
  · rw [if_pos hn]
    exact List.cons_ne_nil _ _
  · rw [if_neg hn]
    intro h
    rw [List.map_eq_nil_iff, List.reverse_eq_nil_iff] at h
    exact hn (Nat.digits_eq_nil_iff_eq_zero.mp h)

theorem foldr_digits_eq_ofDigits (l : List Nat) (hl : ∀ d ∈ l, d < 10) :
    l.foldr (fun d acc => 10 * acc + digitVal (Nat.digitChar d)) 0 = Nat.ofDigits 10 l := by
  induction l with
  | nil => rfl
  | cons d l ih =>
    rw [List.foldr_cons, Nat.ofDigits_cons, ih (fun x hx => hl x (List.mem_cons_of_mem _ hx)),
      (digitChar_facts d (hl d (List.mem_cons_self _ _))).2.1]
    omega

/-- The digits written by `showNat` read back as the number. -/
theorem digitsValue_showNat (n : Nat) : digitsValue (showNat n) = n := by
  unfold showNat
  by_cases hn : n = 0
  · rw [if_pos hn, hn]
    decide
  · rw [if_neg hn]
    unfold digitsValue
    rw [List.foldl_map, List.foldl_reverse]
    rw [foldr_digits_eq_ofDigits _ (fun d hd => Nat.digits_lt_base (by omega) hd)]
    exact Nat.ofDigits_digits 10 n

/-- A list of digit characters is left whole by the scan of `std::stoi`. -/
theorem stoi_of_digits (ds : List Char) (hne : ds ≠ [])
    (hds : ∀ c ∈ ds, ∃ d < 10, c = Nat.digitChar d)
    (hrange : (digitsValue ds : Int) ≤ 2147483647) :
    stoi ds = some (digitsValue ds : Int) := by
  obtain ⟨c, cs, rfl⟩ := List.exists_cons_of_ne_nil hne
  obtain ⟨d, hd, hc⟩ := hds c (List.mem_cons_self _ _)
  have hfc := digitChar_facts d hd
  rw [← hc] at hfc
  have hdrop : (c :: cs).dropWhile isSpaceChar = c :: cs := by
    rw [List.dropWhile_cons_of_neg (by simp [hfc.2.2.2.1])]
  have htake : (c :: cs).takeWhile Char.isDigit = c :: cs := by
    rw [List.takeWhile_eq_self_iff]
    intro x hx
    obtain ⟨d', hd', hx'⟩ := hds x hx
    rw [hx']
    exact (digitChar_facts d' hd').1
  unfold stoi
  simp only [hdrop, List.head?_cons, Option.some.injEq, hfc.2.2.2.2.1, hfc.2.2.2.2.2,
    or_self, if_false, htake, decide_False]
  rw [if_neg (List.cons_ne_nil _ _)]
  simp only [Bool.false_eq_true, if_false]
  rw [if_pos ⟨by omega, hrange⟩]

/-- A natural number below `2^31` written by `showInt` is read back by
`std::stoi`. -/
theorem stoi_showNat (n : Nat) (hn : n < 2147483648) :
    stoi (showNat n) = some (n : Int) := by
  have h := stoi_of_digits (showNat n) (showNat_ne_nil n) (showNat_digits n)
    (by rw [digitsValue_showNat]; omega)
  rw [digitsValue_showNat] at h
  exact h
theorem stoi_showInt_nat (n : Nat) (hn : n < 2147483648) :
    stoi (showInt (n : Int)) = some (n : Int) :=
  stoi_showNat n hn

/-- An `int` written by `showInt` is read back by `std::stoi`. -/
theorem stoi_showInt (i : Int) (hlo : -2147483648 ≤ i) (hhi : i ≤ 2147483647) :
    stoi (showInt i) = some i := by
  cases i with
  | ofNat n =>
    rw [Int.ofNat_eq_coe] at hhi
    exact stoi_showNat n (by omega)
  | negSucc n =>
    have hne := showNat_ne_nil (n + 1)
    obtain ⟨c, cs, hcs⟩ := List.exists_cons_of_ne_nil hne
    obtain ⟨d, hd, hc⟩ := showNat_digits (n + 1) c (by rw [hcs]; exact List.mem_cons_self _ _)
    have htake : (showNat (n + 1)).takeWhile Char.isDigit = showNat (n + 1) := by
      rw [List.takeWhile_eq_self_iff]
      intro x hx
      obtain ⟨d', hd', hx'⟩ := showNat_digits (n + 1) x hx
      rw [hx']
      exact (digitChar_facts d' hd').1
    have hdrop : ('-' :: showNat (n + 1)).dropWhile isSpaceChar = '-' :: showNat (n + 1) := by
      rw [List.dropWhile_cons_of_neg (by decide)]
    unfold stoi showInt
    simp only [hdrop, List.head?_cons, true_or, if_true, List.tail_cons, htake,
      decide_True]
    rw [if_neg hne, digitsValue_showNat]
    have hval : (-((n + 1 : Nat) : Int)) = Int.negSucc n := by
      rw [Int.negSucc_eq]
      push_cast
      ring
    simp only [if_true, hval]
    rw [if_pos ⟨hlo, hhi⟩]

/-- The text of an `int` holds no comma and is not empty. -/
theorem showInt_no_comma (i : Int) : showInt i ≠ [] ∧ ∀ c ∈ showInt i, c ≠ ',' := by
  have hnat : ∀ n : Nat, ∀ c ∈ showNat n, c ≠ ',' := by
    intro n c hc
    obtain ⟨d, hd, rfl⟩ := showNat_digits n c hc
    exact (digitChar_facts d hd).2.2.1
  cases i with
  | ofNat n => exact ⟨showNat_ne_nil n, hnat n⟩
  | negSucc n =>
    refine ⟨List.cons_ne_nil _ _, ?_⟩
    intro c hc
    rcases List.mem_cons.mp hc with h | h
    · rw [h]
      decide
    · exact hnat (n + 1) c h

/-- `std::getline(ss, field, ',')` on a field without comma followed by a comma
yields the field and leaves what follows the comma. -/
theorem getlineComma_append (fld rest : List Char) (hfld : ∀ c ∈ fld, c ≠ ',') :
    getlineComma (fld ++ ',' :: rest) = some (fld, rest) := by
  unfold getlineComma
  have hne : fld ++ ',' :: rest ≠ [] := by simp
  rw [if_neg hne]
  have hpos : ∀ c ∈ fld, (fun c => decide (c ≠ ',')) c = true := by
    intro c hc
    simpa using hfld c hc
  rw [List.takeWhile_append_of_pos hpos, List.dropWhile_append_of_pos hpos]
  simp

/-- The `getline` calls of a record loop split a written line into the texts
of its indices and the value text. -/
theorem splitRecord_recordLine (idx : List Nat) (val : List Char) (hval : val ≠ []) :
    splitRecord idx.length (recordLine idx val)
      = some (idx.map (fun i : Nat => showInt (i : Int)), val) := by
  induction idx with
  | nil =>
    simp [splitRecord, recordLine, getlineRest, hval]
  | cons i rest ih =>
    simp only [List.length_cons, splitRecord, recordLine]
    rw [getlineComma_append _ _ (showInt_no_comma (i : Int)).2]
    simp only [ih, Option.map_some', List.map_cons]

theorem recordLine_ne_nil (idx : List Nat) (val : List Char) (hval : val ≠ []) :
    recordLine idx val ≠ [] := by
  cases idx with
  | nil => exact hval
  | cons i rest =>
    simp [recordLine]

/-- The index texts of a written line are converted back to the indices. -/
theorem parseIndices_showInt (idx : List Nat) (hidx : ∀ i ∈ idx, i < 2147483648) :
    parseIndices (idx.map (fun i : Nat => showInt (i : Int))) = some (idx.map (fun i : Nat => (i : Int))) := by
  induction idx with
  | nil => rfl
  | cons i rest ih =>
    simp only [List.map_cons, parseIndices]
    have h1 : stoi (showInt (i : Int)) = some (i : Int) :=
      stoi_showNat i (hidx i (List.mem_cons_self _ _))
    rw [h1, ih (fun j hj => hidx j (List.mem_cons_of_mem _ hj))]

/-- The index tuples of the nested loops are the tuples below the sizes. -/
theorem mem_indexTuples (dims : List Nat) :
    ∀ idx : List Nat, idx ∈ indexTuples dims ↔ List.Forall₂ (fun i d => i < d) idx dims := by
  induction dims with
  | nil =>
    intro idx
    simp [indexTuples]
  | cons d ds ih =>
    intro idx
    simp only [indexTuples, List.mem_flatMap, List.mem_range, List.mem_map]
    constructor
    · rintro ⟨i, hi, t, ht, rfl⟩
      exact List.Forall₂.cons hi ((ih t).mp ht)
    · intro h
      cases h with
      | cons hi ht =>
        exact ⟨_, hi, _, (ih _).mpr ht, rfl⟩

/-- Indices below the sizes pass the range test of the record loop. -/
theorem inBounds_of_forall₂ (dims idx : List Nat)
    (h : List.Forall₂ (fun i d => i < d) idx dims) :
    inBounds dims (idx.map (fun i : Nat => (i : Int))) = true := by
  induction h with
  | nil => rfl
  | cons hi _ ih =>
    have hlt : _ < _ := hi
    simp only [List.map_cons, inBounds, ih, Bool.and_true, Bool.and_eq_true,
      decide_eq_true_eq]
    exact ⟨by omega, by omega⟩
theorem forall₂_lt_bound (dims idx : List Nat)
    (h : List.Forall₂ (fun i d => i < d) idx dims) (hdims : ∀ d ∈ dims, d ≤ 2147483648) :
    ∀ i ∈ idx, i < 2147483648 := by
  induction h with
  | nil =>
    intro i hi
    exact absurd hi (List.not_mem_nil _)
  | cons hi _ ih =>
    have hlt : _ < _ := hi
    intro i hmem
    rcases List.mem_cons.mp hmem with h' | h'
    · have := hdims _ (List.mem_cons_self _ _)
      omega
    · exact ih (fun d hd => hdims d (List.mem_cons_of_mem _ hd)) i h'

/-- A written record whose value text is converted to `v` assigns `v` to the
entry of its index tuple. -/
theorem applyRecord_recordLine {α : Type} (stov : List Char → Option α)
    (dims : List Nat) (tbl : List Nat → α) (idx : List Nat) (val : List Char) (v : α)
    (hidx : List.Forall₂ (fun i d => i < d) idx dims)
    (hdims : ∀ d ∈ dims, d ≤ 2147483648)
    (hval : val ≠ []) (hpar : stov val = some v) :
    applyRecord stov dims tbl (recordLine idx val) = Function.update tbl idx v := by
  unfold applyRecord
  rw [if_neg (recordLine_ne_nil idx val hval), ← hidx.length_eq,
    splitRecord_recordLine idx val hval]
  simp only []
  rw [parseIndices_showInt idx (forall₂_lt_bound dims idx hidx hdims), hpar]
  simp only []
  rw [if_pos (inBounds_of_forall₂ dims idx hidx)]
  have hmap : (idx.map (fun i : Nat => (i : Int))).map Int.toNat = idx := by
    rw [List.map_map]
    conv_rhs => rw [← List.map_id idx]
    apply List.map_congr_left
    intro i _
    simp
  rw [hmap]

theorem foldl_update_of_not_mem {ι α : Type} [DecidableEq ι] (g : ι → α) (l : List ι) :
    ∀ (t0 : ι → α) (j : ι), j ∉ l →
      (l.foldl (fun t i => Function.update t i (g i)) t0) j = t0 j := by
  induction l with
  | nil =>
    intro t0 j _
    rfl
  | cons a l ih =>
    intro t0 j hj
    rw [List.foldl_cons, ih _ j (fun h => hj (List.mem_cons_of_mem _ h))]
    have hne : j ≠ a := fun h => hj (by rw [h]; exact List.mem_cons_self _ _)
    exact Function.update_noteq hne _ _

/-- Assigning `g i` to entry `i` for every `i` of a list leaves `g j` in every
entry `j` of the list. -/
theorem foldl_update_of_mem {ι α : Type} [DecidableEq ι] (g : ι → α) (l : List ι) :
    ∀ (t0 : ι → α) (j : ι), j ∈ l →
      (l.foldl (fun t i => Function.update t i (g i)) t0) j = g j := by
  induction l with
  | nil =>
    intro t0 j hj
    exact absurd hj (List.not_mem_nil _)
  | cons a l ih =>
    intro t0 j hj
    rw [List.foldl_cons]
    by_cases hjl : j ∈ l
    · exact ih _ j hjl
    · rw [foldl_update_of_not_mem g l _ j hjl]
      rcases List.mem_cons.mp hj with h | h
      · rw [h]
        exact Function.update_same _ _ _
      · exact absurd h hjl

/-- Reading back a written table: every entry below the sizes holds the value
to which its written text converts. -/
theorem loadTable_tableLines {α : Type} (stov : List Char → Option α)
    (showv : α → List Char) (r : List Nat → α) (dims : List Nat)
    (hdims : ∀ d ∈ dims, d ≤ 2147483648) (header : List Char) (tbl : List Nat → α)
    (zero : α)
    (hv : ∀ idx ∈ indexTuples dims,
      showv (tbl idx) ≠ [] ∧ stov (showv (tbl idx)) = some (r idx)) :
    ∀ idx ∈ indexTuples dims,
      loadTable stov dims zero (tableLines showv header dims tbl) idx = r idx := by
  have hfold : ∀ (l : List (List Nat)), (∀ idx ∈ l, idx ∈ indexTuples dims) →
      ∀ t0 : List Nat → α,
        (l.map (fun idx => recordLine idx (showv (tbl idx)))).foldl
            (applyRecord stov dims) t0
          = l.foldl (fun t i => Function.update t i (r i)) t0 := by
    intro l
    induction l with
    | nil =>
      intro _ t0
      rfl
    | cons a l ih =>
      intro hl t0
      have ha := hl a (List.mem_cons_self _ _)
      rw [List.map_cons, List.foldl_cons, List.foldl_cons,
        applyRecord_recordLine stov dims t0 a _ (r a) ((mem_indexTuples dims a).mp ha)
          hdims (hv a ha).1 (hv a ha).2]
      exact ih (fun idx hidx => hl idx (List.mem_cons_of_mem _ hidx)) _
  intro idx hidx
  unfold loadTable tableLines
  rw [List.drop_succ_cons, List.drop_zero, hfold _ (fun _ h => h)]
  exact foldl_update_of_mem r _ _ idx hidx
/-! ## Parameter files: the scalar table is read back -/

/-- On a line `key,value` the scalar loop reaches its chain of key tests with
that key and that value text. -/
theorem applyGeneral_line (stod : List Char → Option ℚ) (g : General)
    (key val : List Char) (hkey : ∀ c ∈ key, c ≠ ',') (hval : val ≠ []) :
    applyGeneral stod g (key ++ ',' :: val) =
      if key = "numBerths".toList then
        setIntKey g val (fun g v => { g with numBerths := v })
      else if key = "numRows".toList then
        setIntKey g val (fun g v => { g with numRows := v })
      else if key = "numSlotsPerRow".toList then
        setIntKey g val (fun g v => { g with numSlotsPerRow := v })
      else if key = "numShips".toList then
        setIntKey g val (fun g v => { g with numShips := v })
      else if key = "planningHorizon".toList then
        setRealKey stod g val (fun g v => { g with planningHorizon := v })
      else if key = "numShipK".toList then
        setIntKey g val (fun g v => { g with numShipK := v })
      else if key = "width".toList then
        setRealKey stod g val (fun g v => { g with width := v })
      else if key = "relativeHeight".toList then
        setRealKey stod g val (fun g v => { g with relativeHeight := v })
      else if key = "alpha".toList then
        setRealKey stod g val (fun g v => { g with alpha := v })
      else if key = "beta".toList then
        setRealKey stod g val (fun g v => { g with beta := v })
      else g := by
  unfold applyGeneral
  have hne : key ++ ',' :: val ≠ [] := by simp
  rw [if_neg hne, getlineComma_append key val hkey]
  simp only [getlineRest, if_neg hval]

/-- The scalar table written by `writeParamsToCSV` is read back: the counts
exactly, the real scalars as the conversions of their texts. -/
theorem loadGeneral_written (stod : List Char → Option ℚ) (showDouble : ℚ → List Char)
    (rnd : ℚ → ℚ) (hrt : ∀ v : ℚ, stod (showDouble v) = some (rnd v))
    (hne : ∀ v : ℚ, showDouble v ≠ []) (init : General) (p : ModelParams)
    (hB : p.numBerths < 2147483648) (hR : p.numRows < 2147483648)
    (hV : p.numSlotsPerRow < 2147483648) (hS : p.numShips < 2147483648)
    (hK : p.numShipK < 2147483648) :
    loadGeneral stod init (writeParamsToCSV showDouble p).general =
      { numBerths := (p.numBerths : Int)
        numRows := (p.numRows : Int)
        numSlotsPerRow := (p.numSlotsPerRow : Int)
        numShips := (p.numShips : Int)
        planningHorizon := rnd p.planningHorizon
        numShipK := (p.numShipK : Int)
        width := rnd p.width
        relativeHeight := rnd p.relativeHeight
        alpha := rnd p.alpha
        beta := rnd p.beta } := by
  have hi : ∀ n : Nat, showInt (n : Int) ≠ [] := fun n => (showInt_no_comma _).1
  unfold loadGeneral writeParamsToCSV
  simp only [List.drop_succ_cons, List.drop_zero, List.foldl_cons, List.foldl_nil]
  rw [applyGeneral_line stod _ "numBerths".toList _ (by decide) (hi _),
    applyGeneral_line stod _ "numRows".toList _ (by decide) (hi _),
    applyGeneral_line stod _ "numSlotsPerRow".toList _ (by decide) (hi _),
    applyGeneral_line stod _ "numShips".toList _ (by decide) (hi _),
    applyGeneral_line stod _ "planningHorizon".toList _ (by decide) (hne _),
    applyGeneral_line stod _ "numShipK".toList _ (by decide) (hi _),
    applyGeneral_line stod _ "width".toList _ (by decide) (hne _),
    applyGeneral_line stod _ "relativeHeight".toList _ (by decide) (hne _),
    applyGeneral_line stod _ "alpha".toList _ (by decide) (hne _),
    applyGeneral_line stod _ "beta".toList _ (by decide) (hne _)]
  simp +decide only [if_true, if_false, setIntKey, setRealKey, hrt,
    stoi_showInt_nat _ hB, stoi_showInt_nat _ hR, stoi_showInt_nat _ hV,
    stoi_showInt_nat _ hS, stoi_showInt_nat _ hK]
/-! ## Parameter files: round trip of an instance -/

/-- Writing an instance whose vectors have the sizes of its counts and
loading the files yields the instance again, up to the conversion of the
written real values. -/
theorem written_instance_read_back (stod : List Char → Option ℚ)
    (showDouble : ℚ → List Char) (rnd : ℚ → ℚ)
    (hrt : ∀ v : ℚ, stod (showDouble v) = some (rnd v))
    (hne : ∀ v : ℚ, showDouble v ≠ []) (init : General) (p : ModelParams)
    (hB : p.numBerths < 2147483648) (hR : p.numRows < 2147483648)
    (hV : p.numSlotsPerRow < 2147483648) (hS : p.numShips < 2147483648)
    (hK : p.numShipK < 2147483648)
    (hreq : ∀ s < p.numShips, ∀ k < p.numShipK,
      -2147483648 ≤ p.requiredSlots s k ∧ p.requiredSlots s k ≤ 2147483647) :
    SameUpTo rnd p (loadParamsFromCSV stod init (writeParamsToCSV showDouble p)) := by
  have hg := loadGeneral_written stod showDouble rnd hrt hne init p hB hR hV hS hK
  have hreal : ∀ (dims : List Nat) (tbl : List Nat → ℚ), ∀ idx ∈ indexTuples dims,
      showDouble (tbl idx) ≠ [] ∧ stod (showDouble (tbl idx)) = some (rnd (tbl idx)) :=
    fun _ tbl idx _ => ⟨hne _, hrt _⟩
  have h1 : ∀ {n i : Nat}, i < n → [i] ∈ indexTuples [n] := by
    intro n i hi
    exact (mem_indexTuples _ _).mpr (List.Forall₂.cons hi List.Forall₂.nil)
  have h2 : ∀ {n m i j : Nat}, i < n → j < m → [i, j] ∈ indexTuples [n, m] := by
    intro n m i j hi hj
    exact (mem_indexTuples _ _).mpr
      (List.Forall₂.cons hi (List.Forall₂.cons hj List.Forall₂.nil))
  have h3 : ∀ {n m l i j k : Nat}, i < n → j < m → k < l →
      [i, j, k] ∈ indexTuples [n, m, l] := by
    intro n m l i j k hi hj hk
    exact (mem_indexTuples _ _).mpr
      (List.Forall₂.cons hi (List.Forall₂.cons hj (List.Forall₂.cons hk List.Forall₂.nil)))
  have hd1 : ∀ {n : Nat}, n < 2147483648 → ∀ d ∈ [n], d ≤ 2147483648 := by
    intro n hn d hd
    simp only [List.mem_singleton] at hd
    omega
  have hd2 : ∀ {n m : Nat}, n < 2147483648 → m < 2147483648 →
      ∀ d ∈ [n, m], d ≤ 2147483648 := by
    intro n m hn hm d hd
    simp only [List.mem_cons, List.mem_singleton, List.not_mem_nil, or_false] at hd
    omega
  have hd3 : ∀ {n m l : Nat}, n < 2147483648 → m < 2147483648 → l < 2147483648 →
      ∀ d ∈ [n, m, l], d ≤ 2147483648 := by
    intro n m l hn hm hl d hd
    simp only [List.mem_cons, List.mem_singleton, List.not_mem_nil, or_false] at hd
    omega
  unfold SameUpTo loadParamsFromCSV
  simp only [hg, Int.toNat_ofNat, true_and]
  refine ⟨?_, ?_, ?_, ?_, ?_, ?_, ?_, ?_⟩
  · intro s hs
    exact loadTable_tableLines stod showDouble _ _ (hd1 hS) _ _ 0 (hreal _ _) _ (h1 hs)
  · intro s hs
    exact loadTable_tableLines stod showDouble _ _ (hd1 hS) _ _ 0 (hreal _ _) _ (h1 hs)
  · intro s hs k hk
    exact loadTable_tableLines stod showDouble _ _ (hd2 hS hK) _ _ 0 (hreal _ _) _
      (h2 hs hk)
  · intro s hs k hk
    exact loadTable_tableLines stod showDouble _ _ (hd2 hS hK) _ _ 0 (hreal _ _) _
      (h2 hs hk)
  · intro s hs k hk
    refine loadTable_tableLines stoi showInt
      (fun idx => p.requiredSlots (idx.getD 0 0) (idx.getD 1 0)) _ (hd2 hS hK) _ _ 0 ?_ _
      (h2 hs hk)
    intro idx hidx
    have hfa := (mem_indexTuples _ _).mp hidx
    cases hfa with
    | cons hi hrest =>
      cases hrest with
      | cons hj hnil =>
        cases hnil
        have hr := hreq _ hi _ hj
        exact ⟨(showInt_no_comma _).1, stoi_showInt _ hr.1 hr.2⟩
  · intro s hs b hb k hk
    exact loadTable_tableLines stod showDouble _ _ (hd3 hS hB hK) _ _ 0 (hreal _ _) _
      (h3 hs hb hk)
  · intro b hb r hr v hv
    exact loadTable_tableLines stod showDouble _ _ (hd3 hB hR hV) _ _ 0 (hreal _ _) _
      (h3 hb hr hv)
  · intro s hs k hk r hr
    exact loadTable_tableLines stod showDouble _ _ (hd3 hS hK hR) _ _ 0 (hreal _ _) _
      (h3 hs hk hr)
/-- C18: for every instance produced by `setParams` (counts and
requiredSlots within the `int` range), writing it with `writeParamsToCSV` and
reloading it with `loadParamsFromCSV` yields an instance with the same five
counts (hence the same array dimensions), with every requiredSlots entry
exactly as written, and with the five real scalars and every entry of the
real-valued arrays equal to the written value up to the rounding `rnd` of the
text conversions of reals (`stod (showDouble v) = rnd v`); when that rounding
leaves 168, 50, 1/2, 1 and 20000 unchanged, the five real scalars are the same
as well. -/
theorem setParams_csv_roundtrip (tanv : ℚ → ℚ) (numBerths numShips : Nat) (d : Draws)
    (p : ModelParams) (hp : setParams tanv numBerths numShips d = some p)
    (hnb : numBerths < 2147483648) (hns : numShips < 2147483648)
    (hreq : ∀ s < numShips, ∀ k < 3,
      -2147483648 ≤ p.requiredSlots s k ∧ p.requiredSlots s k ≤ 2147483647)
    (stod : List Char → Option ℚ) (showDouble : ℚ → List Char) (rnd : ℚ → ℚ)
    (hrt : ∀ v : ℚ, stod (showDouble v) = some (rnd v))
    (hne : ∀ v : ℚ, showDouble v ≠ []) (init : General) :
    SameUpTo rnd p (loadParamsFromCSV stod init (writeParamsToCSV showDouble p)) ∧
    ((rnd 168 = 168 ∧ rnd 50 = 50 ∧ rnd (1 / 2) = 1 / 2 ∧ rnd 1 = 1 ∧ rnd 20000 = 20000) →
      (loadParamsFromCSV stod init (writeParamsToCSV showDouble p)).planningHorizon
          = p.planningHorizon ∧
      (loadParamsFromCSV stod init (writeParamsToCSV showDouble p)).width = p.width ∧
      (loadParamsFromCSV stod init (writeParamsToCSV showDouble p)).relativeHeight
          = p.relativeHeight ∧
      (loadParamsFromCSV stod init (writeParamsToCSV showDouble p)).alpha = p.alpha ∧
      (loadParamsFromCSV stod init (writeParamsToCSV showDouble p)).beta = p.beta) := by
  have hpg := setParams_eq_generated tanv numBerths numShips d p hp
  subst hpg
  have hsame := written_instance_read_back stod showDouble rnd hrt hne init
    (generated tanv numBerths numShips d) hnb
    (by show 20 < 2147483648; omega) (by show 24 < 2147483648; omega) hns
    (by show 3 < 2147483648; omega) hreq
  refine ⟨hsame, ?_⟩
  rintro ⟨e1, e2, e3, e4, e5⟩
  obtain ⟨_, _, _, _, _, g1, g2, g3, g4, g5, _⟩ := hsame
  refine ⟨?_, ?_, ?_, ?_, ?_⟩
  · rw [g1]
    exact e1
  · rw [g2]
    exact e2
  · rw [g3]
    exact e3
  · rw [g4]
    exact e4
  · rw [g5]
    exact e5

/-- On `flatDraws` with one ship `setParams` returns the generated instance. -/
theorem setParams_flat_one :
    setParams unitTan 9 1 flatDraws = some (generated unitTan 9 1 flatDraws) := by
  have htot : totalRequiredSlots (generated unitTan 9 1 flatDraws) = 3 := by
    show ∑ _s ∈ range 1, ∑ _k ∈ range 3,
      slotFormula unitTan 50 (1 / 2) 3 60000 2 (4 / 5) = 3
    rw [slotFormula_flat]
    simp
  have hav : totalAvailableSlots (generated unitTan 9 1 flatDraws) = 480 := rfl
  unfold setParams
  simp only []
  rw [if_neg]
  rw [htot, hav]
  omega

/-- The integer-part text conversions read back what they write. -/
theorem stodInt_floorText (v : ℚ) :
    stodInt (floorText v) = some ((floorInt v : Int) : ℚ) ∧ floorText v ≠ [] := by
  unfold stodInt floorText
  have hlo : -2147483648 ≤ floorInt v := le_max_left _ _
  have hhi : floorInt v ≤ 2147483647 :=
    max_le (by omega) (min_le_left _ _)
  rw [stoi_showInt _ hlo hhi]
  exact ⟨rfl, (showInt_no_comma _).1⟩

theorem setParams_csv_roundtrip_witness :
    setParams unitTan 9 1 flatDraws = some (generated unitTan 9 1 flatDraws) ∧
    SameUpTo (fun v => ((floorInt v : Int) : ℚ)) (generated unitTan 9 1 flatDraws)
      (loadParamsFromCSV stodInt
        (generalOf (generated unitTan 9 1 flatDraws))
        (writeParamsToCSV floorText (generated unitTan 9 1 flatDraws))) :=
  ⟨setParams_flat_one,
    (setParams_csv_roundtrip unitTan 9 1 flatDraws (generated unitTan 9 1 flatDraws)
      setParams_flat_one (by omega) (by omega)
      (by
        intro s _ k _
        show -2147483648 ≤ slotFormula unitTan 50 (1 / 2) 3 60000 2 (4 / 5) ∧
          slotFormula unitTan 50 (1 / 2) 3 60000 2 (4 / 5) ≤ 2147483647
        rw [slotFormula_flat]
        omega)
      stodInt floorText (fun v => ((floorInt v : Int) : ℚ))
      (fun v => (stodInt_floorText v).1) (fun v => (stodInt_floorText v).2)
      (generalOf (generated unitTan 9 1 flatDraws))).1⟩

/-! ## Over-capacity instances, order variables and per-slot weights -/

/-- Slot counts that meet the demand and respect exclusivity bound the total
demand by the number of slots, whatever the values of `x`. -/
theorem demand_le_capacity_of_counts (p : ModelParams) (x : Nat → Nat → Nat → Nat → ℚ)
    (hcount : ∀ s < p.numShips, ∀ k < p.numShipK,
      ∑ r ∈ range p.numRows, ∑ v ∈ range p.numSlotsPerRow, x s k r v
        = (p.requiredSlots s k : ℚ))
    (hexcl : ∀ r < p.numRows, ∀ v < p.numSlotsPerRow,
      ∑ s ∈ range p.numShips, ∑ k ∈ range p.numShipK, x s k r v ≤ 1) :
    totalRequiredSlots p ≤ totalAvailableSlots p := by
  have h1 : ((totalRequiredSlots p : Int) : ℚ) =
      ∑ s ∈ range p.numShips, ∑ k ∈ range p.numShipK,
        ∑ r ∈ range p.numRows, ∑ v ∈ range p.numSlotsPerRow, x s k r v := by
    unfold totalRequiredSlots
    push_cast
    apply Finset.sum_congr rfl
    intro s hs
    apply Finset.sum_congr rfl
    intro k hk
    exact (hcount s (mem_range.mp hs) k (mem_range.mp hk)).symm
  have h2 : ∑ s ∈ range p.numShips, ∑ k ∈ range p.numShipK,
        ∑ r ∈ range p.numRows, ∑ v ∈ range p.numSlotsPerRow, x s k r v =
      ∑ r ∈ range p.numRows, ∑ v ∈ range p.numSlotsPerRow,
        ∑ s ∈ range p.numShips, ∑ k ∈ range p.numShipK, x s k r v := by
    calc ∑ s ∈ range p.numShips, ∑ k ∈ range p.numShipK,
          ∑ r ∈ range p.numRows, ∑ v ∈ range p.numSlotsPerRow, x s k r v
        = ∑ s ∈ range p.numShips, ∑ r ∈ range p.numRows,
          ∑ k ∈ range p.numShipK, ∑ v ∈ range p.numSlotsPerRow, x s k r v :=
          Finset.sum_congr rfl (fun s _ => Finset.sum_comm)
      _ = ∑ r ∈ range p.numRows, ∑ s ∈ range p.numShips,
          ∑ k ∈ range p.numShipK, ∑ v ∈ range p.numSlotsPerRow, x s k r v :=
          Finset.sum_comm
      _ = ∑ r ∈ range p.numRows, ∑ s ∈ range p.numShips,
          ∑ v ∈ range p.numSlotsPerRow, ∑ k ∈ range p.numShipK, x s k r v :=
          Finset.sum_congr rfl (fun r _ => Finset.sum_congr rfl (fun s _ => Finset.sum_comm))
      _ = ∑ r ∈ range p.numRows, ∑ v ∈ range p.numSlotsPerRow,
          ∑ s ∈ range p.numShips, ∑ k ∈ range p.numShipK, x s k r v :=
          Finset.sum_congr rfl (fun r _ => Finset.sum_comm)
  have h3 : ∑ r ∈ range p.numRows, ∑ v ∈ range p.numSlotsPerRow,
        ∑ s ∈ range p.numShips, ∑ k ∈ range p.numShipK, x s k r v ≤
      ∑ _r ∈ range p.numRows, ∑ _v ∈ range p.numSlotsPerRow, (1 : ℚ) := by
    apply Finset.sum_le_sum
    intro r hr
    apply Finset.sum_le_sum
    intro v hv
    exact hexcl r (mem_range.mp hr) v (mem_range.mp hv)
  have h4 : ∑ _r ∈ range p.numRows, ∑ _v ∈ range p.numSlotsPerRow, (1 : ℚ) =
      ((totalAvailableSlots p : Int) : ℚ) := by
    unfold totalAvailableSlots
    simp
  have h5 : ((totalRequiredSlots p : Int) : ℚ) ≤ ((totalAvailableSlots p : Int) : ℚ) := by
    rw [h1, h2, ← h4]
    exact h3
  exact_mod_cast h5

/-- C22: for an instance whose total demand exceeds
`numRows * numSlotsPerRow`, no 0/1 values of `x` satisfy both the slot-count
constraints (3.11) and the slot-exclusivity constraints (3.12); hence the
model built from the instance has no feasible assignment. -/
theorem over_capacity_no_assignment (p : ModelParams)
    (hover : totalRequiredSlots p > totalAvailableSlots p) :
    (∀ x : Nat → Nat → Nat → Nat → ℚ,
      (∀ s < p.numShips, ∀ k < p.numShipK, ∀ r < p.numRows, ∀ v < p.numSlotsPerRow,
        IsBool (x s k r v)) →
      ¬ ((∀ s < p.numShips, ∀ k < p.numShipK,
            ∑ r ∈ range p.numRows, ∑ v ∈ range p.numSlotsPerRow, x s k r v
              = (p.requiredSlots s k : ℚ)) ∧
          (∀ r < p.numRows, ∀ v < p.numSlotsPerRow,
            ∑ s ∈ range p.numShips, ∑ k ∈ range p.numShipK, x s k r v ≤ 1))) ∧
    ∀ a : Assignment, ¬ Feasible p a := by
  constructor
  · rintro x _ ⟨hcount, hexcl⟩
    exact absurd (demand_le_capacity_of_counts p x hcount hexcl) (not_le.mpr hover)
  · intro a hf
    exact absurd (demand_le_capacity_of_counts p a.x hf.slotCount hf.slotExclusive)
      (not_le.mpr hover)

theorem over_capacity_no_assignment_witness :
    totalRequiredSlots overParams > totalAvailableSlots overParams ∧
    (∀ x : Nat → Nat → Nat → Nat → ℚ,
      (∀ s < overParams.numShips, ∀ k < overParams.numShipK, ∀ r < overParams.numRows,
        ∀ v < overParams.numSlotsPerRow, IsBool (x s k r v)) →
      ¬ ((∀ s < overParams.numShips, ∀ k < overParams.numShipK,
            ∑ r ∈ range overParams.numRows, ∑ v ∈ range overParams.numSlotsPerRow,
              x s k r v = (overParams.requiredSlots s k : ℚ)) ∧
          (∀ r < overParams.numRows, ∀ v < overParams.numSlotsPerRow,
            ∑ s ∈ range overParams.numShips, ∑ k ∈ range overParams.numShipK,
              x s k r v ≤ 1))) ∧
    ∀ a : Assignment, ¬ Feasible overParams a :=
  ⟨by simp [totalRequiredSlots, totalAvailableSlots, overParams],
    over_capacity_no_assignment overParams
      (by simp [totalRequiredSlots, totalAvailableSlots, overParams])⟩

/-- C25: in a feasible assignment, for two distinct ships `s`, `t` on the same
berth `b` with `proc(s,b) + proc(t,b) > 0`, the order variables are
antisymmetric: `y[s][t] + y[t][s] = 1`. -/
theorem order_antisymmetric (p : ModelParams) (a : Assignment) (hf : Feasible p a)
    (s t b : Nat) (hs : s < p.numShips) (ht : t < p.numShips) (hst : s ≠ t)
    (hb : b < p.numBerths) (hzs : a.z s b = 1) (hzt : a.z t b = 1)
    (hproc : 0 < proc p s b + proc p t b) :
    a.y s t + a.y t s = 1 := by
  have l1 := hf.noOverlapLambda s hs t ht hst b hb
  have m1 := hf.noOverlapMu s hs t ht hst b hb
  have l2 := hf.noOverlapLambda t ht s hs (Ne.symm hst) b hb
  have m2 := hf.noOverlapMu t ht s hs (Ne.symm hst) b hb
  rcases same_berth_split p a hf s t b hs ht hst hb hzs hzt with
    ⟨hy1, hl1, hm1⟩ | ⟨hy1, hl1, hm1⟩ <;>
  rcases same_berth_split p a hf t s b ht hs (Ne.symm hst) hb hzt hzs with
    ⟨hy2, hl2, hm2⟩ | ⟨hy2, hl2, hm2⟩
  · rw [hl1] at l1
    rw [hl2] at l2
    linarith
  · rw [hy1, hy2]
    norm_num
  · rw [hy1, hy2]
    norm_num
  · rw [hm1] at m1
    rw [hm2] at m2
    linarith

theorem order_antisymmetric_witness :
    Feasible demoParams demoAssign ∧ 0 < proc demoParams 0 0 + proc demoParams 1 0 ∧
    demoAssign.y 0 1 + demoAssign.y 1 0 = 1 :=
  have hproc : 0 < proc demoParams 0 0 + proc demoParams 1 0 := by
    simp only [proc, demoParams, guardSpeed, sum_range_succ, sum_range_zero]
    norm_num
  ⟨demo_feasible, hproc,
    order_antisymmetric demoParams demoAssign demo_feasible 0 1 0
      (by decide) (by decide) (by decide) (by decide) rfl rfl hproc⟩

/-- C26: for `numShipK >= 1` and a feasible assignment in which every
compartment of ship `s` has `requiredSlots[s][k] >= 1`, the per-slot cargo
weights of the transshipment cost add up to the cargo weight of the ship: the
sum over `k`, `r`, `v` of
`x[s][k][r][v] * cargoWeight[s] / (requiredSlots[s][k] * numShipK)` equals
`cargoWeight[s]`. -/
theorem per_slot_weights_sum (p : ModelParams) (a : Assignment) (hf : Feasible p a)
    (s : Nat) (hs : s < p.numShips) (hK : 1 ≤ p.numShipK)
    (hreq : ∀ k < p.numShipK, 1 ≤ p.requiredSlots s k) :
    ∑ k ∈ range p.numShipK, ∑ r ∈ range p.numRows, ∑ v ∈ range p.numSlotsPerRow,
      a.x s k r v * p.cargoWeight s
        / (((p.requiredSlots s k * (p.numShipK : Int) : Int)) : ℚ)
      = p.cargoWeight s := by
  have hKq : (0 : ℚ) < (p.numShipK : ℚ) := by exact_mod_cast hK
  have hk : ∀ k ∈ range p.numShipK,
      ∑ r ∈ range p.numRows, ∑ v ∈ range p.numSlotsPerRow,
        a.x s k r v * p.cargoWeight s
          / (((p.requiredSlots s k * (p.numShipK : Int) : Int)) : ℚ)
        = p.cargoWeight s / (p.numShipK : ℚ) := by
    intro k hk
    rw [mem_range] at hk
    have hr : (0 : ℚ) < ((p.requiredSlots s k : Int) : ℚ) := by
      have := hreq k hk
      exact_mod_cast (by omega : 0 < p.requiredSlots s k)
    have hfac : ∀ r v : Nat, a.x s k r v * p.cargoWeight s
          / (((p.requiredSlots s k * (p.numShipK : Int) : Int)) : ℚ)
        = a.x s k r v * (p.cargoWeight s
          / (((p.requiredSlots s k * (p.numShipK : Int) : Int)) : ℚ)) := by
      intro r v
      rw [mul_div_assoc]
    simp only [hfac]
    simp only [← Finset.sum_mul]
    rw [hf.slotCount s hs k hk]
    push_cast
    field_simp
    ring
  rw [Finset.sum_congr rfl hk, Finset.sum_const, Finset.card_range, nsmul_eq_mul]
  field_simp

theorem per_slot_weights_sum_witness :
    Feasible demoParams demoAssign ∧
    ∑ k ∈ range demoParams.numShipK, ∑ r ∈ range demoParams.numRows,
      ∑ v ∈ range demoParams.numSlotsPerRow,
        demoAssign.x 1 k r v * demoParams.cargoWeight 1
          / (((demoParams.requiredSlots 1 k * (demoParams.numShipK : Int) : Int)) : ℚ)
      = demoParams.cargoWeight 1 :=
  ⟨demo_feasible,
    per_slot_weights_sum demoParams demoAssign demo_feasible 1 (by decide) (by decide)
      (by
        intro k hk
        have hk2 : k < 2 := hk
        interval_cases k <;> decide)⟩

/-! ## The contiguity encoding admits every run -/

/-- The placement constraints of `(s,k)` are the part of `Feasible` that
concerns the placement variables of that compartment. -/
theorem Feasible.placement {p : ModelParams} {a : Assignment} (hf : Feasible p a)
    (s k : Nat) (hs : s < p.numShips) (hk : k < p.numShipK) :
    PlacementConstraints p s k (a.x s k) (a.f s k) (a.h s k) where
  slotCount := hf.slotCount s hs k hk
  singleRow := hf.singleRow s hs k hk
  rowLink := hf.rowLink s hs k hk
  boundarySum := hf.boundarySum s hs k hk
  boundaryLast := hf.boundaryLast s hs k hk
  boundaryStep := hf.boundaryStep s hs k hk

/-- Sum of the indicator of the run `lo .. lo+n-1` over a row of `V` slots. -/
theorem sum_run_indicator (V lo n : Nat) (hle : lo + n ≤ V) :
    ∑ v ∈ range V, (if lo ≤ v ∧ v < lo + n then (1 : ℚ) else 0) = (n : ℚ) := by
  apply sum_eq_run_length (fun v => if lo ≤ v ∧ v < lo + n then (1 : ℚ) else 0) V lo n _ hle
  · intro v _
    by_cases hv : lo ≤ v ∧ v < lo + n
    · simp [hv]
    · simp [hv]
  · intro v _
    by_cases hv : lo ≤ v ∧ v < lo + n
    · simp [hv, IsBool]
    · simp [hv, IsBool]

/-- C23: the contiguity encoding excludes no valid placement.  For a
compartment `(s,k)` with `1 <= requiredSlots[s][k]` and a 0/1 placement `x`
that occupies exactly the `requiredSlots[s][k]` consecutive slots
`lo .. lo + requiredSlots[s][k] - 1` of one row `r0` (which fit in the row, so
`requiredSlots[s][k] <= numSlotsPerRow`) and nothing else, there are 0/1
values of `f[s][k]` and `h[s][k]` satisfying the slot-count, single-row,
linkage and contiguity constraints of `(s,k)`. -/
theorem contiguity_admits_run (p : ModelParams) (s k r0 lo : Nat)
    (x : Nat → Nat → ℚ) (hr0 : r0 < p.numRows)
    (hreq : 1 ≤ p.requiredSlots s k)
    (hfit : lo + (p.requiredSlots s k).toNat ≤ p.numSlotsPerRow)
    (hx : ∀ r < p.numRows, ∀ v < p.numSlotsPerRow,
      x r v = if r = r0 ∧ lo ≤ v ∧ v < lo + (p.requiredSlots s k).toNat then 1 else 0) :
    ∃ (f : Nat → ℚ) (h : Nat → Nat → ℚ),
      (∀ r < p.numRows, IsBool (f r)) ∧
      (∀ r < p.numRows, ∀ v < p.numSlotsPerRow, IsBool (h r v)) ∧
      PlacementConstraints p s k x f h := by
  obtain ⟨n, hn⟩ : ∃ n : Nat, (p.requiredSlots s k).toNat = n := ⟨_, rfl⟩
  have hnreq : ((n : Int)) = p.requiredSlots s k := by
    rw [← hn]
    exact Int.toNat_of_nonneg (by omega)
  have hn1 : 1 ≤ n := by omega
  rw [hn] at hfit hx
  have hV : 1 ≤ p.numSlotsPerRow := by omega
  have hrow : ∀ r < p.numRows, ∑ v ∈ range p.numSlotsPerRow, x r v
      = if r = r0 then (n : ℚ) else 0 := by
    intro r hr
    rw [Finset.sum_congr rfl (fun v hv => hx r hr v (mem_range.mp hv))]
    by_cases hrr : r = r0
    · simp only [hrr, true_and, if_true]
      exact sum_run_indicator _ lo n hfit
    · simp [hrr]
  refine ⟨fun r => if r = r0 then 1 else 0,
    fun r v => if r = r0 ∧ v + 1 = lo + n then 1 else 0, ?_, ?_, ?_⟩
  · intro r _
    by_cases hrr : r = r0
    · simp [hrr, IsBool]
    · simp [hrr, IsBool]
  · intro r _ v _
    by_cases hrv : r = r0 ∧ v + 1 = lo + n
    · simp [hrv, IsBool]
    · simp [hrv, IsBool]
  · refine ⟨?_, ?_, ?_, ?_, ?_, ?_⟩
    · rw [Finset.sum_congr rfl (fun r hr => hrow r (mem_range.mp hr))]
      rw [Finset.sum_ite_eq' (range p.numRows) r0 (fun _ => (n : ℚ))]
      simp only [mem_range, hr0, if_true]
      rw [← hnreq]
      norm_cast
    · rw [Finset.sum_ite_eq' (range p.numRows) r0 (fun _ => (1 : ℚ))]
      simp [hr0]
    · intro r hr
      rw [hrow r hr]
      by_cases hrr : r = r0
      · simp only [hrr, if_true, mul_one]
        exact_mod_cast (by omega : n ≤ p.numSlotsPerRow)
      · simp [hrr]
    · intro r hr
      by_cases hrr : r = r0
      · simp only [hrr, true_and, if_true]
        rw [Finset.sum_eq_single (lo + n - 1)]
        · rw [if_pos (by omega)]
        · intro v _ hv
          rw [if_neg (by omega)]
        · intro hnot
          exact absurd (mem_range.mpr (by omega : lo + n - 1 < p.numSlotsPerRow)) hnot
      · simp [hrr]
    · intro r hr
      rw [hx r hr (p.numSlotsPerRow - 1) (by omega)]
      by_cases hrr : r = r0
      · by_cases he : p.numSlotsPerRow - 1 + 1 = lo + n
        · simp [hrr, he]
          split_ifs <;> norm_num
        · have : ¬ (lo ≤ p.numSlotsPerRow - 1 ∧ p.numSlotsPerRow - 1 < lo + n) := by omega
          simp [hrr, he, this]
      · simp [hrr]
    · intro r hr v hv
      rw [hx r hr v (by omega), hx r hr (v + 1) (by omega)]
      by_cases hrr : r = r0
      · simp only [hrr, true_and]
        by_cases h1 : lo ≤ v ∧ v < lo + n
        · by_cases h2 : lo ≤ v + 1 ∧ v + 1 < lo + n
          · rw [if_pos h1, if_pos h2]
            split_ifs <;> norm_num
          · rw [if_pos h1, if_neg h2, if_pos (by omega)]
            norm_num
        · rw [if_neg h1]
          split_ifs <;> norm_num
      · simp [hrr]

theorem contiguity_admits_run_witness :
    ∃ (f : Nat → ℚ) (h : Nat → Nat → ℚ),
      (∀ r < demoParams.numRows, IsBool (f r)) ∧
      (∀ r < demoParams.numRows, ∀ v < demoParams.numSlotsPerRow, IsBool (h r v)) ∧
      PlacementConstraints demoParams 0 0
        (fun r v => if r = 1 ∧ 1 ≤ v ∧ v < 1 + 2 then 1 else 0) f h :=
  contiguity_admits_run demoParams 0 0 1 1
    (fun r v => if r = 1 ∧ 1 ≤ v ∧ v < 1 + 2 then 1 else 0)
    (by decide) (by decide) (by decide) (fun _ _ _ _ => rfl)

/-! ## Compartments of one ship are unloaded one after another -/

/-- Pairwise non-overlapping intervals `[st k, st k + d k]` of positive length
that all start at or after `base`: the one that ends last ends at or after
`base` plus the total length. -/
theorem exists_end_ge_sum (st d : Nat → ℚ) (base : ℚ) :
    ∀ (n : Nat) (T : Finset Nat), T.card = n + 1 →
      (∀ k ∈ T, base ≤ st k) → (∀ k ∈ T, 0 < d k) →
      (∀ k ∈ T, ∀ t ∈ T, k ≠ t → st k + d k ≤ st t ∨ st t + d t ≤ st k) →
      ∃ k ∈ T, base + ∑ j ∈ T, d j ≤ st k + d k := by
  intro n
  induction n with
  | zero =>
    intro T hcard hst _ _
    obtain ⟨a, ha⟩ := Finset.card_eq_one.mp hcard
    refine ⟨a, by simp [ha], ?_⟩
    rw [ha, Finset.sum_singleton]
    have := hst a (by simp [ha])
    linarith
  | succ n ih =>
    intro T hcard hst hd hdis
    have hne : T.Nonempty := Finset.card_pos.mp (by omega)
    obtain ⟨m, hm, hmax⟩ := Finset.exists_max_image T (fun k => st k + d k) hne
    have hcard2 : (T.erase m).card = n + 1 := by
      rw [Finset.card_erase_of_mem hm, hcard]
      rfl
    obtain ⟨k, hk, hkle⟩ := ih (T.erase m) hcard2
      (fun k hk => hst k (Finset.mem_of_mem_erase hk))
      (fun k hk => hd k (Finset.mem_of_mem_erase hk))
      (fun k hk t ht hkt =>
        hdis k (Finset.mem_of_mem_erase hk) t (Finset.mem_of_mem_erase ht) hkt)
    have hkT : k ∈ T := Finset.mem_of_mem_erase hk
    have hkm : k ≠ m := Finset.ne_of_mem_erase hk
    refine ⟨m, hm, ?_⟩
    rw [← Finset.add_sum_erase T d hm]
    rcases hdis k hkT m hm hkm with h | h
    · linarith
    · have h1 := hmax k hkT
      have h2 := hd k hkT
      simp only at h1
      linarith

/-- Two distinct compartments of a ship assigned to berth `b` do not overlap:
one of them ends before the other starts. -/
theorem compartments_disjoint (p : ModelParams) (a : Assignment) (hf : Feasible p a)
    (s b k t : Nat) (hs : s < p.numShips) (hb : b < p.numBerths)
    (hk : k < p.numShipK) (ht : t < p.numShipK) (hkt : k ≠ t)
    (hz : a.z s b = 1) :
    a.e_sk s k + duration p s k b ≤ a.e_sk s t ∨
      a.e_sk s t + duration p s t b ≤ a.e_sk s k := by
  have hpair := hf.orderPair s hs k hk t ht (Ne.symm hkt)
  rcases hf.dom_q s hs k hk t ht with h | h
  · right
    have hq : a.q s t k = 1 := by
      rw [h] at hpair
      linarith
    have hc := hf.orderBigM s hs t ht k hk hkt b hb
    rw [hq, hz] at hc
    unfold Mbig at hc
    linarith
  · left
    have hc := hf.orderBigM s hs k hk t ht (Ne.symm hkt) b hb
    rw [h, hz] at hc
    unfold Mbig at hc
    linarith

/-- With positive speeds the guard of line 403 changes nothing, and `proc` is
the sum of the compartment durations. -/
theorem proc_eq_sum_duration (p : ModelParams) (s b : Nat)
    (hsp : ∀ k < p.numShipK, 0 < p.unloadingSpeed s b k) :
    proc p s b = ∑ k ∈ range p.numShipK, duration p s k b := by
  unfold proc
  apply Finset.sum_congr rfl
  intro k hk
  have := hsp k (mem_range.mp hk)
  unfold duration guardSpeed
  rw [if_neg (not_le.mpr this)]

/-- C24: for `numShipK >= 1` and a feasible assignment, for a ship `s`
assigned to berth `b` with `cargoWeight[s] >= 0` and
`unloadingSpeed[s][b][k] > 0` for all `k`, the latest compartment completion
time is at least the start of the ship plus its total processing time:
`max over k of (e_sk[s][k] + duration(s,k,b)) >= e[s] + proc(s,b)`. -/
theorem latest_completion_ge_proc (p : ModelParams) (a : Assignment) (hf : Feasible p a)
    (hK : 1 ≤ p.numShipK) (s b : Nat) (hs : s < p.numShips) (hb : b < p.numBerths)
    (hz : a.z s b = 1) (hcw : 0 ≤ p.cargoWeight s)
    (hsp : ∀ k < p.numShipK, 0 < p.unloadingSpeed s b k) :
    a.e s + proc p s b ≤
      (range p.numShipK).sup' (Finset.nonempty_range_iff.mpr (Nat.pos_iff_ne_zero.mp hK))
        (fun k => a.e_sk s k + duration p s k b) := by
  have hex : ∃ k ∈ range p.numShipK,
      a.e s + proc p s b ≤ a.e_sk s k + duration p s k b := by
    rw [proc_eq_sum_duration p s b hsp]
    rcases hcw.eq_or_lt with h0 | hpos
    · refine ⟨0, mem_range.mpr hK, ?_⟩
      have hd : ∀ k, duration p s k b = 0 := by
        intro k
        unfold duration
        rw [← h0, zero_div]
      simp only [hd, Finset.sum_const_zero, add_zero]
      exact hf.startAfterShip s hs 0 hK
    · obtain ⟨n, hn⟩ : ∃ n, p.numShipK = n + 1 := ⟨p.numShipK - 1, by omega⟩
      apply exists_end_ge_sum (fun k => a.e_sk s k) (fun k => duration p s k b) (a.e s) n
      · rw [Finset.card_range, hn]
      · intro k hk
        exact hf.startAfterShip s hs k (mem_range.mp hk)
      · intro k hk
        unfold duration
        have hKq : (0 : ℚ) < (p.numShipK : ℚ) := by exact_mod_cast hK
        exact div_pos hpos (mul_pos hKq (hsp k (mem_range.mp hk)))
      · intro k hk t ht hkt
        exact compartments_disjoint p a hf s b k t hs hb (mem_range.mp hk)
          (mem_range.mp ht) hkt hz
  obtain ⟨k, hk, hle⟩ := hex
  exact le_trans hle (Finset.le_sup' (fun k => a.e_sk s k + duration p s k b) hk)

theorem latest_completion_ge_proc_witness :
    Feasible demoParams demoAssign ∧
    demoAssign.e 0 + proc demoParams 0 0 ≤
      (range demoParams.numShipK).sup' (Finset.nonempty_range_iff.mpr (by decide))
        (fun k => demoAssign.e_sk 0 k + duration demoParams 0 k 0) :=
  ⟨demo_feasible,
    latest_completion_ge_proc demoParams demoAssign demo_feasible (by decide) 0 0
      (by decide) (by decide) rfl (by simp [demoParams])
      (by
        intro k _
        simp [demoParams])⟩

/-! ## Parameter files: last accepted record wins -/

/-- A record line either assigns the one entry of its accepted record or
leaves the table as it is. -/
theorem applyRecord_eq_accepted {α : Type} (stov : List Char → Option α)
    (dims : List Nat) (tbl : List Nat → α) (line : List Char) :
    applyRecord stov dims tbl line =
      match acceptedRecord stov dims line with
      | some r => Function.update tbl r.1 r.2
      | none => tbl := by
  unfold applyRecord acceptedRecord
  by_cases hl : line = []
  · simp only [if_pos hl]
  · simp only [if_neg hl]
    cases splitRecord dims.length line with
    | none => rfl
    | some fv =>
      obtain ⟨flds, v⟩ := fv
      simp only []
      cases parseIndices flds with
      | none => rfl
      | some idx =>
        cases stov v with
        | none => rfl
        | some val =>
          simp only []
          by_cases hb : inBounds dims idx = true
          · simp only [if_pos hb]
          · simp only [if_neg hb]

/-- The range test passes only when every index is non-negative and below
its count. -/
theorem inBounds_zip : ∀ (dims : List Nat) (idx : List Int), inBounds dims idx = true →
    ∀ di ∈ dims.zip idx, 0 ≤ di.2 ∧ di.2 < (di.1 : Int)
  | [], [], _, di, hdi => by simp at hdi
  | [], _ :: _, h, _, _ => by simp [inBounds] at h
  | _ :: _, [], h, _, _ => by simp [inBounds] at h
  | d :: ds, i :: is, h, di, hdi => by
    simp only [inBounds, Bool.and_eq_true, decide_eq_true_eq] at h
    rw [List.zip_cons_cons, List.mem_cons] at hdi
    rcases hdi with hdi | hdi
    · rw [hdi]
      exact ⟨h.1.1, h.1.2⟩
    · exact inBounds_zip ds is h.2 di hdi

theorem inBounds_false_of_outOfRange (dims : List Nat) (idx : List Int)
    (h : OutOfRange dims idx) : inBounds dims idx = false := by
  obtain ⟨di, hdi, hbad⟩ := h
  by_contra hne
  have ht : inBounds dims idx = true := by
    cases hb : inBounds dims idx
    · exact absurd hb hne
    · rfl
  have := inBounds_zip dims idx ht di hdi
  omega

/-- Folding record lines over a table: every entry ends as the value of the
last accepted record addressing it, or as it was. -/
theorem foldl_applyRecord {α : Type} (stov : List Char → Option α) (dims : List Nat)
    (lines : List (List Char)) :
    ∀ (tbl : List Nat → α) (i : List Nat),
      lines.foldl (applyRecord stov dims) tbl i =
        match ((lines.filterMap (acceptedRecord stov dims)).reverse.find?
            (fun r => decide (r.1 = i))) with
        | some r => r.2
        | none => tbl i := by
  induction lines with
  | nil =>
    intro tbl i
    rfl
  | cons l ls ih =>
    intro tbl i
    rw [List.foldl_cons, ih, applyRecord_eq_accepted]
    cases hacc : acceptedRecord stov dims l with
    | none =>
      simp only [List.filterMap_cons, hacc]
    | some r =>
      simp only [List.filterMap_cons, hacc, List.reverse_cons, List.find?_append]
      cases hfind : (ls.filterMap (acceptedRecord stov dims)).reverse.find?
          (fun r => decide (r.1 = i)) with
      | some r' => simp
      | none =>
        by_cases hri : r.1 = i
        · simp [hri]
        · have hir : i ≠ r.1 := fun h => hri h.symm
          simp [hri, Function.update_noteq hir]

/-- C28 (as stated, refuted): the two-index integer table file with the single
record `0,0x,7` has no well-formed record (the index field `0x` is not a
well-formed number), yet after loading entry `[0][0]` is 7, not 0:
`std::stoi` reads the leading `0` of `0x` and the row is applied. -/
theorem garbage_index_row_sets_entry :
    (∀ line ∈ ["ship,k,value".toList, "0,0x,7".toList].drop 1,
      wellFormedRecord 2 line = false) ∧
    splitRecord 2 "0,0x,7".toList = some (["0".toList, "0x".toList], "7".toList) ∧
    wellFormedInt "0x".toList = false ∧
    loadTable stoi [1, 1] 0 ["ship,k,value".toList, "0,0x,7".toList] [0, 0] = 7 := by
  decide

/-- C28 (amended): for every record loop (any number of index fields, any
counts, any value conversion) and every file, after loading each table entry
equals the value of the last accepted record addressing it (a record line on
which every `getline` succeeds, `std::stoi` on every index field and the value
conversion return without throwing, and every index is in range), or the
initial zero if there is none; a record whose index tuple is out of range
changes no entry; and an accepted record sets the entry it addresses and
changes no other entry. -/
theorem loadTable_last_accepted {α : Type} (stov : List Char → Option α)
    (dims : List Nat) (zero : α) (file : List (List Char)) :
    (∀ i : List Nat,
      loadTable stov dims zero file i = lastAccepted stov dims zero (file.drop 1) i) ∧
    (∀ (tbl : List Nat → α) (line : List Char) (flds : List (List Char)) (v : List Char)
      (idx : List Int),
      splitRecord dims.length line = some (flds, v) → parseIndices flds = some idx →
      OutOfRange dims idx → applyRecord stov dims tbl line = tbl) ∧
    (∀ (tbl : List Nat → α) (line : List Char) (idx : List Nat) (val : α),
      acceptedRecord stov dims line = some (idx, val) →
      applyRecord stov dims tbl line idx = val ∧
      ∀ j : List Nat, j ≠ idx → applyRecord stov dims tbl line j = tbl j) := by
  refine ⟨?_, ?_, ?_⟩
  · intro i
    unfold loadTable lastAccepted
    rw [foldl_applyRecord]
  · intro tbl line flds v idx hsp hidx hout
    rw [applyRecord_eq_accepted]
    have hnone : acceptedRecord stov dims line = none := by
      unfold acceptedRecord
      by_cases hl : line = []
      · rw [if_pos hl]
      · rw [if_neg hl, hsp]
        simp only [hidx]
        cases stov v with
        | none => rfl
        | some val =>
          simp only [inBounds_false_of_outOfRange dims idx hout]
          rfl
    rw [hnone]
  · intro tbl line idx val hacc
    rw [applyRecord_eq_accepted, hacc]
    exact ⟨Function.update_same _ _ _, fun j hj => Function.update_noteq hj _ _⟩

theorem loadTable_last_accepted_witness :
    (∀ i : List Nat,
      loadTable stoi [2, 2] 0
          ["ship,k,value".toList, "1,0,4".toList, "5,0,9".toList, "1,0,6".toList] i =
        lastAccepted stoi [2, 2] 0
          (["ship,k,value".toList, "1,0,4".toList, "5,0,9".toList, "1,0,6".toList].drop 1)
          i) ∧
    (∀ (tbl : List Nat → Int) (line : List Char) (flds : List (List Char)) (v : List Char)
      (idx : List Int),
      splitRecord [2, 2].length line = some (flds, v) → parseIndices flds = some idx →
      OutOfRange [2, 2] idx → applyRecord stoi [2, 2] tbl line = tbl) ∧
    (∀ (tbl : List Nat → Int) (line : List Char) (idx : List Nat) (val : Int),
      acceptedRecord stoi [2, 2] line = some (idx, val) →
      applyRecord stoi [2, 2] tbl line idx = val ∧
      ∀ j : List Nat, j ≠ idx → applyRecord stoi [2, 2] tbl line j = tbl j) ∧
    lastAccepted stoi [2, 2] 0
      ["1,0,4".toList, "5,0,9".toList, "1,0,6".toList] [1, 0] = 6 ∧
    acceptedRecord stoi [2, 2] "5,0,9".toList = none ∧
    OutOfRange [2, 2] [5, 0] :=
  ⟨(loadTable_last_accepted stoi [2, 2] 0
      ["ship,k,value".toList, "1,0,4".toList, "5,0,9".toList, "1,0,6".toList]).1,
    (loadTable_last_accepted stoi [2, 2] 0
      ["ship,k,value".toList, "1,0,4".toList, "5,0,9".toList, "1,0,6".toList]).2.1,
    (loadTable_last_accepted stoi [2, 2] 0
      ["ship,k,value".toList, "1,0,4".toList, "5,0,9".toList, "1,0,6".toList]).2.2,
    by decide, by decide, ⟨(2, 5), by decide, Or.inr (by decide)⟩⟩

/-! ## Variable names are pairwise distinct -/

theorem showNat_no_underscore (n : Nat) : ∀ c ∈ showNat n, c ≠ '_' := by
  intro c hc
  obtain ⟨d, hd, rfl⟩ := showNat_digits n c hc
  have h := (digitChar_facts d hd).1
  intro heq
  rw [heq] at h
  exact absurd h (by decide)

theorem showNat_injective (a b : Nat) (h : showNat a = showNat b) : a = b := by
  rw [← digitsValue_showNat a, ← digitsValue_showNat b, h]

theorem underscored_head (idx : List Nat) :
    underscored idx = [] ∨ ∃ t, underscored idx = '_' :: t := by
  cases idx with
  | nil => exact Or.inl rfl
  | cons i rest => exact Or.inr ⟨showNat i ++ underscored rest, rfl⟩

/-- Two texts without `_`, each followed by nothing or by a text starting
with `_`: equal wholes have equal parts. -/
theorem split_at_underscore (a b ta tb : List Char)
    (ha : ∀ c ∈ a, c ≠ '_') (hb : ∀ c ∈ b, c ≠ '_')
    (hta : ta = [] ∨ ∃ t, ta = '_' :: t) (htb : tb = [] ∨ ∃ t, tb = '_' :: t)
    (h : a ++ ta = b ++ tb) : a = b ∧ ta = tb := by
  have key : ∀ (a ta : List Char), (∀ c ∈ a, c ≠ '_') → (ta = [] ∨ ∃ t, ta = '_' :: t) →
      (a ++ ta).takeWhile (fun c => decide (c ≠ '_')) = a := by
    intro a ta ha hta
    rw [List.takeWhile_append_of_pos (fun c hc => by simpa using ha c hc)]
    rcases hta with h0 | ⟨t, ht⟩
    · rw [h0]
      simp
    · rw [ht]
      simp
  have hab : a = b := by
    rw [← key a ta ha hta, ← key b tb hb htb, h]
  refine ⟨hab, ?_⟩
  rw [hab] at h
  exact List.append_cancel_left h

theorem underscored_injective :
    ∀ idx1 idx2 : List Nat, underscored idx1 = underscored idx2 → idx1 = idx2
  | [], [], _ => rfl
  | [], j :: r2, h => by simp [underscored] at h
  | i :: r1, [], h => by simp [underscored] at h
  | i :: r1, j :: r2, h => by
    have h' : showNat i ++ underscored r1 = showNat j ++ underscored r2 := by
      simpa [underscored] using h
    obtain ⟨h1, h2⟩ := split_at_underscore _ _ _ _ (showNat_no_underscore i)
      (showNat_no_underscore j) (underscored_head r1) (underscored_head r2) h'
    rw [showNat_injective i j h1, underscored_injective r1 r2 h2]

theorem varName_eq (v : Var) : varName v = namePrefix v ++ underscored (nameIdx v) := by
  cases v <;> simp [varName, namePrefix, nameIdx, underscored]

theorem namePrefix_no_underscore (v : Var) : ∀ c ∈ namePrefix v, c ≠ '_' := by
  cases v <;> (simp only [namePrefix]; decide)

/-- Different variables get different names. -/
theorem varName_injective : Function.Injective varName := by
  intro v w h
  rw [varName_eq, varName_eq] at h
  obtain ⟨hp, hi⟩ := split_at_underscore _ _ _ _ (namePrefix_no_underscore v)
    (namePrefix_no_underscore w) (underscored_head _) (underscored_head _) h
  have hidx := underscored_injective _ _ hi
  cases v <;> cases w <;> simp [namePrefix] at hp <;> simp [nameIdx] at hidx <;>
    simp [hidx]

theorem nodup_flatMap_of_key {α β : Type} (key : β → α) (l : List α) (f : α → List β)
    (hl : l.Nodup) (hkey : ∀ a ∈ l, ∀ x ∈ f a, key x = a)
    (hnd : ∀ a ∈ l, (f a).Nodup) : (l.flatMap f).Nodup := by
  rw [List.nodup_flatMap]
  refine ⟨hnd, ?_⟩
  refine List.Pairwise.imp_of_mem ?_ hl
  intro a b ha hb hab
  show List.Disjoint (f a) (f b)
  rw [List.disjoint_left]
  intro x hxa hxb
  exact hab ((hkey a ha x hxa).symm.trans (hkey b hb x hxb))

theorem nodup_map_of_key {α β : Type} (key : β → α) (l : List α) (g : α → β)
    (hl : l.Nodup) (hkey : ∀ a, key (g a) = a) : (l.map g).Nodup :=
  List.Nodup.map (Function.LeftInverse.injective hkey) hl

theorem disjoint_of_tag (l1 l2 : List Var) (t : Nat) (h1 : ∀ x ∈ l1, x.tag < t)
    (h2 : ∀ x ∈ l2, t ≤ x.tag) : List.Disjoint l1 l2 := by
  rw [List.disjoint_left]
  intro x hx1 hx2
  have := h1 x hx1
  have := h2 x hx2
  omega

/-- Every variable declared in the pass of ship `s` carries `s` as its first
index, and the six families of the pass follow one another. -/
theorem shipVars_nodup (p : ModelParams) (s : Nat) : (shipVars p s).Nodup := by
  have hz : ((List.range p.numBerths).map (fun b => Var.z s b)).Nodup :=
    nodup_map_of_key (fun v => v.idx.getD 1 0) _ _ (List.nodup_range _) (fun _ => rfl)
  have hq : ((List.range p.numShipK).flatMap (fun k =>
      (List.range p.numShipK).map (fun t => Var.q s k t))).Nodup := by
    apply nodup_flatMap_of_key (fun v => v.idx.getD 1 0) _ _ (List.nodup_range _)
    · intro k _ x hx
      obtain ⟨t, _, rfl⟩ := List.mem_map.mp hx
      rfl
    · intro k _
      exact nodup_map_of_key (fun v => v.idx.getD 2 0) _ _ (List.nodup_range _) (fun _ => rfl)
  have hy : ((List.range p.numShips).map (fun t => Var.y s t)).Nodup :=
    nodup_map_of_key (fun v => v.idx.getD 1 0) _ _ (List.nodup_range _) (fun _ => rfl)
  have hf : ((List.range p.numShipK).flatMap (fun k =>
      (List.range p.numRows).map (fun r => Var.f s k r))).Nodup := by
    apply nodup_flatMap_of_key (fun v => v.idx.getD 1 0) _ _ (List.nodup_range _)
    · intro k _ x hx
      obtain ⟨t, _, rfl⟩ := List.mem_map.mp hx
      rfl
    · intro k _
      exact nodup_map_of_key (fun v => v.idx.getD 2 0) _ _ (List.nodup_range _) (fun _ => rfl)
  have hx : ((List.range p.numShipK).flatMap (fun k =>
      (List.range p.numRows).flatMap (fun r =>
        (List.range p.numSlotsPerRow).map (fun v => Var.x s k r v)))).Nodup := by
    apply nodup_flatMap_of_key (fun v => v.idx.getD 1 0) _ _ (List.nodup_range _)
    · intro k _ x hx
      obtain ⟨r, _, hx⟩ := List.mem_flatMap.mp hx
      obtain ⟨v, _, rfl⟩ := List.mem_map.mp hx
      rfl
    · intro k _
      apply nodup_flatMap_of_key (fun v => v.idx.getD 2 0) _ _ (List.nodup_range _)
      · intro r _ x hx
        obtain ⟨v, _, rfl⟩ := List.mem_map.mp hx
        rfl
      · intro r _
        exact nodup_map_of_key (fun v => v.idx.getD 3 0) _ _ (List.nodup_range _)
          (fun _ => rfl)
  have hh : ((List.range p.numShipK).flatMap (fun k =>
      (List.range p.numRows).flatMap (fun r =>
        (List.range p.numSlotsPerRow).map (fun v => Var.h s k r v)))).Nodup := by
    apply nodup_flatMap_of_key (fun v => v.idx.getD 1 0) _ _ (List.nodup_range _)
    · intro k _ x hx
      obtain ⟨r, _, hx⟩ := List.mem_flatMap.mp hx
      obtain ⟨v, _, rfl⟩ := List.mem_map.mp hx
      rfl
    · intro k _
      apply nodup_flatMap_of_key (fun v => v.idx.getD 2 0) _ _ (List.nodup_range _)
      · intro r _ x hx
        obtain ⟨v, _, rfl⟩ := List.mem_map.mp hx
        rfl
      · intro r _
        exact nodup_map_of_key (fun v => v.idx.getD 3 0) _ _ (List.nodup_range _)
          (fun _ => rfl)
  have tz : ∀ x ∈ (List.range p.numBerths).map (fun b => Var.z s b), x.tag = 0 := by
    intro x hx
    obtain ⟨b, _, rfl⟩ := List.mem_map.mp hx
    rfl
  have tq : ∀ x ∈ (List.range p.numShipK).flatMap (fun k =>
      (List.range p.numShipK).map (fun t => Var.q s k t)), x.tag = 1 := by
    intro x hx
    obtain ⟨k, _, hx⟩ := List.mem_flatMap.mp hx
    obtain ⟨t, _, rfl⟩ := List.mem_map.mp hx
    rfl
  have ty : ∀ x ∈ (List.range p.numShips).map (fun t => Var.y s t), x.tag = 2 := by
    intro x hx
    obtain ⟨b, _, rfl⟩ := List.mem_map.mp hx
    rfl
  have tf : ∀ x ∈ (List.range p.numShipK).flatMap (fun k =>
      (List.range p.numRows).map (fun r => Var.f s k r)), x.tag = 3 := by
    intro x hx
    obtain ⟨k, _, hx⟩ := List.mem_flatMap.mp hx
    obtain ⟨t, _, rfl⟩ := List.mem_map.mp hx
    rfl
  have tx : ∀ x ∈ (List.range p.numShipK).flatMap (fun k =>
      (List.range p.numRows).flatMap (fun r =>
        (List.range p.numSlotsPerRow).map (fun v => Var.x s k r v))), x.tag = 4 := by
    intro x hx
    obtain ⟨k, _, hx⟩ := List.mem_flatMap.mp hx
    obtain ⟨r, _, hx⟩ := List.mem_flatMap.mp hx
    obtain ⟨v, _, rfl⟩ := List.mem_map.mp hx
    rfl
  have th : ∀ x ∈ (List.range p.numShipK).flatMap (fun k =>
      (List.range p.numRows).flatMap (fun r =>
        (List.range p.numSlotsPerRow).map (fun v => Var.h s k r v))), x.tag = 5 := by
    intro x hx
    obtain ⟨k, _, hx⟩ := List.mem_flatMap.mp hx
    obtain ⟨r, _, hx⟩ := List.mem_flatMap.mp hx
    obtain ⟨v, _, rfl⟩ := List.mem_map.mp hx
    rfl
  unfold shipVars
  refine List.Nodup.append (List.Nodup.append (List.Nodup.append (List.Nodup.append
    (List.Nodup.append hz hq ?_) hy ?_) hf ?_) hx ?_) hh ?_
  · exact disjoint_of_tag _ _ 1 (fun x hx => by rw [tz x hx]; omega)
      (fun x hx => by rw [tq x hx])
  · apply disjoint_of_tag _ _ 2 _ (fun x hx => by rw [ty x hx])
    intro x hx
    rcases List.mem_append.mp hx with h | h
    · rw [tz x h]
      omega
    · rw [tq x h]
      omega
  · apply disjoint_of_tag _ _ 3 _ (fun x hx => by rw [tf x hx])
    intro x hx
    simp only [List.mem_append] at hx
    rcases hx with (h | h) | h
    · rw [tz x h]
      omega
    · rw [tq x h]
      omega
    · rw [ty x h]
      omega
  · apply disjoint_of_tag _ _ 4 _ (fun x hx => by rw [tx x hx])
    intro x hx
    simp only [List.mem_append] at hx
    rcases hx with ((h | h) | h) | h
    · rw [tz x h]
      omega
    · rw [tq x h]
      omega
    · rw [ty x h]
      omega
    · rw [tf x h]
      omega
  · apply disjoint_of_tag _ _ 5 _ (fun x hx => by rw [th x hx])
    intro x hx
    simp only [List.mem_append] at hx
    rcases hx with (((h | h) | h) | h) | h
    · rw [tz x h]
      omega
    · rw [tq x h]
      omega
    · rw [ty x h]
      omega
    · rw [tf x h]
      omega
    · rw [tx x h]
      omega

theorem mem_shipVars (p : ModelParams) (s : Nat) :
    ∀ x ∈ shipVars p s, x.idx.getD 0 0 = s ∧ x.tag < 6 := by
  intro x hx
  simp only [shipVars, List.mem_append, List.mem_map, List.mem_flatMap] at hx
  rcases hx with (((((⟨_, _, rfl⟩ | ⟨_, _, _, _, rfl⟩) | ⟨_, _, rfl⟩) | ⟨_, _, _, _, rfl⟩) |
    ⟨_, _, _, _, _, _, rfl⟩) | ⟨_, _, _, _, _, _, rfl⟩) <;> exact ⟨rfl, by simp [Var.tag]⟩

theorem mem_pairVars (p : ModelParams) (s : Nat) :
    ∀ x ∈ pairVars p s, x.idx.getD 0 0 = s ∧ 6 ≤ x.tag := by
  intro x hx
  simp only [pairVars, List.mem_flatMap, List.mem_cons, List.mem_singleton,
    List.not_mem_nil, or_false] at hx
  obtain ⟨_, _, _, _, rfl | rfl | rfl⟩ := hx <;> exact ⟨rfl, by simp [Var.tag]⟩

theorem pairVars_nodup (p : ModelParams) (s : Nat) : (pairVars p s).Nodup := by
  unfold pairVars
  apply nodup_flatMap_of_key (fun v => v.idx.getD 1 0) _ _ (List.nodup_range _)
  · intro t _ x hx
    simp only [List.mem_flatMap, List.mem_cons, List.mem_singleton, List.not_mem_nil,
      or_false] at hx
    obtain ⟨_, _, rfl | rfl | rfl⟩ := hx <;> rfl
  · intro t _
    apply nodup_flatMap_of_key (fun v => v.idx.getD 2 0) _ _ (List.nodup_range _)
    · intro b _ x hx
      simp only [List.mem_cons, List.mem_singleton, List.not_mem_nil, or_false] at hx
      rcases hx with rfl | rfl | rfl <;> rfl
    · intro b _
      simp

/-- No variable is declared twice. -/
theorem declaredVars_nodup (p : ModelParams) : (declaredVars p).Nodup := by
  unfold declaredVars
  refine List.Nodup.append ?_ ?_ ?_
  · exact nodup_flatMap_of_key (fun v => v.idx.getD 0 0) _ _ (List.nodup_range _)
      (fun s _ x hx => (mem_shipVars p s x hx).1) (fun s _ => shipVars_nodup p s)
  · exact nodup_flatMap_of_key (fun v => v.idx.getD 0 0) _ _ (List.nodup_range _)
      (fun s _ x hx => (mem_pairVars p s x hx).1) (fun s _ => pairVars_nodup p s)
  · apply disjoint_of_tag _ _ 6
    · intro x hx
      obtain ⟨s, _, hx⟩ := List.mem_flatMap.mp hx
      exact (mem_shipVars p s x hx).2
    · intro x hx
      obtain ⟨s, _, hx⟩ := List.mem_flatMap.mp hx
      exact (mem_pairVars p s x hx).2

/-- C21: for every instance the names given to the declared Boolean variables
(families z, q, y, f, x, h, omega, lambda, mu over all their index tuples) are
pairwise distinct: the list of names in declaration order has no repetition,
no variable is declared twice, and two different (family, index tuple) pairs
never receive the same name, although `q[s][k][t]` is named with the prefix
`z_` and `f[s][k][r]` is named with its indices in the order ship, row,
compartment. -/
theorem declared_names_distinct (p : ModelParams) :
    ((declaredVars p).map varName).Nodup ∧ (declaredVars p).Nodup ∧
    Function.Injective varName ∧
    varName (Var.q 1 2 3) = "z_1_2_3".toList ∧ varName (Var.f 1 2 3) = "f_1_3_2".toList :=
  ⟨List.Nodup.map varName_injective (declaredVars_nodup p), declaredVars_nodup p,
    varName_injective,
    by
      simp only [varName, showNat]
      norm_num
      decide,
    by
      simp only [varName, showNat]
      norm_num
      decide⟩

/-! ## Array accesses are within bounds -/

theorem forall_mem_flatMap_range {α : Type} (n : Nat) (f : Nat → List α) (P : α → Prop) :
    (∀ a ∈ (List.range n).flatMap f, P a) ↔ ∀ i < n, ∀ a ∈ f i, P a := by
  simp only [List.mem_flatMap, List.mem_range]
  constructor
  · intro h i hi a ha
    exact h a ⟨i, hi, ha⟩
  · rintro h a ⟨i, hi, ha⟩
    exact h i hi a ha

theorem forall_mem_map_range {α : Type} (n : Nat) (g : Nat → α) (P : α → Prop) :
    (∀ a ∈ (List.range n).map g, P a) ↔ ∀ i < n, P (g i) := by
  simp only [List.mem_map, List.mem_range]
  constructor
  · intro h i hi
    exact h (g i) ⟨i, hi, rfl⟩
  · rintro h a ⟨i, hi, rfl⟩
    exact h i hi

theorem forall_mem_ite_nil {α : Type} (c : Prop) [Decidable c] (l : List α) (P : α → Prop) :
    (∀ a ∈ (if c then [] else l), P a) ↔ (¬ c → ∀ a ∈ l, P a) := by
  by_cases hc : c
  · simp [hc]
  · simp [hc]

theorem accDeclare_ok (p : ModelParams) :
    ∀ a ∈ accDeclare p, inBounds (dimsOf p a.1) a.2 = true := by
  simp only [accDeclare, forall_mem_flatMap_range, forall_mem_map_range, forall_mem_ite_nil,
    List.forall_mem_append, List.forall_mem_cons, List.mem_singleton, forall_eq,
    List.not_mem_nil, dimsOf, ix, inBounds, List.map_cons, List.map_nil, List.cons_append,
    List.nil_append]
  simp
  repeat' first | omega | intro _ | constructor

theorem accTransshipment_ok (p : ModelParams) :
    ∀ a ∈ accTransshipment p, inBounds (dimsOf p a.1) a.2 = true := by
  simp only [accTransshipment, forall_mem_flatMap_range, forall_mem_map_range,
    forall_mem_ite_nil,
    List.forall_mem_append, List.forall_mem_cons, List.mem_singleton, forall_eq,
    List.not_mem_nil, dimsOf, ix, inBounds, List.map_cons, List.map_nil, List.cons_append,
    List.nil_append]
  simp
  omega

theorem accStorage_ok (p : ModelParams) :
    ∀ a ∈ accStorage p, inBounds (dimsOf p a.1) a.2 = true := by
  simp only [accStorage, forall_mem_flatMap_range, forall_mem_map_range, forall_mem_ite_nil,
    List.forall_mem_append, List.forall_mem_cons, List.mem_singleton, forall_eq,
    List.not_mem_nil, dimsOf, ix, inBounds, List.map_cons, List.map_nil, List.cons_append,
    List.nil_append]
  simp
  omega

theorem accBerthTime_ok (p : ModelParams) :
    ∀ a ∈ accBerthTime p, inBounds (dimsOf p a.1) a.2 = true := by
  simp only [accBerthTime, forall_mem_flatMap_range, forall_mem_map_range, forall_mem_ite_nil,
    List.forall_mem_append, List.forall_mem_cons, List.mem_singleton, forall_eq,
    List.not_mem_nil, dimsOf, ix, inBounds, List.map_cons, List.map_nil, List.cons_append,
    List.nil_append]
  simp
  repeat' first | omega | intro _ | constructor

theorem accSingleBerth_ok (p : ModelParams) :
    ∀ a ∈ accSingleBerth p, inBounds (dimsOf p a.1) a.2 = true := by
  simp only [accSingleBerth, forall_mem_flatMap_range, forall_mem_map_range,
    forall_mem_ite_nil,
    List.forall_mem_append, List.forall_mem_cons, List.mem_singleton, forall_eq,
    List.not_mem_nil, dimsOf, ix, inBounds, List.map_cons, List.map_nil, List.cons_append,
    List.nil_append]
  simp
  omega

theorem accSlotCount_ok (p : ModelParams) :
    ∀ a ∈ accSlotCount p, inBounds (dimsOf p a.1) a.2 = true := by
  simp only [accSlotCount, forall_mem_flatMap_range, forall_mem_map_range, forall_mem_ite_nil,
    List.forall_mem_append, List.forall_mem_cons, List.mem_singleton, forall_eq,
    List.not_mem_nil, dimsOf, ix, inBounds, List.map_cons, List.map_nil, List.cons_append,
    List.nil_append]
  simp
  repeat' first | omega | intro _ | constructor

theorem accSlotExclusive_ok (p : ModelParams) :
    ∀ a ∈ accSlotExclusive p, inBounds (dimsOf p a.1) a.2 = true := by
  simp only [accSlotExclusive, forall_mem_flatMap_range, forall_mem_map_range,
    forall_mem_ite_nil,
    List.forall_mem_append, List.forall_mem_cons, List.mem_singleton, forall_eq,
    List.not_mem_nil, dimsOf, ix, inBounds, List.map_cons, List.map_nil, List.cons_append,
    List.nil_append]
  simp
  omega

theorem accSingleRow_ok (p : ModelParams) :
    ∀ a ∈ accSingleRow p, inBounds (dimsOf p a.1) a.2 = true := by
  simp only [accSingleRow, forall_mem_flatMap_range, forall_mem_map_range, forall_mem_ite_nil,
    List.forall_mem_append, List.forall_mem_cons, List.mem_singleton, forall_eq,
    List.not_mem_nil, dimsOf, ix, inBounds, List.map_cons, List.map_nil, List.cons_append,
    List.nil_append]
  simp
  omega

theorem accRowLink_ok (p : ModelParams) :
    ∀ a ∈ accRowLink p, inBounds (dimsOf p a.1) a.2 = true := by
  simp only [accRowLink, forall_mem_flatMap_range, forall_mem_map_range, forall_mem_ite_nil,
    List.forall_mem_append, List.forall_mem_cons, List.mem_singleton, forall_eq,
    List.not_mem_nil, dimsOf, ix, inBounds, List.map_cons, List.map_nil, List.cons_append,
    List.nil_append]
  simp
  repeat' first | omega | intro _ | constructor

/-- The contiguity constraints index the slots with `numSlotsPerRow - 1`,
which is an index of the row only when the row has a slot. -/
theorem accContiguity_ok (p : ModelParams) (hV : 1 ≤ p.numSlotsPerRow) :
    ∀ a ∈ accContiguity p, inBounds (dimsOf p a.1) a.2 = true := by
  simp only [accContiguity, forall_mem_flatMap_range, forall_mem_map_range,
    forall_mem_ite_nil,
    List.forall_mem_append, List.forall_mem_cons, List.mem_singleton, forall_eq,
    List.not_mem_nil, dimsOf, ix, inBounds, List.map_cons, List.map_nil, List.cons_append,
    List.nil_append]
  simp
  repeat' first | omega | intro _ | constructor

theorem accStartAfter_ok (p : ModelParams) :
    ∀ a ∈ accStartAfter p, inBounds (dimsOf p a.1) a.2 = true := by
  simp only [accStartAfter, forall_mem_flatMap_range, forall_mem_map_range,
    forall_mem_ite_nil,
    List.forall_mem_append, List.forall_mem_cons, List.mem_singleton, forall_eq,
    List.not_mem_nil, dimsOf, ix, inBounds, List.map_cons, List.map_nil, List.cons_append,
    List.nil_append]
  simp
  omega

theorem accOrder_ok (p : ModelParams) :
    ∀ a ∈ accOrder p, inBounds (dimsOf p a.1) a.2 = true := by
  simp only [accOrder, forall_mem_flatMap_range, forall_mem_map_range, forall_mem_ite_nil,
    List.forall_mem_append, List.forall_mem_cons, List.mem_singleton, forall_eq,
    List.not_mem_nil, dimsOf, ix, inBounds, List.map_cons, List.map_nil, List.cons_append,
    List.nil_append]
  simp
  repeat' first | omega | intro _ | constructor

theorem accLinDeclare_ok (p : ModelParams) :
    ∀ a ∈ accLinDeclare p, inBounds (dimsOf p a.1) a.2 = true := by
  simp only [accLinDeclare, forall_mem_flatMap_range, forall_mem_map_range,
    forall_mem_ite_nil,
    List.forall_mem_append, List.forall_mem_cons, List.mem_singleton, forall_eq,
    List.not_mem_nil, dimsOf, ix, inBounds, List.map_cons, List.map_nil, List.cons_append,
    List.nil_append]
  simp
  omega

theorem accLinear_ok (p : ModelParams) :
    ∀ a ∈ accLinear p, inBounds (dimsOf p a.1) a.2 = true := by
  simp only [accLinear, forall_mem_flatMap_range, forall_mem_map_range, forall_mem_ite_nil,
    List.forall_mem_append, List.forall_mem_cons, List.mem_singleton, forall_eq,
    List.not_mem_nil, dimsOf, ix, inBounds, List.map_cons, List.map_nil, List.cons_append,
    List.nil_append]
  simp
  omega

theorem accNoOverlap_ok (p : ModelParams) :
    ∀ a ∈ accNoOverlap p, inBounds (dimsOf p a.1) a.2 = true := by
  simp only [accNoOverlap, forall_mem_flatMap_range, forall_mem_map_range, forall_mem_ite_nil,
    List.forall_mem_append, List.forall_mem_cons, List.mem_singleton, forall_eq,
    List.not_mem_nil, dimsOf, ix, inBounds, List.map_cons, List.map_nil, List.cons_append,
    List.nil_append]
  simp
  repeat' first | omega | intro _ | constructor

/-- With rows of no slot and at least one ship, compartment and row, line 497
indexes `x[0][0][0]` with `-1`. -/
theorem last_slot_access_out_of_bounds (p : ModelParams) (hV : p.numSlotsPerRow = 0)
    (hS : 1 ≤ p.numShips) (hK : 1 ≤ p.numShipK) (hR : 1 ≤ p.numRows) :
    (Arr.x, [(0 : Int), 0, 0, -1]) ∈ accesses p ∧
      inBounds (dimsOf p Arr.x) [(0 : Int), 0, 0, -1] = false := by
  constructor
  · have hmem : (Arr.x, [(0 : Int), 0, 0, -1]) ∈ accContiguity p := by
      simp only [accContiguity, List.mem_flatMap, List.mem_range]
      refine ⟨0, hS, 0, hK, 0, hR, ?_⟩
      simp [ix, hV]
    simp only [accesses, List.mem_append]
    tauto
  · simp [dimsOf, inBounds]

/-- C27: for every instance with `numSlotsPerRow >= 1` (the counts are
non-negative and every array has the dimensions given by the counts, as
`loadParamsFromCSV` returns it), every index used on a parameter array or a
variable array while the variables, the objective and the constraints are
built is within bounds.  The last-slot contiguity constraint uses slot index
`numSlotsPerRow - 1`, which is a valid index only under that precondition:
with `numSlotsPerRow = 0` and at least one ship, compartment and row it
indexes `x[0][0][0]` with `-1`. -/
theorem accesses_in_bounds (p : ModelParams) :
    (1 ≤ p.numSlotsPerRow → ∀ a ∈ accesses p, inBounds (dimsOf p a.1) a.2 = true) ∧
    (p.numSlotsPerRow = 0 → 1 ≤ p.numShips → 1 ≤ p.numShipK → 1 ≤ p.numRows →
      (Arr.x, [(0 : Int), 0, 0, -1]) ∈ accesses p ∧
        inBounds (dimsOf p Arr.x) [(0 : Int), 0, 0, -1] = false) := by
  refine ⟨?_, last_slot_access_out_of_bounds p⟩
  intro hV a ha
  simp only [accesses, List.mem_append] at ha
  rcases ha with
    (((((((((((((h | h) | h) | h) | h) | h) | h) | h) | h) | h) | h) | h) | h) | h) | h
  · exact accDeclare_ok p a h
  · exact accTransshipment_ok p a h
  · exact accStorage_ok p a h
  · exact accBerthTime_ok p a h
  · exact accSingleBerth_ok p a h
  · exact accSlotCount_ok p a h
  · exact accSlotExclusive_ok p a h
  · exact accSingleRow_ok p a h
  · exact accRowLink_ok p a h
  · exact accContiguity_ok p hV a h
  · exact accStartAfter_ok p a h
  · exact accOrder_ok p a h
  · exact accLinDeclare_ok p a h
  · exact accLinear_ok p a h
  · exact accNoOverlap_ok p a h

theorem accesses_in_bounds_witness :
    (∀ a ∈ accesses demoParams, inBounds (dimsOf demoParams a.1) a.2 = true) ∧
    ((Arr.x, [(0 : Int), 0, 0, -1]) ∈ accesses noSlotParams ∧
      inBounds (dimsOf noSlotParams Arr.x) [(0 : Int), 0, 0, -1] = false) :=
  ⟨(accesses_in_bounds demoParams).1 (by decide),
    (accesses_in_bounds noSlotParams).2 rfl (by decide) (by decide) (by decide)⟩

/-! ## Range of the generated slot counts -/

/-- With the constants of `setParams` (width 50, relative height 0.5, three
compartments), a weight in `[60000, 300000]`, a density in `[2, 5]` and a
tangent of at least 7/10, the slot count lies between 1 and 4. -/
theorem slotFormula_range (tanv : ℚ → ℚ) (w rho theta : ℚ)
    (hw : 60000 ≤ w ∧ w ≤ 300000) (hrho : 2 ≤ rho ∧ rho ≤ 5)
    (ht : 7 / 10 ≤ tanv theta) :
    1 ≤ slotFormula tanv 50 (1 / 2) 3 w rho theta ∧
      slotFormula tanv 50 (1 / 2) 3 w rho theta ≤ 4 := by
  obtain ⟨hw1, hw2⟩ := hw
  obtain ⟨hr1, _⟩ := hrho
  have htpos : 0 < tanv theta := by linarith
  have hrpos : 0 < rho * ((3 : Nat) : ℚ) := by
    push_cast
    linarith
  have hvol0 : 0 ≤ w / (rho * ((3 : Nat) : ℚ)) := div_nonneg (by linarith) hrpos.le
  have hvol : w / (rho * ((3 : Nat) : ℚ)) ≤ 50000 := by
    rw [div_le_iff₀ hrpos]
    push_cast
    nlinarith
  have hden : (0 : ℚ) < 50 ^ 3 * (1 / 2) * (2 - 1 / 2) * tanv theta := by positivity
  unfold slotFormula
  simp only []
  constructor
  · rw [Int.one_le_ceil_iff]
    apply mul_pos (div_pos (by norm_num) hden)
    have : 0 < (1 / 12 : ℚ) * 50 ^ 3 * (1 / 2) ^ 2 * (3 - 2 * (1 / 2)) * tanv theta := by
      positivity
    linarith
  · rw [Int.ceil_le, div_mul_eq_mul_div, div_le_iff₀ hden]
    push_cast
    nlinarith

/-- C29: every instance produced by `setParams` (width 50, relativeHeight
0.5, numShipK 3) from cargo weights in `[60000, 300000]`, cargo densities in
`[2, 5]` and response angles whose tangent lies in `[7/10, 6/5]` (the range of
the tangent over `[35 deg, 50 deg]`, rounded outwards) has every
`requiredSlots[s][k]` between 1 and 4 inclusive. -/
theorem setParams_requiredSlots_range (tanv : ℚ → ℚ) (numBerths numShips : Nat)
    (d : Draws) (p : ModelParams) (hp : setParams tanv numBerths numShips d = some p)
    (hw : ∀ s < numShips, 60000 ≤ d.weight s ∧ d.weight s ≤ 300000)
    (hrho : ∀ s < numShips, ∀ k < 3, 2 ≤ d.density s k ∧ d.density s k ≤ 5)
    (htan : ∀ s < numShips, ∀ k < 3,
      7 / 10 ≤ tanv (d.angel s k) ∧ tanv (d.angel s k) ≤ 6 / 5) :
    p.width = 50 ∧ p.relativeHeight = 1 / 2 ∧ p.numShipK = 3 ∧
    ∀ s < p.numShips, ∀ k < p.numShipK,
      1 ≤ p.requiredSlots s k ∧ p.requiredSlots s k ≤ 4 := by
  rw [setParams_eq_generated tanv numBerths numShips d p hp]
  refine ⟨rfl, rfl, rfl, ?_⟩
  intro s hs k hk
  exact slotFormula_range tanv (d.weight s) (d.density s k) (d.angel s k) (hw s hs)
    (hrho s hs k hk) (htan s hs k hk).1

theorem setParams_requiredSlots_range_witness :
    setParams unitTan 9 1 flatDraws = some (generated unitTan 9 1 flatDraws) ∧
    (generated unitTan 9 1 flatDraws).width = 50 ∧
    (generated unitTan 9 1 flatDraws).relativeHeight = 1 / 2 ∧
    (generated unitTan 9 1 flatDraws).numShipK = 3 ∧
    ∀ s < (generated unitTan 9 1 flatDraws).numShips,
      ∀ k < (generated unitTan 9 1 flatDraws).numShipK,
        1 ≤ (generated unitTan 9 1 flatDraws).requiredSlots s k ∧
          (generated unitTan 9 1 flatDraws).requiredSlots s k ≤ 4 :=
  ⟨setParams_flat_one,
    setParams_requiredSlots_range unitTan 9 1 flatDraws (generated unitTan 9 1 flatDraws)
      setParams_flat_one
      (fun _ _ => by simp only [flatDraws]; norm_num)
      (fun _ _ _ _ => by simp only [flatDraws]; norm_num)
      (fun _ _ _ _ => by simp only [unitTan]; norm_num)⟩

/-! ## The objective at a compartment that needs no slot -/

/-- C6 (refuted at `idleParams`): `idleAssign` is feasible for `idleParams`,
whose only compartment has `requiredSlots = 0`.  The objective loop of lines
366-379 divides by `requiredSlots * numShipK = 0` without a guard, so the
objective built by the model builder has no value, while the interpreter,
which skips the compartment (line 804), reports the weighted total 1. -/
theorem objective_undefined_at_idle :
    Feasible idleParams idleAssign ∧
    idleParams.requiredSlots 0 0 * (idleParams.numShipK : Int) = 0 ∧
    zeroDivisorMet idleParams = true ∧
    objective idleParams idleAssign = none ∧
    ∑ s ∈ range idleParams.numShips, weighted idleParams idleAssign s = 1 := by
  refine ⟨idle_feasible, by decide, by decide, ?_, ?_⟩
  · unfold objective transshipmentTotal
    rw [if_pos (by decide)]
    rfl
  · simp [weighted, transCostS, storeCostS, berthTimeS, idleParams, idleAssign, eps,
      guardSpeed]
    norm_num

/-! ## The two interval merges agree -/

theorem toDigitsCore_eq (fuel : Nat) : ∀ (n : Nat) (ds : List Char), n < fuel →
    Nat.toDigitsCore 10 fuel n ds = showNat n ++ ds := by
  induction fuel with
  | zero =>
    intro n ds h
    omega
  | succ fuel ih =>
    intro n ds h
    unfold Nat.toDigitsCore
    simp only []
    by_cases hq : n / 10 = 0
    · rw [if_pos hq]
      have hlt : n < 10 := by omega
      unfold showNat
      by_cases hn : n = 0
      · rw [if_pos hn, hn]
        rfl
      · rw [if_neg hn, Nat.digits_of_lt 10 n hn hlt, Nat.mod_eq_of_lt hlt]
        rfl
    · rw [if_neg hq, ih (n / 10) _ (by omega)]
      have hn : n ≠ 0 := by
        intro h0
        rw [h0] at hq
        exact hq rfl
      unfold showNat
      rw [if_neg hq, if_neg hn, Nat.digits_def' (by omega : 1 < 10) (Nat.pos_of_ne_zero hn)]
      simp

/-- The decimal text of a natural number, as `toString` produces it. -/
theorem toString_nat_toList (n : Nat) : (toString n).toList = showNat n := by
  show Nat.toDigitsCore 10 (n + 1) n [] = showNat n
  rw [toDigitsCore_eq (n + 1) n [] (by omega), List.append_nil]

/-- The decimal text of an integer, as `toString` produces it. -/
theorem toString_int_toList (i : Int) : (toString i).toList = showInt i := by
  cases i with
  | ofNat n => exact toString_nat_toList n
  | negSucc n =>
    show ("-" ++ toString (n + 1)).toList = '-' :: showNat (n + 1)
    rw [String.toList, String.data_append]
    exact congrArg (fun l => '-' :: l) (toString_nat_toList (n + 1))

theorem renderRun_toList (a b : Int) :
    (renderRun (a, b)).toList =
      if a = b then showInt a else showInt a ++ '-' :: showInt b := by
  unfold renderRun
  by_cases h : a = b
  · simp only [h, if_true]
    exact toString_int_toList b
  · simp only [h, if_false]
    simp only [String.toList, String.data_append]
    have ha := toString_int_toList a
    have hb := toString_int_toList b
    simp only [String.toList] at ha hb
    rw [ha, hb]
    simp

theorem showNat_isDigit (n : Nat) : ∀ c ∈ showNat n, c.isDigit = true := by
  intro c hc
  obtain ⟨d, hd, rfl⟩ := showNat_digits n c hc
  exact (digitChar_facts d hd).1

theorem showNat_head_ne_minus (n : Nat) : (showNat n).head? ≠ some '-' := by
  intro h
  obtain ⟨c, l, hcl⟩ := List.exists_cons_of_ne_nil (showNat_ne_nil n)
  rw [hcl] at h
  simp only [List.head?_cons, Option.some.injEq] at h
  have := showNat_isDigit n c (by rw [hcl]; exact List.mem_cons_self _ _)
  rw [h] at this
  exact absurd this (by decide)

theorem readInt_showInt (i : Int) : readInt (showInt i) = i := by
  cases i with
  | ofNat n =>
    have h : showInt (Int.ofNat n) = showNat n := rfl
    rw [h]
    unfold readInt
    rw [if_neg (showNat_head_ne_minus n), digitsValue_showNat]
    rfl
  | negSucc n =>
    have h : showInt (Int.negSucc n) = '-' :: showNat (n + 1) := rfl
    rw [h]
    unfold readInt
    simp only [List.head?_cons, if_true, List.tail_cons]
    rw [digitsValue_showNat]
    rfl

/-- The text of an integer is an optional `-` followed by its digits. -/
theorem showInt_shape (i : Int) : ∃ m : Nat,
    (showInt i = showNat m ∨ showInt i = '-' :: showNat m) := by
  cases i with
  | ofNat n => exact ⟨n, Or.inl rfl⟩
  | negSucc n => exact ⟨n + 1, Or.inr rfl⟩

theorem takeWhile_digits (m : Nat) (rest : List Char)
    (hrest : rest = [] ∨ ∃ r, rest = '-' :: r) :
    (showNat m ++ rest).takeWhile Char.isDigit = showNat m ∧
      (showNat m ++ rest).dropWhile Char.isDigit = rest := by
  rw [List.takeWhile_append_of_pos (showNat_isDigit m),
    List.dropWhile_append_of_pos (showNat_isDigit m)]
  rcases hrest with h | ⟨r, h⟩
  · rw [h]
    simp
  · rw [h]
    constructor
    · rw [List.takeWhile_cons, if_neg (by decide), List.append_nil]
    · rw [List.dropWhile_cons, if_neg (by decide)]

theorem run_of_rest (x : Int) (rest : List Char) :
    (match rest with
      | [] => (x, x)
      | _ :: r => (x, readInt r)) =
    (x, if rest = [] then x else readInt rest.tail) := by
  cases rest with
  | nil => rfl
  | cons c r => simp

/-- Reading a piece made of the text of an integer followed by nothing or by
`-` and a rest: the leading integer and what is left. -/
theorem readRun_parts (i : Int) (rest : List Char)
    (hrest : rest = [] ∨ ∃ r, rest = '-' :: r) :
    readRun (showInt i ++ rest) =
      (i, if rest = [] then i else readInt rest.tail) := by
  obtain ⟨m, hm | hm⟩ := showInt_shape i
  · have hhead : (showInt i ++ rest).head? ≠ some '-' := by
      rw [hm]
      obtain ⟨c, l, hcl⟩ := List.exists_cons_of_ne_nil (showNat_ne_nil m)
      have := showNat_head_ne_minus m
      rw [hcl] at this ⊢
      exact this
    unfold readRun
    simp only [if_neg hhead, List.nil_append]
    rw [hm, (takeWhile_digits m rest hrest).1, (takeWhile_digits m rest hrest).2]
    have hF : readInt (showNat m) = i := by
      rw [← hm]
      exact readInt_showInt i
    rw [hF]
    exact run_of_rest i rest
  · have hhead : (showInt i ++ rest).head? = some '-' := by
      rw [hm]
      rfl
    unfold readRun
    simp only [if_pos hhead]
    have htail : (showInt i ++ rest).tail = showNat m ++ rest := by
      rw [hm]
      rfl
    rw [htail, (takeWhile_digits m rest hrest).1, (takeWhile_digits m rest hrest).2]
    have hfirst : ['-'] ++ showNat m = showInt i := by
      rw [hm]
      rfl
    rw [hfirst, readInt_showInt]
    exact run_of_rest i rest

/-- Reading a rendered run gives the run back. -/
theorem readRun_renderRun (a b : Int) : readRun (renderRun (a, b)).toList = (a, b) := by
  rw [renderRun_toList]
  by_cases h : a = b
  · rw [if_pos h]
    have := readRun_parts a [] (Or.inl rfl)
    rw [List.append_nil] at this
    rw [this, h]
    simp
  · rw [if_neg h, readRun_parts a ('-' :: showInt b) (Or.inr ⟨_, rfl⟩)]
    simp [readInt_showInt]

theorem showInt_no_semi (i : Int) : ∀ c ∈ showInt i, c ≠ ';' := by
  intro c hc
  obtain ⟨m, hm | hm⟩ := showInt_shape i
  · rw [hm] at hc
    have := showNat_isDigit m c hc
    intro h
    rw [h] at this
    exact absurd this (by decide)
  · rw [hm] at hc
    rcases List.mem_cons.mp hc with h | h
    · rw [h]
      decide
    · have := showNat_isDigit m c h
      intro h'
      rw [h'] at this
      exact absurd this (by decide)

theorem renderRun_no_semi (r : Int × Int) : ∀ c ∈ (renderRun r).toList, c ≠ ';' := by
  obtain ⟨a, b⟩ := r
  rw [renderRun_toList]
  intro c hc
  by_cases h : a = b
  · rw [if_pos h] at hc
    exact showInt_no_semi a c hc
  · rw [if_neg h] at hc
    rcases List.mem_append.mp hc with h1 | h1
    · exact showInt_no_semi a c h1
    · rcases List.mem_cons.mp h1 with h2 | h2
      · rw [h2]
        decide
      · exact showInt_no_semi b c h2

theorem splitSemi_of_no_semi (a : List Char) (h : ∀ c ∈ a, c ≠ ';') :
    splitSemi a = [a] := by
  induction a with
  | nil => rfl
  | cons c cs ih =>
    have hc : c ≠ ';' := h c (List.mem_cons_self _ _)
    have hcs := ih (fun d hd => h d (List.mem_cons_of_mem _ hd))
    simp only [splitSemi, if_neg hc, hcs]

theorem splitSemi_append (a rest : List Char) (h : ∀ c ∈ a, c ≠ ';') :
    splitSemi (a ++ ';' :: rest) = a :: splitSemi rest := by
  induction a with
  | nil => simp [splitSemi]
  | cons c cs ih =>
    have hc : c ≠ ';' := h c (List.mem_cons_self _ _)
    have hcs := ih (fun d hd => h d (List.mem_cons_of_mem _ hd))
    have happ : (c :: cs) ++ ';' :: rest = c :: (cs ++ ';' :: rest) := rfl
    rw [happ, splitSemi, if_neg hc, hcs]

/-- Reading the `;`-joined renderings of a non-empty list of runs gives the
list back. -/
theorem readRuns_joinSemi : ∀ runs : List (Int × Int), runs ≠ [] →
    readRuns (joinSemi (runs.map renderRun)) = runs
  | [], h => absurd rfl h
  | [r], _ => by
    show (splitSemi (renderRun r).toList).map readRun = [r]
    rw [splitSemi_of_no_semi _ (renderRun_no_semi r)]
    simp only [List.map_cons, List.map_nil]
    rw [readRun_renderRun r.1 r.2]
  | r :: r' :: l, _ => by
    have ih := readRuns_joinSemi (r' :: l) (List.cons_ne_nil _ _)
    unfold readRuns at ih ⊢
    have hstr : (joinSemi ((r :: r' :: l).map renderRun)).toList =
        (renderRun r).toList ++ ';' :: (joinSemi ((r' :: l).map renderRun)).toList := by
      simp only [List.map_cons, joinSemi, String.toList, String.data_append]
      simp
    rw [hstr, splitSemi_append _ _ (renderRun_no_semi r), List.map_cons, ih,
      readRun_renderRun r.1 r.2]

/-- C30: the two interval merges agree.  For a non-empty list `occ` of slot
indices (in particular a strictly increasing one) the intervals.csv merge
writes a string, and the runs this string denotes (its pieces between the
`;`, each read as `start` or `start-end`) are exactly the `(start, end)` pairs
produced by the console merge: same number of runs, same start and end for
each, in the same order.  For `occ = [3,7,8,9]` the string is `3;7-9` and both
give the runs `(3,3)`, `(7,9)`. -/
theorem merges_agree (occ : List Int) (hne : occ ≠ []) :
    ∃ str : String, csvMerge occ = some str ∧
      readRuns str = consoleMerge occ ∧
      (readRuns str).length = (consoleMerge occ).length ∧
      (∀ i : Nat, (readRuns str).get? i = (consoleMerge occ).get? i) ∧
      csvMerge [3, 7, 8, 9] = some "3;7-9" ∧
      readRuns "3;7-9" = [(3, 3), (7, 9)] ∧
      consoleMerge [3, 7, 8, 9] = [(3, 3), (7, 9)] := by
  cases occ with
  | nil => exact absurd rfl hne
  | cons first rest =>
    have hread : readRuns (csvLoop rest first first "") = consoleMerge (first :: rest) := by
      rw [csvLoop_eq_join rest first first ""]
      have h := readRuns_joinSemi (mergeLoop rest first first [])
        (mergeLoop_ne_nil rest first first)
      have he : "" ++ joinSemi ((mergeLoop rest first first []).map renderRun)
          = joinSemi ((mergeLoop rest first first []).map renderRun) := by
        simp
      rw [he, h]
      rfl
    refine ⟨csvLoop rest first first "", rfl, hread, by rw [hread],
      fun i => by rw [hread], by decide, by decide, by decide⟩

theorem merges_agree_witness :
    ∃ str : String, csvMerge [2, 3, 5, 6, 9] = some str ∧
      readRuns str = consoleMerge [2, 3, 5, 6, 9] ∧
      (readRuns str).length = (consoleMerge [2, 3, 5, 6, 9]).length ∧
      (∀ i : Nat, (readRuns str).get? i = (consoleMerge [2, 3, 5, 6, 9]).get? i) ∧
      csvMerge [3, 7, 8, 9] = some "3;7-9" ∧
      readRuns "3;7-9" = [(3, 3), (7, 9)] ∧
      consoleMerge [3, 7, 8, 9] = [(3, 3), (7, 9)] :=
  merges_agree [2, 3, 5, 6, 9] (by decide)

/-! ## `main` on an over-capacity instance -/

theorem firstBad_eq_none (p : ModelParams) (acc : List (Arr × List Int))
    (h : ∀ a ∈ acc, inBounds (dimsOf p a.1) a.2 = true) : firstBad p acc = none := by
  unfold firstBad
  rw [List.find?_eq_none]
  intro a ha
  simp [h a ha]

theorem firstBad_some (p : ModelParams) (acc : List (Arr × List Int))
    (a : Arr × List Int) (h : firstBad p acc = some a) :
    a ∈ acc ∧ inBounds (dimsOf p a.1) a.2 = false := by
  unfold firstBad at h
  have h1 := List.find?_some h
  have h2 := List.mem_of_find?_eq_some h
  simp only [Bool.not_eq_eq_eq_not, Bool.not_true] at h1
  exact ⟨h2, h1⟩

/-- When no library call throws and every index is in bounds, every nest is
completed and the solver is called once. -/
theorem runPhases_complete (p : ModelParams) (throws : Nat → Bool)
    (hthrows : ∀ n, throws n = false) :
    ∀ (phases : List Phase) (n : Nat) (st : MainState),
      (∀ ph ∈ phases, ∀ a ∈ ph.accesses, inBounds (dimsOf p a.1) a.2 = true) →
      runPhases p throws n phases st =
        (⟨st.boolVars ++ phases.flatMap (fun ph => ph.boolVars),
          st.constraints ++ phases.flatMap (fun ph => ph.constraints),
          st.solverCalls + 1⟩, Status.solverCalled) := by
  intro phases
  induction phases with
  | nil =>
    intro n st _
    simp [runPhases, hthrows n]
  | cons ph rest ih =>
    intro n st h
    have hph := firstBad_eq_none p ph.accesses (h ph (List.mem_cons_self _ _))
    simp only [runPhases, hthrows n, Bool.false_eq_true, if_false, hph]
    rw [ih (n + 1) _ (fun q hq => h q (List.mem_cons_of_mem _ hq))]
    simp [List.flatMap_cons, List.append_assoc]

/-- When no library call throws and some index is out of bounds, the run ends
at an index out of bounds, before any solver call. -/
theorem runPhases_undefined (p : ModelParams) (throws : Nat → Bool)
    (hthrows : ∀ n, throws n = false) :
    ∀ (phases : List Phase) (n : Nat) (st : MainState),
      (∃ ph ∈ phases, ∃ a ∈ ph.accesses, inBounds (dimsOf p a.1) a.2 = false) →
      ∃ a, (runPhases p throws n phases st).2 = Status.undefinedIndex a ∧
        inBounds (dimsOf p a.1) a.2 = false ∧
        (runPhases p throws n phases st).1.solverCalls = st.solverCalls := by
  intro phases
  induction phases with
  | nil =>
    rintro n st ⟨ph, hph, _⟩
    exact absurd hph (List.not_mem_nil _)
  | cons ph rest ih =>
    intro n st hex
    cases hfb : firstBad p ph.accesses with
    | some a =>
      refine ⟨a, ?_, (firstBad_some p _ a hfb).2, ?_⟩
      · simp only [runPhases, hthrows n, Bool.false_eq_true, if_false, hfb]
      · simp only [runPhases, hthrows n, Bool.false_eq_true, if_false, hfb]
    | none =>
      have hrest : ∃ q ∈ rest, ∃ a ∈ q.accesses, inBounds (dimsOf p a.1) a.2 = false := by
        obtain ⟨q, hq, a, ha, hbad⟩ := hex
        rcases List.mem_cons.mp hq with h | h
        · subst h
          unfold firstBad at hfb
          rw [List.find?_eq_none] at hfb
          have := hfb a ha
          simp [hbad] at this
        · exact ⟨q, h, a, ha, hbad⟩
      obtain ⟨a, h1, h2, h3⟩ := ih (n + 1)
        ⟨st.boolVars ++ ph.boolVars, st.constraints ++ ph.constraints, st.solverCalls⟩ hrest
      refine ⟨a, ?_, h2, ?_⟩
      · simp only [runPhases, hthrows n, Bool.false_eq_true, if_false, hfb]
        exact h1
      · simp only [runPhases, hthrows n, Bool.false_eq_true, if_false, hfb]
        exact h3

/-- The variables constructed are never taken back: the state a run starts
from is a prefix of the state it ends in. -/
theorem runPhases_prefix (p : ModelParams) (throws : Nat → Bool) :
    ∀ (phases : List Phase) (n : Nat) (st : MainState),
      st.boolVars <+: (runPhases p throws n phases st).1.boolVars := by
  intro phases
  induction phases with
  | nil =>
    intro n st
    unfold runPhases
    by_cases h : throws n = true
    · rw [if_pos h]
    · rw [if_neg h]
  | cons ph rest ih =>
    intro n st
    unfold runPhases
    by_cases h : throws n = true
    · rw [if_pos h]
    · rw [if_neg h]
      cases hfb : firstBad p ph.accesses with
      | some a => exact List.prefix_refl _
      | none =>
        exact List.IsPrefix.trans (List.prefix_append st.boolVars ph.boolVars)
          (ih (n + 1)
            ⟨st.boolVars ++ ph.boolVars, st.constraints ++ ph.constraints, st.solverCalls⟩)

/-- The accesses of the nests are the accesses of `main`. -/
theorem mainPhases_accesses (p : ModelParams) :
    (mainPhases p).flatMap (fun ph => ph.accesses) = accesses p := by
  simp [mainPhases, accesses, List.flatMap_cons, List.append_assoc]

theorem mainPhases_boolVars (p : ModelParams) :
    (mainPhases p).flatMap (fun ph => ph.boolVars) = declaredVars p := by
  simp [mainPhases, declaredVars, List.flatMap_cons]

theorem mainPhases_constraints (p : ModelParams) :
    (mainPhases p).flatMap (fun ph => ph.constraints) = builtConstraints p := by
  simp [mainPhases, builtConstraints, List.flatMap_cons, List.append_assoc]

theorem mainPhases_in_bounds (p : ModelParams) (hV : 1 ≤ p.numSlotsPerRow) :
    ∀ ph ∈ mainPhases p, ∀ a ∈ ph.accesses, inBounds (dimsOf p a.1) a.2 = true := by
  intro ph hph a ha
  have hmem : a ∈ (mainPhases p).flatMap (fun ph => ph.accesses) :=
    List.mem_flatMap.mpr ⟨ph, hph, ha⟩
  rw [mainPhases_accesses] at hmem
  simp only [accesses, List.mem_append] at hmem
  rcases hmem with
    (((((((((((((h | h) | h) | h) | h) | h) | h) | h) | h) | h) | h) | h) | h) | h) | h
  · exact accDeclare_ok p a h
  · exact accTransshipment_ok p a h
  · exact accStorage_ok p a h
  · exact accBerthTime_ok p a h
  · exact accSingleBerth_ok p a h
  · exact accSlotCount_ok p a h
  · exact accSlotExclusive_ok p a h
  · exact accSingleRow_ok p a h
  · exact accRowLink_ok p a h
  · exact accContiguity_ok p hV a h
  · exact accStartAfter_ok p a h
  · exact accOrder_ok p a h
  · exact accLinDeclare_ok p a h
  · exact accLinear_ok p a h
  · exact accNoOverlap_ok p a h

/-- C4 (as stated, refuted): for `overParams` the total demand 2 exceeds the
capacity 1, yet `main` does not reject the instance: when no library call
throws it constructs the nine Boolean variables, adds the eight constraints
and calls the solver. -/
theorem main_builds_over_capacity :
    totalRequiredSlots overParams > totalAvailableSlots overParams ∧
    mainRun overParams (fun _ => false) =
      (⟨[Var.z 0 0, Var.q 0 0 0, Var.y 0 0, Var.f 0 0 0, Var.x 0 0 0 0, Var.h 0 0 0 0,
          Var.omega 0 0 0, Var.lambda 0 0 0, Var.mu 0 0 0],
        [Con.singleBerth 0, Con.slotCount 0 0, Con.slotExclusive 0 0, Con.singleRow 0 0,
          Con.rowLink 0 0 0, Con.boundarySum 0 0 0, Con.boundaryLast 0 0 0,
          Con.startAfterShip 0 0],
        1⟩, Status.solverCalled) := by
  refine ⟨?_, ?_⟩
  · simp [totalRequiredSlots, totalAvailableSlots, overParams]
  · decide
/-- C4 (amended): for every loaded instance whose total demand exceeds the
capacity, `main` performs no capacity test.  Unless a library call of the
first loop throws, the Boolean variables of the declaration loop of lines
280-361 are constructed (with at least one ship and one berth, `z[0][0]`
among them).  When no library call throws and `numSlotsPerRow >= 1`, `main`
constructs every declared variable, adds every constraint and calls the
solver once.  When no library call throws, `numSlotsPerRow = 0` and there is
a row, the run reaches an index out of bounds (line 497) before any solver
call.  The model built from the instance has no feasible assignment. -/
theorem main_over_capacity_infeasible (p : ModelParams)
    (hover : totalRequiredSlots p > totalAvailableSlots p) :
    (∀ throws : Nat → Bool, throws 0 = false →
      (List.range p.numShips).flatMap (shipVars p) <+: (mainRun p throws).1.boolVars ∧
      (1 ≤ p.numShips → 1 ≤ p.numBerths → Var.z 0 0 ∈ (mainRun p throws).1.boolVars)) ∧
    (∀ throws : Nat → Bool, (∀ n, throws n = false) → 1 ≤ p.numSlotsPerRow →
      mainRun p throws =
        (⟨declaredVars p, builtConstraints p, 1⟩, Status.solverCalled)) ∧
    (∀ throws : Nat → Bool, (∀ n, throws n = false) → p.numSlotsPerRow = 0 →
      1 ≤ p.numRows →
      ∃ a, (mainRun p throws).2 = Status.undefinedIndex a ∧
        inBounds (dimsOf p a.1) a.2 = false ∧ (mainRun p throws).1.solverCalls = 0) ∧
    ∀ a : Assignment, ¬ Feasible p a := by
  refine ⟨?_, ?_, ?_, ?_⟩
  · intro throws h0
    have hrun : mainRun p throws =
        runPhases p throws 1 (mainPhases p).tail
          ⟨[] ++ (List.range p.numShips).flatMap (shipVars p), [] ++ [], 0⟩ := by
      unfold mainRun mainPhases
      simp only [runPhases, h0, Bool.false_eq_true, if_false,
        firstBad_eq_none p (accDeclare p) (accDeclare_ok p), List.tail_cons]
    have hpre : (List.range p.numShips).flatMap (shipVars p)
        <+: (mainRun p throws).1.boolVars := by
      rw [hrun]
      exact runPhases_prefix p throws _ 1
        ⟨[] ++ (List.range p.numShips).flatMap (shipVars p), [] ++ [], 0⟩
    refine ⟨hpre, ?_⟩
    intro hS hB
    apply hpre.subset
    rw [List.mem_flatMap]
    refine ⟨0, List.mem_range.mpr hS, ?_⟩
    simp only [shipVars, List.mem_append, List.mem_map, List.mem_range]
    exact Or.inl (Or.inl (Or.inl (Or.inl (Or.inl ⟨0, hB, rfl⟩))))
  · intro throws hthrows hV
    unfold mainRun
    rw [runPhases_complete p throws hthrows (mainPhases p) 0 ⟨[], [], 0⟩
      (mainPhases_in_bounds p hV), mainPhases_boolVars, mainPhases_constraints]
    rfl
  · intro throws hthrows hV hR
    have hS : 1 ≤ p.numShips := by
      by_contra h
      have h0 : p.numShips = 0 := by omega
      simp [totalRequiredSlots, totalAvailableSlots, h0, hV] at hover
    have hK : 1 ≤ p.numShipK := by
      by_contra h
      have h0 : p.numShipK = 0 := by omega
      simp [totalRequiredSlots, totalAvailableSlots, h0, hV] at hover
    obtain ⟨hmem, hbad⟩ := last_slot_access_out_of_bounds p hV hS hK hR
    rw [← mainPhases_accesses, List.mem_flatMap] at hmem
    obtain ⟨ph, hph, ha⟩ := hmem
    obtain ⟨a, h1, h2, h3⟩ := runPhases_undefined p throws hthrows (mainPhases p) 0
      ⟨[], [], 0⟩ ⟨ph, hph, _, ha, hbad⟩
    exact ⟨a, h1, h2, h3⟩
  · intro a hf
    exact absurd (demand_le_capacity_of_feasible p a hf) (not_le.mpr hover)

theorem main_over_capacity_infeasible_witness :
    totalRequiredSlots overParams > totalAvailableSlots overParams ∧
    (∀ throws : Nat → Bool, throws 0 = false →
      (List.range overParams.numShips).flatMap (shipVars overParams)
        <+: (mainRun overParams throws).1.boolVars ∧
      (1 ≤ overParams.numShips → 1 ≤ overParams.numBerths →
        Var.z 0 0 ∈ (mainRun overParams throws).1.boolVars)) ∧
    (∀ throws : Nat → Bool, (∀ n, throws n = false) → 1 ≤ overParams.numSlotsPerRow →
      mainRun overParams throws =
        (⟨declaredVars overParams, builtConstraints overParams, 1⟩, Status.solverCalled)) ∧
    (∀ throws : Nat → Bool, (∀ n, throws n = false) → overParams.numSlotsPerRow = 0 →
      1 ≤ overParams.numRows →
      ∃ a, (mainRun overParams throws).2 = Status.undefinedIndex a ∧
        inBounds (dimsOf overParams a.1) a.2 = false ∧
        (mainRun overParams throws).1.solverCalls = 0) ∧
    (∀ a : Assignment, ¬ Feasible overParams a) ∧
    totalRequiredSlots noSlotParams > totalAvailableSlots noSlotParams ∧
    ∃ a, (mainRun noSlotParams (fun _ => false)).2 = Status.undefinedIndex a ∧
      inBounds (dimsOf noSlotParams a.1) a.2 = false ∧
      (mainRun noSlotParams (fun _ => false)).1.solverCalls = 0 :=
  have hover : totalRequiredSlots overParams > totalAvailableSlots overParams := by
    simp [totalRequiredSlots, totalAvailableSlots, overParams]
  have hno : totalRequiredSlots noSlotParams > totalAvailableSlots noSlotParams := by
    simp [totalRequiredSlots, totalAvailableSlots, noSlotParams, demoParams,
      sum_range_succ]
  ⟨hover, (main_over_capacity_infeasible overParams hover).1,
    (main_over_capacity_infeasible overParams hover).2.1,
    (main_over_capacity_infeasible overParams hover).2.2.1,
    (main_over_capacity_infeasible overParams hover).2.2.2,
    hno,
    (main_over_capacity_infeasible noSlotParams hno).2.2.1 (fun _ => false)
      (fun _ => rfl) rfl (by decide)⟩

/-- With a row of no slot, `main` on `noSlotParams` reaches the index `-1` of
line 497 after the declaration loop and before any solver call. -/
theorem main_noSlot_undefined :
    mainRun noSlotParams (fun _ => false) =
      (⟨(List.range noSlotParams.numShips).flatMap (shipVars noSlotParams),
        conSingleBerth noSlotParams ++ conSlotCount noSlotParams ++
          conSlotExclusive noSlotParams ++ conSingleRow noSlotParams ++
          conRowLink noSlotParams, 0⟩,
        Status.undefinedIndex (Arr.x, [0, 0, 0, -1])) := by
  decide

end DiscreteBerth
